import Mathlib

/-!
# althttpd: a verification development

A shallow embedding of parts of `althttpd.c` (the sanitizer, the steps of
`ProcessOneRequest` that check the request path and resolve the file, the
response writer, the logger, the authorization check, the static responder,
the CGI reply framer, the SCGI relay with its header block, the `Range:`
header, the size limit of a POST request, `SetEnv`, `GetMimeType`,
`Decode64`, `Rfc822Date`, `ParseRfc822Date`, `Escape` and the choice of the
content root) together with theorems about them.  Line numbers refer to the
source file.

Conventions of the embedding.

* A byte is a `Nat` (the value of an `unsigned char`, so `< 256` for every
  byte the program can hold).  Text is a `List Nat`.
* A `char *` that the code writes through is a memory region `List Nat`
  addressed by index; reading past the end of the list yields the NUL byte,
  so a region without a `0` stands for the string with its terminator right
  behind it.  `cstr` is the C string that starts at index `0`.
* A `char *` that the code only reads is the text it points to.
* A call of `exit()` is the result `Res.exit`; a function that returns
  gives `Res.ret`.
* Loops that the source bounds only by the data carry a fuel argument; the
  top-level functions supply a bound, and lemmas show that the bound is
  adequate.
* `malloc` and `realloc` are taken to succeed and `int` arithmetic is done
  without wrap-around; a conversion between integer types of different
  width is explicit (`toSizeT`, `toInt32`, `castInt`), and so is the `int`
  that `atoi` and `sscanf` store (`intOfDigits`).
-/

namespace Althttpd

/-! ## Bytes and C strings -/

/-- Byte string literal: the bytes of an ASCII text. -/
def bytes (s : String) : List Nat := s.toList.map Char.toNat

/-- Read of `z[i]`: bytes past the end of the region read as NUL. -/
def rd (m : List Nat) (i : Nat) : Nat := m.getD i 0

/-- Write of `z[i] = v`. -/
def wr (m : List Nat) (i v : Nat) : List Nat := m.set i v

/-- The C string stored at the start of a region: the bytes before the
first NUL. -/
def cstr (m : List Nat) : List Nat := m.takeWhile (fun c => c != 0)

/-! ## sanitizeString (lines 1204-1256) -/

/-- The table `allowedInName[]`, lines 1212-1230. -/
def allowedInName : List Nat :=
  [ 0, 0, 0, 0, 0, 0, 0, 0, 0, 0, 0, 0, 0, 0, 0, 0,
    0, 0, 0, 0, 0, 0, 0, 0, 0, 0, 0, 0, 0, 0, 0, 0,
    0, 0, 0, 0, 0, 0, 0, 0, 0, 0, 0, 0, 1, 1, 1, 1,
    1, 1, 1, 1, 1, 1, 1, 1, 1, 1, 1, 0, 0, 0, 0, 0,
    0, 1, 1, 1, 1, 1, 1, 1, 1, 1, 1, 1, 1, 1, 1, 1,
    1, 1, 1, 1, 1, 1, 1, 1, 1, 1, 1, 0, 0, 0, 0, 1,
    0, 1, 1, 1, 1, 1, 1, 1, 1, 1, 1, 1, 1, 1, 1, 1,
    1, 1, 1, 1, 1, 1, 1, 1, 1, 1, 1, 0, 0, 0, 1, 0,
    0, 0, 0, 0, 0, 0, 0, 0, 0, 0, 0, 0, 0, 0, 0, 0,
    0, 0, 0, 0, 0, 0, 0, 0, 0, 0, 0, 0, 0, 0, 0, 0,
    0, 0, 0, 0, 0, 0, 0, 0, 0, 0, 0, 0, 0, 0, 0, 0,
    0, 0, 0, 0, 0, 0, 0, 0, 0, 0, 0, 0, 0, 0, 0, 0,
    0, 0, 0, 0, 0, 0, 0, 0, 0, 0, 0, 0, 0, 0, 0, 0,
    0, 0, 0, 0, 0, 0, 0, 0, 0, 0, 0, 0, 0, 0, 0, 0,
    0, 0, 0, 0, 0, 0, 0, 0, 0, 0, 0, 0, 0, 0, 0, 0,
    0, 0, 0, 0, 0, 0, 0, 0, 0, 0, 0, 0, 0, 0, 0, 0 ]

/-- The test `allowedInName[*(unsigned char*)z]` of line 1245. -/
def isAllowed (c : Nat) : Bool := allowedInName.getD c 0 != 0

/-- The inner loop `for(i=3; (z[i-2] = z[i])!=0; i++){}` of line 1248, at
pointer `z`, entered with loop variable `i`. -/
def shiftLoop : Nat → List Nat → Nat → Nat → List Nat
  | 0, m, _, _ => m
  | fuel + 1, m, z, i =>
    let v := rd m (z + i)
    let m1 := wr m (z + i - 2) v
    if v != 0 then shiftLoop fuel m1 z (i + 1) else m1

/-- The loop `while( *z ){ ... z++; }` of lines 1244-1254, at pointer `z`
with `nChange` changes counted so far. -/
def sanitizeLoop : Nat → List Nat → Nat → Nat → List Nat × Nat
  | 0, m, _, nChange => (m, nChange)
  | fuel + 1, m, z, nChange =>
    if rd m z = 0 then (m, nChange)
    else if !isAllowed (rd m z) then
      let m1 :=
        if rd m z = 37 ∧ rd m (z + 1) ≠ 0 ∧ rd m (z + 2) ≠ 0 then
          shiftLoop (m.length + 1) m z 3
        else m
      sanitizeLoop fuel (wr m1 z 95) (z + 1) (nChange + 1)
    else sanitizeLoop fuel m (z + 1) nChange

/-- The function `sanitizeString(char *z)`: the region after the call and
the returned `nChange`.  A string of `n` bytes needs at most `n + 1` loop
tests; the counter is an `int` in the source and cannot overflow on the
1000-byte line buffers the callers pass. -/
def sanitizeString (m : List Nat) : List Nat × Nat :=
  sanitizeLoop (m.length + 1) m 0 0

/-- The allow-set `[0-9a-zA-Z,-./:_~]` as the specification writes it. -/
def inAllowSet (c : Nat) : Prop :=
  (48 ≤ c ∧ c ≤ 57) ∨ (97 ≤ c ∧ c ≤ 122) ∨ (65 ≤ c ∧ c ≤ 90) ∨
  c = 44 ∨ c = 45 ∨ c = 46 ∨ c = 47 ∨ c = 58 ∨ c = 95 ∨ c = 126

instance (c : Nat) : Decidable (inAllowSet c) := by
  unfold inAllowSet; infer_instance

/-- The left-to-right reference transformer of the specification: an allowed
byte is copied; a `%` followed by at least two more bytes consumes three
bytes and emits one `_`; any other byte emits one `_`.  The second component
counts the replacements. -/
def sanitizeRef : List Nat → List Nat × Nat
  | [] => ([], 0)
  | c :: a :: b :: rest2 =>
    if inAllowSet c then
      (c :: (sanitizeRef (a :: b :: rest2)).1, (sanitizeRef (a :: b :: rest2)).2)
    else if c = 37 then
      (95 :: (sanitizeRef rest2).1, (sanitizeRef rest2).2 + 1)
    else
      (95 :: (sanitizeRef (a :: b :: rest2)).1, (sanitizeRef (a :: b :: rest2)).2 + 1)
  | c :: rest =>
    if inAllowSet c then (c :: (sanitizeRef rest).1, (sanitizeRef rest).2)
    else (95 :: (sanitizeRef rest).1, (sanitizeRef rest).2 + 1)

/-! ## C library helpers used by the embedded functions -/

/-- The test `isspace(c)` in the C locale. -/
def isspace (c : Nat) : Bool := c = 32 || (9 ≤ c && c ≤ 13)

/-- The function `tolower(c)` in the C locale. -/
def tolower (c : Nat) : Nat := if 65 ≤ c ∧ c ≤ 90 then c + 32 else c

/-- The test `strcasecmp(a,b)==0` on two C strings. -/
def strcasecmpEq (a b : List Nat) : Bool := a.map tolower = b.map tolower

/-- The test `strncasecmp(a,b,n)==0` on two C strings. -/
def strncasecmpEq (a b : List Nat) (n : Nat) : Bool :=
  (a.take n).map tolower = (b.take n).map tolower

/-- The test `strncmp(a,b,n)==0` on two C strings. -/
def strncmpEq (a b : List Nat) (n : Nat) : Bool := a.take n = b.take n

/-- The digits read by `atoi`, accumulated left to right. -/
def atoiDigits : List Nat → Nat → Nat
  | [], acc => acc
  | c :: rest, acc => if 48 ≤ c ∧ c ≤ 57 then atoiDigits rest (acc * 10 + (c - 48)) else acc

/-- The conversion `(int)n` of a value `n` of a 64-bit integer type (`long`,
`off_t`): the value modulo 2^32, taken in the range of `int`. -/
def castInt (n : Int) : Int :=
  if n % 4294967296 < 2147483648 then n % 4294967296 else n % 4294967296 - 4294967296

/-- The value that `strtol` returns for digits whose mathematical value is
`v`: a `long` of 64 bits, `LONG_MAX` or `LONG_MIN` when `v` is outside its
range. -/
def clampLong (v : Int) : Int :=
  if v > 9223372036854775807 then 9223372036854775807
  else if v < -9223372036854775808 then -9223372036854775808
  else v

/-- The `int` that `atoi` and the conversion `%d` of `sscanf` store for
digits whose mathematical value is `v`.  C leaves the result undefined when
`v` is outside the range of `int`; the value taken here is the one of the C
library the program runs with, which converts with `strtol` and then to
`int` (the digits of 2^32 give 0, those of 2^32+2 give 2). -/
def intOfDigits (v : Int) : Int := castInt (clampLong v)

/-- The function `atoi`: leading white space, an optional sign, decimal
digits. -/
def atoi (s : List Nat) : Int :=
  match s.dropWhile isspace with
  | 45 :: r => intOfDigits (- (atoiDigits r 0 : Int))
  | 43 :: r => intOfDigits (atoiDigits r 0 : Int)
  | r => intOfDigits (atoiDigits r 0 : Int)

/-- Decimal digits of a natural number, as `printf("%d")` writes them. -/
def fmtNat (n : Nat) : List Nat := (Nat.toDigits 10 n).map Char.toNat

/-- The conversion `%d` of `printf`. -/
def fmtD (n : Int) : List Nat :=
  if n < 0 then 45 :: fmtNat (-n).toNat else fmtNat n.toNat

/-- The conversion `%x` of `printf` applied to an `int`. -/
def fmtX (n : Int) : List Nat := (Nat.toDigits 16 (n % 4294967296).toNat).map Char.toNat

/-- One call `fgets(buf, size, in)` on the unread bytes `inp` of a stream:
the bytes stored (at most `size-1`, ending after the first newline) and the
bytes left unread; `none` at end of file. -/
def fgetsSplit : Nat → List Nat → List Nat × List Nat
  | 0, inp => ([], inp)
  | _ + 1, [] => ([], [])
  | n + 1, c :: rest =>
    if c = 10 then ([c], rest)
    else ((c :: (fgetsSplit n rest).1), (fgetsSplit n rest).2)

/-- The call `fgets(buf, size, in)`: see `fgetsSplit`. -/
def fgets (size : Nat) (inp : List Nat) : Option (List Nat × List Nat) :=
  if inp = [] then none else some (fgetsSplit (size - 1) inp)

/-- The function `GetFirstElement(zInput, &zLeftOver)` (lines 540-556) for a
non-NULL `zInput`: the first space-delimited token and the text left over. -/
def GetFirstElement (zInput : List Nat) : List Nat × List Nat :=
  let z := zInput.dropWhile isspace
  let zResult := z.takeWhile (fun c => !isspace c)
  match z.dropWhile (fun c => !isspace c) with
  | [] => (zResult, [])
  | _ :: z1 => (zResult, z1.dropWhile isspace)

/-- The function `RemoveNewline(z)` (lines 607-611): the text up to the first
newline or carriage return. -/
def RemoveNewline (z : List Nat) : List Nat :=
  z.takeWhile (fun c => c != 10 && c != 13)

/-- The function `countSlashes(z)` (lines 1261-1265). -/
def countSlashes (z : List Nat) : Nat := z.count 47

/-! ## The request context, the process result and the response writer -/

/-- One record appended to the log file by `MakeLogEntry`: the diagnostic
line number (last field of the record) and the reply status (fifth field). -/
structure LogEntry where
  lineNum : Nat
  status : List Nat
  deriving DecidableEq, Repr

/-- The global variables of `althttpd.c` (lines 289-344) that the embedded
functions read or write, the bytes written to standard output so far
(`out`) and the records appended to the log file so far (`log`).  `zDate`
is the text `Rfc822Date(now)` of the current time and `logOpens` tells
whether `fopen` of the log file succeeds. -/
structure Ctx where
  zProtocol : List Nat
  zMethod : List Nat
  zScript : List Nat
  zRealScript : List Nat
  zQuerySuffix : List Nat
  zHttp : List Nat
  zHttpHost : Option (List Nat)
  zServerName : Option (List Nat)
  zServerPort : Option (List Nat)
  zRealPort : Option (List Nat)
  zAuthArg : Option (List Nat)
  zRemoteUser : Option (List Nat)
  zIfNoneMatch : Option (List Nat)
  zIfModifiedSince : Option (List Nat)
  useHttps : Bool
  zReplyStatus : List Nat
  statusSent : Bool
  closeConnection : Bool
  omitLog : Bool
  zLogFile : Option (List Nat)
  logOpens : Bool
  rangeStart : Int
  rangeEnd : Int
  mxAge : Int
  nIn : Int
  nOut : Int
  zDate : List Nat
  out : List Nat
  log : List LogEntry
  deriving DecidableEq, Repr

/-- How a call of an embedded function ends: it returns a value with the
context it leaves, or the process has called `exit(code)`. -/
inductive Res (α : Type) where
  | ret (c : Ctx) (a : α) : Res α
  | exit (c : Ctx) (code : Nat) : Res α
  deriving DecidableEq, Repr

/-- The context at the end of a call. -/
def Res.ctx {α : Type} : Res α → Ctx
  | .ret c _ => c
  | .exit c _ => c

/-- Whether the call ended in `exit()`. -/
def Res.exited {α : Type} : Res α → Bool
  | .ret _ _ => false
  | .exit _ _ => true

/-- Sequencing: the rest of the caller runs only when the callee returns. -/
def Res.bind {α β : Type} (r : Res α) (f : Ctx → α → Res β) : Res β :=
  match r with
  | .ret c a => f c a
  | .exit c code => .exit c code

/-- A `nOut += printf(...)` statement writing the bytes `s`. -/
def Ctx.printf (c : Ctx) (s : List Nat) : Ctx :=
  { c with out := c.out ++ s, nOut := c.nOut + s.length }

/-- The value of a byte held in a `char` variable, on a platform where
`char` is signed. -/
def schar (c : Nat) : Int := if c < 128 then (c : Int) else (c : Int) - 256

/-- The function `StartResponse(zResultCode)` (lines 677-694). -/
def StartResponse (c : Ctx) (zResultCode : List Nat) : Ctx :=
  if c.statusSent then c
  else
    let c1 := c.printf (c.zProtocol ++ [32] ++ zResultCode ++ [13, 10])
    let c2 := { c1 with zReplyStatus := zResultCode.take 3 }
    let c3 := if schar (rd c2.zReplyStatus 0) ≥ 52 then { c2 with closeConnection := true } else c2
    let c4 :=
      if c3.closeConnection then c3.printf (bytes "Connection: close\r\n")
      else c3.printf (bytes "Connection: keep-alive\r\n")
    let c5 := c4.printf (bytes "Date: " ++ c4.zDate ++ [13, 10])
    { c5 with statusSent := true }

/-- The function `MakeLogEntry(exitCode, lineNum)` (lines 417-503): one
record is appended when a log file is configured, logging is not switched
off and the file opens; then the process exits if the connection is to be
closed, and otherwise `statusSent` is cleared. -/
def MakeLogEntry (c : Ctx) (exitCode lineNum : Nat) : Res Unit :=
  let c1 :=
    if c.zLogFile.isSome ∧ ¬ c.omitLog then
      if c.logOpens then
        { c with log := c.log ++ [⟨lineNum, c.zReplyStatus⟩], nIn := 0, nOut := 0 }
      else c
    else c
  if c1.closeConnection then .exit c1 exitCode
  else .ret { c1 with statusSent := false } ()

/-- The function `NotFound(lineno)` (lines 699-710). -/
def NotFound {α : Type} (c : Ctx) (lineno : Nat) : Res α :=
  let c1 := StartResponse c (bytes "404 Not Found")
  let c2 := c1.printf
    (bytes "Content-type: text/html; charset=utf-8\r\n\r\n<head><title lineno=\""
      ++ fmtNat lineno
      ++ bytes "\">Not Found</title></head>\n<body><h1>Document Not Found</h1>\nThe document "
      ++ c1.zScript ++ bytes " is not available on this server\n</body>\n")
  (MakeLogEntry c2 0 lineno).bind fun c3 _ => .exit c3 0

/-- The function `Forbidden(lineno)` (lines 715-725). -/
def Forbidden {α : Type} (c : Ctx) (lineno : Nat) : Res α :=
  let c1 := StartResponse c (bytes "403 Forbidden")
  let c2 := c1.printf
    (bytes "Content-type: text/plain; charset=utf-8\r\n\r\nAccess denied\n")
  let c3 := { c2 with closeConnection := true }
  (MakeLogEntry c3 0 lineno).bind fun c4 _ => .exit c4 0

/-- The function `NotAuthorized(zRealm)` (lines 731-742). -/
def NotAuthorized (c : Ctx) (zRealm : List Nat) : Res Unit :=
  let c1 := StartResponse c (bytes "401 Authorization Required")
  let c2 := c1.printf
    (bytes "WWW-Authenticate: Basic realm=\"" ++ zRealm
      ++ bytes "\"\r\nContent-type: text/html; charset=utf-8\r\n\r\n<head><title>Not Authorized</title></head>\n<body><h1>401 Not Authorized</h1>\nA login and password are required for this document\n</body>\n")
  MakeLogEntry c2 0 110

/-- The function `CgiError()` (lines 747-758). -/
def CgiError {α : Type} (c : Ctx) : Res α :=
  let c1 := StartResponse c (bytes "500 Error")
  let c2 := c1.printf
    (bytes "Content-type: text/html; charset=utf-8\r\n\r\n<head><title>CGI Program Error</title></head>\n<body><h1>CGI Program Error</h1>\nThe CGI program "
      ++ c1.zScript ++ bytes " generated an error\n</body>\n")
  (MakeLogEntry c2 0 120).bind fun c3 _ => .exit c3 0

/-- The function `CgiScriptWritable()` (lines 782-791). -/
def CgiScriptWritable {α : Type} (c : Ctx) : Res α :=
  let c1 := StartResponse c (bytes "500 CGI Configuration Error")
  let c2 := c1.printf
    (bytes "Content-type: text/plain; charset=utf-8\r\n\r\nThe CGI program "
      ++ c1.zRealScript ++ bytes " is writable by users other than its owner.\n")
  (MakeLogEntry c2 0 140).bind fun c3 _ => .exit c3 0

/-- The function `Malfunction(linenum, zFormat, ...)` (lines 796-812);
`msg` is the formatted text of the variadic part, `none` for a NULL
format. -/
def Malfunction {α : Type} (c : Ctx) (linenum : Nat) (msg : Option (List Nat)) : Res α :=
  let c1 := StartResponse c (bytes "500 Server Malfunction")
  let c2 := c1.printf
    (bytes "Content-type: text/plain; charset=utf-8\r\n\r\nWeb server malfunctioned; error number "
      ++ fmtNat linenum ++ bytes "\n\n")
  let c3 :=
    match msg with
    | some t => { (c2.printf t) with out := (c2.printf t).out ++ [10], nOut := (c2.printf t).nOut + 1 }
    | none => c2
  (MakeLogEntry c3 0 linenum).bind fun c4 _ => .exit c4 0

/-- The `switch` of lines 820-830 of `Redirect`. -/
def redirectStatus (c : Ctx) (iStatus : Nat) : Ctx :=
  if iStatus = 301 then StartResponse c (bytes "301 Permanent Redirect")
  else if iStatus = 308 then StartResponse c (bytes "308 Permanent Redirect")
  else StartResponse c (bytes "302 Temporary Redirect")

/-- The `Location:` line of lines 831-837 of `Redirect`; `zServerName` is
never NULL when `Redirect` runs (lines 1872-1875). -/
def redirectLocation (c : Ctx) (zPath : List Nat) : Ctx :=
  if c.zServerPort = none ∨ c.zServerPort = some [] ∨ c.zServerPort = some (bytes "80") then
    c.printf (bytes "Location: " ++ c.zHttp ++ bytes "://" ++ c.zServerName.getD [] ++ zPath
      ++ c.zQuerySuffix ++ [13, 10])
  else
    c.printf (bytes "Location: " ++ c.zHttp ++ bytes "://" ++ c.zServerName.getD [] ++ [58]
      ++ c.zServerPort.getD [] ++ zPath ++ c.zQuerySuffix ++ [13, 10])

/-- The function `Redirect(zPath, iStatus, finish, lineno)` (lines 819-844). -/
def Redirect (c : Ctx) (zPath : List Nat) (iStatus : Nat) (finish : Bool) (lineno : Nat) :
    Res Unit :=
  let c2 := redirectLocation (redirectStatus c iStatus) zPath
  if finish then
    MakeLogEntry ((c2.printf (bytes "Content-length: 0\r\n")).printf [13, 10]) 0 lineno
  else .ret c2 ()

/-! ## Request line and header steps of ProcessOneRequest -/

/-- Lines 1693-1697 of `ProcessOneRequest`: the close decision taken from
the request line. -/
def requestLineClose (c : Ctx) (forceClose : Bool) : Ctx :=
  if forceClose then { c with closeConnection := true }
  else if schar (rd c.zProtocol 5) < 49 ∨ schar (rd c.zProtocol 7) < 49 then
    { c with closeConnection := true }
  else c

/-- Lines 1769-1774 of `ProcessOneRequest`: a `Connection:` header with the
value `zVal`. -/
def headerConnection (c : Ctx) (forceClose : Bool) (zVal : List Nat) : Ctx :=
  if strcasecmpEq zVal (bytes "close") then { c with closeConnection := true }
  else if !forceClose && strcasecmpEq zVal (bytes "keep-alive") then
    { c with closeConnection := false }
  else c

/-- The scan of lines 1783-1788 that looks for the colon in front of the
port: the bytes passed over and the bytes left, starting at the colon. -/
def splitPort : Bool → List Nat → List Nat × List Nat
  | _, [] => ([], [])
  | inSquare, ch :: rest =>
    if ch ≠ 58 ∨ inSquare then
      let sq := if ch = 93 then false else if ch = 91 then true else inSquare
      (ch :: (splitPort sq rest).1, (splitPort sq rest).2)
    else ([], ch :: rest)

/-- Lines 1775-1795 of `ProcessOneRequest`: a `Host:` header whose value is
stored in the region `zVal`. -/
def headerHost (c : Ctx) (zVal : List Nat) : Res Unit :=
  if (sanitizeString zVal).2 ≠ 0 then Forbidden c 240
  else
    let zHttpHost := cstr (sanitizeString zVal).1
    let sp := splitPort false zHttpHost
    let zServerPort := match sp.2 with
      | [] => []
      | _ :: port => port
    .ret { c with
      zHttpHost := some zHttpHost
      zServerName := some sp.1
      zServerPort := match c.zRealPort with
        | some p => some p
        | none => some zServerPort } ()

/-! ## The path-element check and file resolution -/

/-- The loop of lines 1956-1965 at pointer `z`; `wk` is the value of
`strncmp(zScript,"/.well-known/",13)==0`.  The result is `true` when
`NotFound(300)` is called. -/
def pathElementLoop (wk : Bool) : List Nat → Bool
  | [] => false
  | ch :: rest =>
    if ch = 0 then false
    else if ch = 47 ∧ (rd rest 0 = 46 ∨ rd rest 0 = 45) then
      if wk ∧ (rd rest 0 ≠ 46 ∨ rd rest 1 ≠ 46) then pathElementLoop wk rest
      else true
    else pathElementLoop wk rest

/-- Lines 1956-1965 of `ProcessOneRequest`: `true` when the request is
answered by `NotFound(300)` (a 404 reply). -/
def pathElementCheck (zScript : List Nat) : Bool :=
  pathElementLoop (strncmpEq zScript (bytes "/.well-known/") 13) zScript

/-- The part of a `struct stat` that the program looks at. -/
structure Stat where
  isReg : Bool
  isDir : Bool
  st_mode : Nat
  st_mtime : Int
  st_size : Int
  deriving DecidableEq, Repr

/-- The operating system and the functions of the program that are not
embedded here, as seen by the embedded functions: `stat` (`none` when the
call fails), `access(path,R_OK)==0`, `access(path,X_OK)==0`, the content
read from a file that `fopen(path,"rb")` opens, `chdir(path)==0`, the text
of `getcwd`, `system(cmd)`, the result of `getaddrinfo(host,port,...)`, the
text of `gai_strerror(rc)`, the reply stream of the `n`-th attempt to reach the SCGI server (`none` when no
socket could be opened), and the program functions
`Rfc822Date` (lines 616-622), `ParseRfc822Date` (lines 636-661) and
`GetMimeType` (lines 972-1202). -/
structure Sys where
  stat : List Nat → Option Stat
  accessR : List Nat → Bool
  accessX : List Nat → Bool
  fopen : List Nat → Option (List Nat)
  chdir : List Nat → Bool
  getcwd : List Nat
  system : List Nat → Int
  getaddrinfo : List Nat → List Nat → Int
  gai_strerror : Int → List Nat
  connect : Nat → Option (List Nat)
  Rfc822Date : Int → List Nat
  ParseRfc822Date : List Nat → Int
  GetMimeType : List Nat → List Nat

/-- How lines 2028-2087 of `ProcessOneRequest` end: the loop is left for
line 2088 with the name in `zLine`, the value of `zRealScript`, the index
`i` and `statbuf`; or `Redirect(zRealScript, iStatus, 1, lineno)` is called
and the function returns; or `NotFound(lineno)` is called; or a byte was
written outside the 1000 bytes of `zLine` (undefined behaviour). -/
inductive Resolved where
  | file (zLine zRealScript : List Nat) (i : Nat) (statbuf : Stat)
  | redirect (zRealScript : List Nat) (iStatus lineno : Nat)
  | notFound (lineno : Nat)
  | overrun
  deriving DecidableEq, Repr

/-- The loop of lines 2031-2034: copy bytes of `zScript` from index `i` to
the end of `zLine` up to the next slash. -/
def copyLoop (zScript : List Nat) : Nat → Nat → List Nat → Nat × List Nat
  | 0, i, zLine => (i, zLine)
  | fuel + 1, i, zLine =>
    if rd zScript i ≠ 0 ∧ (i = 0 ∨ rd zScript i ≠ 47) then
      copyLoop zScript fuel (i + 1) (zLine ++ [rd zScript i])
    else (i, zLine)

/-- The loop `while( j>j0 && zLine[j-1]!='/' ){ j--; }` of line 2039. -/
def backToSlash (zLine : List Nat) (j0 : Nat) : Nat → Nat
  | 0 => 0
  | j + 1 => if j + 1 > j0 ∧ rd zLine j ≠ 47 then backToSlash zLine j0 j else j + 1

/-- The test `stat(zLine,&statbuf)==0 && S_ISREG(statbuf.st_mode) &&
access(zLine,R_OK)==0` of lines 2041-2042 and 1566. -/
def readableFile (sys : Sys) (zLine : List Nat) : Bool :=
  match sys.stat zLine with
  | some st => st.isReg && sys.accessR zLine
  | none => false

/-- The search for `not-found.html` of lines 2038-2050, entered with the
string `zLine` and the index `j`; `hw` is the length of the longest string
stored in `zLine` so far. -/
def notFoundSearch (sys : Sys) (j0 i : Nat) : Nat → List Nat → Nat → Nat → Resolved × Nat
  | 0, _, _, hw => (.notFound 380, hw)
  | fuel + 1, zLine, j, hw =>
    if i > 0 ∧ j > j0 then
      let j1 := backToSlash zLine j0 j
      if j1 = 0 then (.overrun, hw)
      else
        let zLine1 := zLine.take (j1 - 1) ++ bytes "/not-found.html"
        let hw1 := max hw zLine1.length
        if readableFile sys zLine1 then
          (.redirect (zLine1.drop j0) 302 370, hw1)
        else notFoundSearch sys j0 i fuel zLine1 (j1 - 1) hw1
    else (.notFound 380, hw)

/-- The loop of lines 2064-2070 over the index names, each copied to
`&zLine[k]`: the name found with its `statbuf`, if any. -/
def indexSearch (sys : Sys) (zLine : List Nat) (k : Nat) :
    List (List Nat) → Nat → Option (List Nat × Stat) × Nat
  | [], hw => (none, hw)
  | ix :: more, hw =>
    let z := zLine.take k ++ ix
    let hw1 := max hw z.length
    match sys.stat z with
    | some st =>
      if st.isReg ∧ sys.accessR z then (some (z, st), hw1)
      else indexSearch sys zLine k more hw1
    | none => indexSearch sys zLine k more hw1

/-- The table `azIndex[]` of line 2061. -/
def azIndex : List (List Nat) := [bytes "/home", bytes "/index.html", bytes "/index.cgi"]

/-- The loop of lines 2030-2087, entered at its test with the index `i`, the
string `zLine` (so `j` is its length) and `statbuf`; `hw` is the length of
the longest string stored in `zLine` so far.  Until the loop assigns it,
`zRealScript` is the pointer `zScript` (line 1676). -/
def resolveLoop (sys : Sys) (zScript : List Nat) (j0 : Nat) :
    Nat → Nat → List Nat → Stat → Nat → Resolved × Nat
  | 0, _, _, _, hw => (.overrun, hw)
  | fuel + 1, i, zLine, statbuf, hw =>
    if rd zScript i = 0 then (.file zLine zScript i statbuf, hw)
    else
      let cp := copyLoop zScript (zScript.length + 1) i zLine
      let i1 := cp.1
      let zLine1 := cp.2
      let hw1 := max hw zLine1.length
      match sys.stat zLine1 with
      | none => notFoundSearch sys j0 i1 (zLine1.length + 1) zLine1 zLine1.length hw1
      | some st =>
        if st.isReg then
          if ¬ sys.accessR zLine1 then (.notFound 390, hw1)
          else (.file zLine1 (zLine1.drop j0) i1 st, hw1)
        else if rd zScript i1 = 0 ∨ rd zScript (i1 + 1) = 0 then
          let j := zLine1.length
          let k := if j > 0 ∧ rd zLine1 (j - 1) = 47 then j - 1 else j
          match indexSearch sys zLine1 k azIndex hw1 with
          | (none, hw2) => (.notFound 400, hw2)
          | (some (z, st2), hw2) =>
            if rd zScript i1 = 0 then (.redirect (z.drop j0) 301 410, hw2)
            else (.file z (z.drop j0) i1 st2, hw2)
        else resolveLoop sys zScript j0 fuel (i1 + 1) (zLine1 ++ [rd zScript i1]) st hw1

/-- Lines 2028-2087 of `ProcessOneRequest`: `zLine` holds the content root
`zHome` chosen at line 2012, `statbuf` is what the last `stat` call left.
Each pass of the loop consumes at least one byte of `zScript`, so its
length bounds the number of passes. -/
def resolveFile (sys : Sys) (zHome zScript : List Nat) (statbuf : Stat) : Resolved :=
  let r := resolveLoop sys zScript zHome.length (zScript.length + 1) 0 zHome statbuf
    zHome.length
  if r.2 ≥ 1000 then .overrun else r.1

/-- The loop `for(i=strlen(zDir)-1; i>0 && zDir[i]!='/'; i--){}` of line
2092, entered with the index `i`. -/
def dirIndex (zDir : List Nat) : Nat → Nat
  | 0 => 0
  | i + 1 => if rd zDir (i + 1) ≠ 47 then dirIndex zDir i else i + 1

/-- Lines 2091-2097 of `ProcessOneRequest`: the directory `zDir` of a
non-empty file name `zFile`. -/
def dirOf (zFile : List Nat) : List Nat :=
  let i := dirIndex zFile (zFile.length - 1)
  if i = 0 then [47] else zFile.take i

/-! ## Authorization -/

/-- The string `zBase[]` of lines 858-859. -/
def zBase : List Nat :=
  bytes "ABCDEFGHIJKLMNOPQRSTUVWXYZabcdefghijklmnopqrstuvwxyz0123456789+/"

/-- The table look-up `trans[ch & 0x7f]` of lines 861-873. -/
def trans (ch : Nat) : Nat :=
  if zBase.indexOf (ch % 128) < 64 then zBase.indexOf (ch % 128) else 0

/-- The loops of lines 869-888 over the `n64` significant input bytes: the
bytes stored through `zData`. -/
def decodeQuads : List Nat → List Nat
  | x0 :: x1 :: x2 :: x3 :: rest =>
    (((trans x0 <<< 2) &&& 0xfc) ||| ((trans x1 >>> 4) &&& 0x03)) ::
    (((trans x1 <<< 4) &&& 0xf0) ||| ((trans x2 >>> 2) &&& 0x0f)) ::
    (((trans x2 <<< 6) &&& 0xc0) ||| (trans x3 &&& 0x3f)) :: decodeQuads rest
  | [x0, x1, x2] =>
    [((trans x0 <<< 2) &&& 0xfc) ||| ((trans x1 >>> 4) &&& 0x03),
     ((trans x1 <<< 4) &&& 0xf0) ||| ((trans x2 >>> 2) &&& 0x0f)]
  | [x0, x1] => [((trans x0 <<< 2) &&& 0xfc) ||| ((trans x1 >>> 4) &&& 0x03)]
  | _ => []

/-- The function `Decode64(z64)` (lines 851-890): the bytes it stores in
front of the terminating NUL. -/
def Decode64 (z64 : List Nat) : List Nat :=
  decodeQuads (z64.reverse.dropWhile (fun ch => ch == 61)).reverse

/-- The loop of lines 922-963 of `CheckBasicAuthorization` over the unread
bytes `inp` of the `-auth` file, with the current `zRealm`, followed by
lines 964-966.  `zAuthArg` is already decoded.  Every pass reads at least
one byte, which bounds the number of passes. -/
def authLoop : Nat → Ctx → List Nat → List Nat → Res Bool
  | 0, c, _, _ => .ret c false
  | fuel + 1, c, zRealm, inp =>
    match fgets 2000 inp with
    | none => (NotAuthorized c zRealm).bind fun c1 _ => .ret c1 false
    | some (line, rest) =>
      let tok := GetFirstElement (cstr line)
      let zFieldName := tok.1
      if zFieldName = [] then authLoop fuel c zRealm rest
      else if rd zFieldName 0 = 35 then authLoop fuel c zRealm rest
      else
        let zVal := RemoveNewline tok.2
        if zFieldName = bytes "realm" then authLoop fuel c zVal rest
        else if zFieldName = bytes "user" then
          match c.zAuthArg with
          | none => authLoop fuel c zRealm rest
          | some arg =>
            let zName := (GetFirstElement zVal).1
            let zLoginPswd := (GetFirstElement (GetFirstElement zVal).2).1
            if arg = zLoginPswd then .ret { c with zRemoteUser := some zName } true
            else authLoop fuel c zRealm rest
        else if zFieldName = bytes "https-only" then
          if ¬ c.useHttps then NotFound c 160
          else authLoop fuel c zRealm rest
        else if zFieldName = bytes "http-redirect" then
          if ¬ c.useHttps then
            (Redirect { c with zHttp := bytes "https" } c.zScript 301 true 170).bind
              fun c1 _ => .ret c1 false
          else authLoop fuel c zRealm rest
        else if zFieldName = bytes "anyone" then .ret c true
        else NotFound c 180

/-- The function `CheckBasicAuthorization(zAuthFile)` (lines 909-967): the
result is `true` when the request is authorized. -/
def CheckBasicAuthorization (sys : Sys) (c : Ctx) (zAuthFile : List Nat) : Res Bool :=
  match sys.fopen zAuthFile with
  | none => NotFound c 150
  | some content =>
    let c1 := { c with zAuthArg := c.zAuthArg.map fun arg => cstr (Decode64 arg) }
    authLoop (content.length + 1) c1 (bytes "unknown realm") content

/-! ## The static responder -/

/-- The function `strcmp` on two C strings, as a sign. -/
def strcmp : List Nat → List Nat → Int
  | [], [] => 0
  | [], _ :: _ => -1
  | _ :: _, [] => 1
  | a :: as, b :: bs => if a < b then -1 else if b < a then 1 else strcmp as bs

/-- The function `CompareEtags(zA, zB)` (lines 595-602). -/
def CompareEtags (zA : Option (List Nat)) (zB : List Nat) : Int :=
  match zA with
  | none => 1
  | some a =>
    if rd a 0 = 34 ∧ strncmpEq (a.drop 1) zB zB.length ∧ rd a (zB.length + 1) = 34 then 0
    else strcmp a zB

/-- The test of lines 1313-1317 of `SendFile`. -/
def notModified (sys : Sys) (c : Ctx) (st : Stat) (zETag : List Nat) : Bool :=
  CompareEtags c.zIfNoneMatch zETag == 0 ||
    match c.zIfModifiedSince with
    | some d => decide (sys.ParseRfc822Date d > 0) && decide (sys.ParseRfc822Date d ≥ st.st_mtime)
    | none => false

/-- The reply of lines 1318-1323 of `SendFile` to a cache hit. -/
def notModifiedReply (sys : Sys) (c : Ctx) (st : Stat) (zETag : List Nat) : Ctx :=
  let c1 := StartResponse c (bytes "304 Not Modified")
  let c2 := c1.printf (bytes "Last-Modified: " ++ sys.Rfc822Date st.st_mtime ++ [13, 10])
  let c3 := c2.printf (bytes "Cache-Control: max-age=" ++ fmtD c2.mxAge ++ [13, 10])
  let c4 := c3.printf (bytes "ETag: \"" ++ zETag ++ bytes "\"\r\n")
  c4.printf [13, 10]

/-- Lines 1329-1340 of `SendFile`: the status line, the `Content-Range`
line of a byte range, and the new value of `pStat->st_size`, the size to
report in `Content-length`. -/
def rangeReply (c : Ctx) (st_size : Int) : Ctx × Int :=
  if c.rangeEnd > 0 ∧ c.rangeStart < st_size then
    let d1 := StartResponse c (bytes "206 Partial Content")
    let d2 := if d1.rangeEnd ≥ st_size then { d1 with rangeEnd := st_size - 1 } else d1
    (d2.printf (bytes "Content-Range: bytes " ++ fmtD d2.rangeStart ++ [45]
      ++ fmtD d2.rangeEnd ++ [47] ++ fmtD (castInt st_size) ++ [13, 10]),
     d2.rangeEnd + 1 - d2.rangeStart)
  else ({ (StartResponse c (bytes "200 OK")) with rangeStart := 0 }, st_size)

/-- The header lines written by lines 1341-1345 of `SendFile`. -/
def fileHeaders (sys : Sys) (c : Ctx) (st : Stat) (zETag zContentType : List Nat)
    (size : Int) : Ctx :=
  let c1 := c.printf (bytes "Last-Modified: " ++ sys.Rfc822Date st.st_mtime ++ [13, 10])
  let c2 := c1.printf (bytes "Cache-Control: max-age=" ++ fmtD c1.mxAge ++ [13, 10])
  let c3 := c2.printf (bytes "ETag: \"" ++ zETag ++ bytes "\"\r\n")
  let c4 := c3.printf (bytes "Content-type: " ++ zContentType ++ bytes "; charset=utf-8\r\n")
  c4.printf (bytes "Content-length: " ++ fmtD (castInt size) ++ bytes "\r\n\r\n")

/-- Lines 1353-1363 of `SendFile`: the body, the `size` bytes of the file
content that start at offset `rangeStart`. -/
def sendBody (c : Ctx) (content : List Nat) (size : Int) : Ctx :=
  { c with
    out := c.out ++ (content.drop c.rangeStart.toNat).take size.toNat
    nOut := c.nOut + ((content.drop c.rangeStart.toNat).take size.toNat).length }

/-- The function `SendFile(zFile, lenFile, pStat)` (lines 1300-1364), with
the body sent as the `sendfile` call of lines 1355-1358 sends it; the result
is the returned `int`. -/
def SendFile (sys : Sys) (c : Ctx) (zFile : List Nat) (st : Stat) : Res Int :=
  let zContentType := sys.GetMimeType zFile
  let zETag := [109] ++ fmtX st.st_mtime ++ [115] ++ fmtX st.st_size
  if notModified sys c st zETag then
    (MakeLogEntry (notModifiedReply sys c st zETag) 0 470).bind fun c6 _ => .ret c6 1
  else
    match sys.fopen zFile with
    | none => NotFound c 480
    | some content =>
      let c2 := fileHeaders sys (rangeReply c st.st_size).1 st zETag zContentType
        (rangeReply c st.st_size).2
      if c2.zMethod = bytes "HEAD" then
        (MakeLogEntry c2 0 2).bind fun c3 _ => .ret c3 1
      else .ret (sendBody c2 content (rangeReply c st.st_size).2) 0

/-! ## The CGI reply framer -/

/-- The local variables of `CgiHandleReply` that live across its header
loop; `zLine` is the 1000-byte line buffer as a region. -/
structure CgiVars where
  seenContentLength : Bool
  contentLength : Int
  aRes : List Nat
  iStatus : Int
  zLine : List Nat
  deriving DecidableEq, Repr

/-- The header loop of `CgiHandleReply` (lines 1388-1420) over the unread
bytes `inp` of the reply stream: the context, the local variables and the
unread bytes when the loop is left.  `realloc` is taken to succeed. -/
def cgiHeaders : Nat → Ctx → CgiVars → List Nat → Ctx × CgiVars × List Nat
  | 0, c, v, inp => (c, v, inp)
  | fuel + 1, c, v, inp =>
    match fgets 1000 inp with
    | none => (c, v, inp)
    | some (line, rest) =>
      let zLine := line ++ [0] ++ v.zLine.drop (line.length + 1)
      if isspace (rd zLine 0) then (c, { v with zLine := zLine }, rest)
      else if strncasecmpEq (cstr zLine) (bytes "Location:") 9 then
        let c1 := StartResponse c (bytes "302 Redirect")
        let zLine1 := wr zLine (RemoveNewline (cstr zLine)).length 0
        let z := (zLine1.drop 10).dropWhile isspace
        let c2 := c1.printf (bytes "Location: " ++ cstr z ++ [13, 10])
        cgiHeaders fuel { c2 with rangeEnd := 0 } { v with zLine := zLine1 } rest
      else if strncasecmpEq (cstr zLine) (bytes "Status:") 7 then
        let z := (zLine.drop 7).dropWhile isspace
        let c1 := c.printf (c.zProtocol ++ [32] ++ cstr z)
        let c2 := { c1 with zReplyStatus := (cstr z).take 3 }
        let iStatus := atoi c2.zReplyStatus
        let c3 := if iStatus ≠ 200 then { c2 with rangeEnd := 0 } else c2
        cgiHeaders fuel { c3 with statusSent := true }
          { v with iStatus := iStatus, zLine := zLine } rest
      else if strncasecmpEq (cstr zLine) (bytes "Content-length:") 15 then
        cgiHeaders fuel c
          { v with seenContentLength := true, contentLength := atoi (cstr (zLine.drop 15)),
                   zLine := zLine } rest
      else
        cgiHeaders fuel c { v with aRes := v.aRes ++ cstr zLine, zLine := zLine } rest

/-- The function `xferBytes(in, out, nXfer, nSkip)` (lines 1272-1292) on the
unread bytes `inp` of the stream `in`. -/
def xferBytes (c : Ctx) (inp : List Nat) (nXfer nSkip : Int) : Ctx :=
  let sent := (inp.drop nSkip.toNat).take nXfer.toNat
  { c with out := c.out ++ sent, nOut := c.nOut + sent.length }

/-- Lines 1424-1434 of `CgiHandleReply`: the status line, the
`Content-Range` line of a byte range, and the content length to report. -/
def cgiRangeReply (c : Ctx) (v : CgiVars) : Ctx × Int :=
  if c.rangeEnd > 0 ∧ v.seenContentLength = true ∧ c.rangeStart < v.contentLength then
    let d1 := StartResponse c (bytes "206 Partial Content")
    let d2 :=
      if d1.rangeEnd ≥ v.contentLength then { d1 with rangeEnd := v.contentLength - 1 } else d1
    (d2.printf (bytes "Content-Range: bytes " ++ fmtD d2.rangeStart ++ [45]
      ++ fmtD d2.rangeEnd ++ [47] ++ fmtD v.contentLength ++ [13, 10]),
     d2.rangeEnd + 1 - d2.rangeStart)
  else (StartResponse c (bytes "200 OK"), v.contentLength)

/-- Lines 1435-1463 of `CgiHandleReply`: the buffered header lines and the
body; `rest` holds the unread bytes of the reply stream. -/
def cgiBody (c : Ctx) (v : CgiVars) (contentLength : Int) (rest : List Nat) : Ctx :=
  let c3 :=
    if v.aRes ≠ [] then { c with out := c.out ++ v.aRes, nOut := c.nOut + v.aRes.length }
    else c
  if v.iStatus = 304 then c3.printf [13, 10, 13, 10]
  else if v.seenContentLength then
    xferBytes (c3.printf (bytes "Content-length: " ++ fmtD contentLength ++ [13, 10, 13, 10]))
      rest contentLength c3.rangeStart
  else if rest ≠ [] then
    c3.printf (bytes "Content-length: " ++ fmtNat rest.length ++ [13, 10, 13, 10] ++ cstr rest)
  else c3.printf (bytes "Content-length: 0\r\n\r\n")

/-- The function `CgiHandleReply(in)` (lines 1371-1466) on the bytes `inp`
that the script or the SCGI server sends; `zLine0` is what the line buffer
holds on entry. -/
def CgiHandleReply (c : Ctx) (inp zLine0 : List Nat) : Ctx :=
  let h := cgiHeaders (inp.length + 1) c ⟨false, 0, [], 0, zLine0⟩ inp
  cgiBody (cgiRangeReply h.1 h.2.1).1 h.2.1 (cgiRangeReply h.1 h.2.1).2 h.2.2

/-! ## The SCGI relay and the dispatcher -/

/-- Lines 1555-1576 of `SendScgiRequest`: no socket to the SCGI server could
be opened and no relight command is left. -/
def scgiNoSocket {α : Type} (sys : Sys) (c : Ctx) (zFallback : Option (List Nat))
    (zDir : List Nat) : Res α :=
  match zFallback with
  | some fb =>
    if ¬ sys.chdir zDir then
      Malfunction c 720
        (some (bytes "cannot chdir to [" ++ zDir ++ bytes "] from [" ++ sys.getcwd ++ [93]))
    else if readableFile sys fb then
      match sys.stat fb with
      | some st =>
        (SendFile sys { c with closeConnection := true } fb st).bind fun c1 _ => .exit c1 0
      | none => Malfunction c 706 (some (bytes "bad fallback file: \"" ++ fb ++ [34, 10]))
    else Malfunction c 706 (some (bytes "bad fallback file: \"" ++ fb ++ [34, 10]))
  | none =>
    Malfunction c 707 (some (bytes "cannot open socket to SCGI server " ++ c.zScript ++ [10]))

/-- The loop of lines 1535-1579 of `SendScgiRequest`: the reply stream of
the SCGI server once a socket is open.  The relight command is run at most
once. -/
def scgiConnect (sys : Sys) (c : Ctx) (zRelight zFallback : Option (List Nat))
    (zDir : List Nat) : Res (List Nat) :=
  match sys.connect 0 with
  | some s => .ret c s
  | none =>
    match zRelight with
    | some cmd =>
      if sys.system cmd ≠ 0 then
        Malfunction c 721
          (some (bytes "Relight failed with " ++ fmtD (sys.system cmd) ++ bytes ": \"" ++ cmd
            ++ [34, 10]))
      else
        match sys.connect 1 with
        | some s => .ret c s
        | none => scgiNoSocket sys c zFallback zDir
    | none => scgiNoSocket sys c zFallback zDir

/-- The loop of lines 1507-1524 of `SendScgiRequest` over the unread bytes
`inp` of the specification file: the values of `zRelight` and `zFallback`
when the loop is left. -/
def scgiSpecLines : Nat → Ctx → Option (List Nat) → Option (List Nat) → List Nat →
    Res (Option (List Nat) × Option (List Nat))
  | 0, c, zRelight, zFallback, _ => .ret c (zRelight, zFallback)
  | fuel + 1, c, zRelight, zFallback, inp =>
    match fgets 999 inp with
    | none => .ret c (zRelight, zFallback)
    | some (line, rest) =>
      let tok := GetFirstElement (cstr line)
      let zCmd := tok.1
      if rd zCmd 0 = 35 then scgiSpecLines fuel c zRelight zFallback rest
      else
        let z := RemoveNewline tok.2
        if zCmd = bytes "relight:" then scgiSpecLines fuel c (some z) zFallback rest
        else if zCmd = bytes "fallback:" then scgiSpecLines fuel c zRelight (some z) rest
        else
          Malfunction c 704
            (some (bytes "unrecognized line in SCGI spec: \"" ++ zCmd ++ [32] ++ z ++ [34, 10]))

/-- The function `SendScgiRequest(zFile, zScript)` (lines 1472-1620); `zDir`
is the global of that name and `zLine0` what the line buffer of
`CgiHandleReply` holds on entry.  The request written to the SCGI server
(lines 1581-1618) leaves the context unchanged; the reply stream is what
`Sys.connect` gives. -/
def SendScgiRequest (sys : Sys) (c : Ctx) (zFile zDir zLine0 : List Nat) : Res Unit :=
  match sys.fopen zFile with
  | none => Malfunction c 700 (some (bytes "cannot open \"" ++ zFile ++ [34, 10]))
  | some content =>
    match fgets 999 content with
    | none => Malfunction c 701 (some (bytes "cannot read \"" ++ zFile ++ [34, 10]))
    | some (line, rest) =>
      if ¬ strncmpEq (cstr line) (bytes "SCGI ") 5 then
        Malfunction c 702 (some (bytes "misformatted SCGI spec \"" ++ zFile ++ [34, 10]))
      else
        let zHost := (GetFirstElement ((cstr line).drop 5)).1
        let zPort := (GetFirstElement (GetFirstElement ((cstr line).drop 5)).2).1
        if zHost = [] ∨ zPort = [] then
          Malfunction c 703 (some (bytes "misformatted SCGI spec \"" ++ zFile ++ [34, 10]))
        else
          (scgiSpecLines (rest.length + 1) c none none rest).bind fun c1 spec =>
            if sys.getaddrinfo zHost zPort ≠ 0 then
              Malfunction c1 704
                (some (bytes "cannot resolve SCGI server name " ++ zHost ++ [58] ++ zPort
                  ++ [10] ++ sys.gai_strerror (sys.getaddrinfo zHost zPort) ++ [10]))
            else
              (scgiConnect sys c1 spec.1 spec.2 zDir).bind fun c2 s =>
                .ret (CgiHandleReply c2 s zLine0) ()

/-- The handler that lines 2107, 2202 and 2209 of `ProcessOneRequest` give
the resolved file to. -/
inductive Handler where
  | cgi
  | scgi
  | static
  deriving DecidableEq, Repr

/-- The tests of lines 2107 and 2202 of `ProcessOneRequest`. -/
def chooseHandler (sys : Sys) (zFile : List Nat) (statbuf : Stat) : Handler :=
  if statbuf.st_mode &&& 0o100 = 0o100 ∧ sys.accessX zFile then .cgi
  else if zFile.length > 5 ∧ zFile.drop (zFile.length - 5) = bytes ".scgi" then .scgi
  else .static

/-- Lines 2209-2226 of `ProcessOneRequest`: the file is neither a CGI program
nor an SCGI specification. -/
def serveStatic (sys : Sys) (c : Ctx) (zFile : List Nat) (statbuf : Stat) : Res Unit :=
  if countSlashes c.zRealScript ≠ countSlashes c.zScript then NotFound c 460
  else
    (SendFile sys c zFile statbuf).bind fun c1 rc =>
      if rc ≠ 0 then .ret c1 ()
      else (MakeLogEntry c1 0 0).bind fun c2 _ => .ret { c2 with omitLog := true } ()

/-! ## The steps of the request pipeline that touch `closeConnection` -/

/-- The operations of the request pipeline named by the specification of
`close_connection`: the close decision of the request line, the headers
`Connection:` and `Host:`, `StartResponse`, the responders, the logger, the
authorization check, the static responder, the CGI reply framer, the SCGI
relay and the static branch of the dispatcher. -/
inductive Op where
  | requestLine (forceClose : Bool)
  | connectionHeader (forceClose : Bool) (zVal : List Nat)
  | hostHeader (zVal : List Nat)
  | startResponse (zResultCode : List Nat)
  | notFound (lineno : Nat)
  | forbidden (lineno : Nat)
  | notAuthorized (zRealm : List Nat)
  | cgiError
  | cgiScriptWritable
  | malfunction (linenum : Nat) (msg : Option (List Nat))
  | redirect (zPath : List Nat) (iStatus : Nat) (finish : Bool) (lineno : Nat)
  | makeLogEntry (exitCode lineNum : Nat)
  | checkAuth (sys : Sys) (zAuthFile : List Nat)
  | sendFile (sys : Sys) (zFile : List Nat) (st : Stat)
  | cgiReply (inp zLine0 : List Nat)
  | scgiRequest (sys : Sys) (zFile zDir zLine0 : List Nat)
  | staticFile (sys : Sys) (zFile : List Nat) (st : Stat)

/-- The context an operation leaves, whether it returns or exits. -/
def Op.run : Op → Ctx → Ctx
  | .requestLine forceClose, c => requestLineClose c forceClose
  | .connectionHeader forceClose zVal, c => headerConnection c forceClose zVal
  | .hostHeader zVal, c => (headerHost c zVal).ctx
  | .startResponse zResultCode, c => StartResponse c zResultCode
  | .notFound lineno, c => (NotFound c lineno : Res Unit).ctx
  | .forbidden lineno, c => (Forbidden c lineno : Res Unit).ctx
  | .notAuthorized zRealm, c => (NotAuthorized c zRealm).ctx
  | .cgiError, c => (CgiError c : Res Unit).ctx
  | .cgiScriptWritable, c => (CgiScriptWritable c : Res Unit).ctx
  | .malfunction linenum msg, c => (Malfunction c linenum msg : Res Unit).ctx
  | .redirect zPath iStatus finish lineno, c => (Redirect c zPath iStatus finish lineno).ctx
  | .makeLogEntry exitCode lineNum, c => (MakeLogEntry c exitCode lineNum).ctx
  | .checkAuth sys zAuthFile, c => (CheckBasicAuthorization sys c zAuthFile).ctx
  | .sendFile sys zFile st, c => (SendFile sys c zFile st).ctx
  | .cgiReply inp zLine0, c => CgiHandleReply c inp zLine0
  | .scgiRequest sys zFile zDir zLine0, c => (SendScgiRequest sys c zFile zDir zLine0).ctx
  | .staticFile sys zFile st, c => (serveStatic sys c zFile st).ctx

/-- The operation is a `Connection: keep-alive` header on a connection that
is not forced to close (lines 1772-1773). -/
def Op.isKeepAlive : Op → Bool
  | .connectionHeader forceClose zVal =>
    !forceClose && strcasecmpEq zVal (bytes "keep-alive")
  | _ => false

/-! ## The conversions of `sscanf` that the program uses -/

/-- The test `'0' <= c && c <= '9'`. -/
def isDigit (c : Nat) : Bool := 48 ≤ c && c ≤ 57

/-- The test `isalpha(c)` in the C locale, the scan set `[A-Za-z]`. -/
def isAlpha (c : Nat) : Bool := (65 ≤ c && c ≤ 90) || (97 ≤ c && c ≤ 122)

/-- The conversion `%d` of `sscanf` on the unread input `s`: white space is
skipped, then a sign may follow and at least one decimal digit must; the
result is the `int` stored (see `intOfDigits`) and the input left unread,
`none` when no digit is found. -/
def scanD (s : List Nat) : Option (Int × List Nat) :=
  match s.dropWhile isspace with
  | 45 :: r =>
    if r.takeWhile isDigit = [] then none
    else some (intOfDigits (- (atoiDigits (r.takeWhile isDigit) 0 : Int)), r.dropWhile isDigit)
  | 43 :: r =>
    if r.takeWhile isDigit = [] then none
    else some (intOfDigits (atoiDigits (r.takeWhile isDigit) 0 : Int), r.dropWhile isDigit)
  | r =>
    if r.takeWhile isDigit = [] then none
    else some (intOfDigits (atoiDigits (r.takeWhile isDigit) 0 : Int), r.dropWhile isDigit)

/-- Ordinary characters `lit` of a `sscanf` format: they must be next in the
input. -/
def scanLit (lit s : List Nat) : Option (List Nat) :=
  if lit <+: s then some (s.drop lit.length) else none

/-- The conversion `%3[A-Za-z]` of `sscanf`: at least one and at most three
letters, without skipping white space. -/
def scanAlpha3 (s : List Nat) : Option (List Nat × List Nat) :=
  if (s.take 3).takeWhile isAlpha = [] then none
  else some ((s.take 3).takeWhile isAlpha, s.drop ((s.take 3).takeWhile isAlpha).length)

/-! ## The environment of a CGI program -/

/-- The function `SetEnv(zVar, zValue)` (lines 523-533): the string handed
to `putenv`; `none` is a NULL `zValue`. -/
def SetEnv (zVar : List Nat) (zValue : Option (List Nat)) : List Nat :=
  let zValue1 := zValue.getD []
  let zValue2 := if strncmpEq zValue1 (bytes "() \x7b") 4 then [] else zValue1
  zVar ++ [61] ++ zValue2

/-! ## The `Range:` header and the body of a POST request -/

/-- The call `sscanf(zVal, "bytes=%d-%d", &x1, &x2)` of line 1805 with `x1`
and `x2` initially 0: the number of conversions done (an `EOF` result counts
as 0 here, the code tests `n==2` and `n==1` only) and the values of `x1` and
`x2` after the call. -/
def scanRange (zVal : List Nat) : Nat × Int × Int :=
  match scanLit (bytes "bytes=") zVal with
  | none => (0, 0, 0)
  | some s1 =>
    match scanD s1 with
    | none => (0, 0, 0)
    | some (x1, s2) =>
      match scanLit [45] s2 with
      | none => (1, x1, 0)
      | some s3 =>
        match scanD s3 with
        | none => (1, x1, 0)
        | some (x2, _) => (2, x1, x2)

/-- Lines 1802-1813 of `ProcessOneRequest`: a `Range:` header with the value
`zVal`. -/
def headerRange (c : Ctx) (zVal : List Nat) : Ctx :=
  if c.zMethod = bytes "GET" then
    if (scanRange zVal).1 = 2 ∧ (scanRange zVal).2.1 ≥ 0
        ∧ (scanRange zVal).2.2 ≥ (scanRange zVal).2.1 then
      { c with rangeStart := (scanRange zVal).2.1, rangeEnd := (scanRange zVal).2.2 }
    else if (scanRange zVal).1 = 1 ∧ (scanRange zVal).2.1 > 0 then
      { c with rangeStart := (scanRange zVal).2.1, rangeEnd := 0x7fffffff }
    else c
  else c

/-- The constant `MAX_CONTENT_LENGTH` of line 278. -/
def MAX_CONTENT_LENGTH : Nat := 250000000

/-- The conversion of an `int` to the unsigned type `size_t` of `bits` bits
(line 1897). -/
def toSizeT (bits : Nat) (n : Int) : Nat := (n % (2 ^ bits : Nat)).toNat

/-- The reply of lines 1903-1910 to a POST request that announces too much
content. -/
def requestTooLarge {α : Type} (c : Ctx) : Res α :=
  let c1 := StartResponse c (bytes "500 Request too large")
  let c2 := c1.printf
    (bytes "Content-type: text/plain; charset=utf-8\r\n\r\nToo much POST data\n")
  (MakeLogEntry c2 0 270).bind fun c3 _ => .exit c3 0

/-- Lines 1896-1937 of `ProcessOneRequest` on a machine whose `size_t` has
`bits` bits: `zContentLength` is the value of the `Content-length:` header,
`zTmpNam` the name that `mkstemp` fills in (`mkstempOk` tells whether it
succeeds, `fopenOk` whether the file opens for writing) and `stdin` the
unread input.  The result is the content written to the temporary file and
the input left unread. -/
def readPostData (bits : Nat) (c : Ctx) (zContentLength : Option (List Nat))
    (mkstempOk fopenOk : Bool) (zTmpNam stdin : List Nat) : Res (List Nat × List Nat) :=
  match zContentLength with
  | none => .ret c ([], stdin)
  | some zLen =>
    if rd c.zMethod 0 = 80 then
      if toSizeT bits (atoi zLen) > MAX_CONTENT_LENGTH then requestTooLarge c
      else if ¬ mkstempOk then
        Malfunction { c with rangeEnd := 0 } 280
          (some (bytes "Cannot create a temp file in which to store POST data"))
      else if ¬ fopenOk then
        let c1 := StartResponse { c with rangeEnd := 0 } (bytes "500 Cannot create /tmp file")
        let c2 := c1.printf
          (bytes "Content-type: text/plain; charset=utf-8\r\n\r\nCould not open \""
            ++ zTmpNam ++ bytes "\" for writing\n")
        (MakeLogEntry c2 0 290).bind fun c3 _ => .exit c3 0
      else
        .ret { c with rangeEnd := 0,
                      nIn := c.nIn + (stdin.take (toSizeT bits (atoi zLen))).length }
          (stdin.take (toSizeT bits (atoi zLen)), stdin.drop (toSizeT bits (atoi zLen)))
    else .ret c ([], stdin)

/-! ## GetMimeType (lines 972-1202) -/

/-- The table `aMime[]` of lines 983-1179: the suffix, the length of the
suffix and the mime type of each entry, in the order of the source. -/
def aMime : List (List Nat × Nat × List Nat) :=
  [ (bytes "ai", 2, bytes "application/postscript"),
    (bytes "aif", 3, bytes "audio/x-aiff"),
    (bytes "aifc", 4, bytes "audio/x-aiff"),
    (bytes "aiff", 4, bytes "audio/x-aiff"),
    (bytes "arj", 3, bytes "application/x-arj-compressed"),
    (bytes "asc", 3, bytes "text/plain"),
    (bytes "asf", 3, bytes "video/x-ms-asf"),
    (bytes "asx", 3, bytes "video/x-ms-asx"),
    (bytes "au", 2, bytes "audio/ulaw"),
    (bytes "avi", 3, bytes "video/x-msvideo"),
    (bytes "bat", 3, bytes "application/x-msdos-program"),
    (bytes "bcpio", 5, bytes "application/x-bcpio"),
    (bytes "bin", 3, bytes "application/octet-stream"),
    (bytes "c", 1, bytes "text/plain"),
    (bytes "cc", 2, bytes "text/plain"),
    (bytes "ccad", 4, bytes "application/clariscad"),
    (bytes "cdf", 3, bytes "application/x-netcdf"),
    (bytes "class", 5, bytes "application/octet-stream"),
    (bytes "cod", 3, bytes "application/vnd.rim.cod"),
    (bytes "com", 3, bytes "application/x-msdos-program"),
    (bytes "cpio", 4, bytes "application/x-cpio"),
    (bytes "cpt", 3, bytes "application/mac-compactpro"),
    (bytes "csh", 3, bytes "application/x-csh"),
    (bytes "css", 3, bytes "text/css"),
    (bytes "dcr", 3, bytes "application/x-director"),
    (bytes "deb", 3, bytes "application/x-debian-package"),
    (bytes "dir", 3, bytes "application/x-director"),
    (bytes "dl", 2, bytes "video/dl"),
    (bytes "dms", 3, bytes "application/octet-stream"),
    (bytes "doc", 3, bytes "application/msword"),
    (bytes "drw", 3, bytes "application/drafting"),
    (bytes "dvi", 3, bytes "application/x-dvi"),
    (bytes "dwg", 3, bytes "application/acad"),
    (bytes "dxf", 3, bytes "application/dxf"),
    (bytes "dxr", 3, bytes "application/x-director"),
    (bytes "eps", 3, bytes "application/postscript"),
    (bytes "etx", 3, bytes "text/x-setext"),
    (bytes "exe", 3, bytes "application/octet-stream"),
    (bytes "ez", 2, bytes "application/andrew-inset"),
    (bytes "f", 1, bytes "text/plain"),
    (bytes "f90", 3, bytes "text/plain"),
    (bytes "fli", 3, bytes "video/fli"),
    (bytes "flv", 3, bytes "video/flv"),
    (bytes "gif", 3, bytes "image/gif"),
    (bytes "gl", 2, bytes "video/gl"),
    (bytes "gtar", 4, bytes "application/x-gtar"),
    (bytes "gz", 2, bytes "application/x-gzip"),
    (bytes "hdf", 3, bytes "application/x-hdf"),
    (bytes "hh", 2, bytes "text/plain"),
    (bytes "hqx", 3, bytes "application/mac-binhex40"),
    (bytes "h", 1, bytes "text/plain"),
    (bytes "htm", 3, bytes "text/html; charset=utf-8"),
    (bytes "html", 4, bytes "text/html; charset=utf-8"),
    (bytes "ice", 3, bytes "x-conference/x-cooltalk"),
    (bytes "ief", 3, bytes "image/ief"),
    (bytes "iges", 4, bytes "model/iges"),
    (bytes "igs", 3, bytes "model/iges"),
    (bytes "ips", 3, bytes "application/x-ipscript"),
    (bytes "ipx", 3, bytes "application/x-ipix"),
    (bytes "jad", 3, bytes "text/vnd.sun.j2me.app-descriptor"),
    (bytes "jar", 3, bytes "application/java-archive"),
    (bytes "jpeg", 4, bytes "image/jpeg"),
    (bytes "jpe", 3, bytes "image/jpeg"),
    (bytes "jpg", 3, bytes "image/jpeg"),
    (bytes "js", 2, bytes "application/x-javascript"),
    (bytes "kar", 3, bytes "audio/midi"),
    (bytes "latex", 5, bytes "application/x-latex"),
    (bytes "lha", 3, bytes "application/octet-stream"),
    (bytes "lsp", 3, bytes "application/x-lisp"),
    (bytes "lzh", 3, bytes "application/octet-stream"),
    (bytes "m", 1, bytes "text/plain"),
    (bytes "m3u", 3, bytes "audio/x-mpegurl"),
    (bytes "man", 3, bytes "application/x-troff-man"),
    (bytes "me", 2, bytes "application/x-troff-me"),
    (bytes "mesh", 4, bytes "model/mesh"),
    (bytes "mid", 3, bytes "audio/midi"),
    (bytes "midi", 4, bytes "audio/midi"),
    (bytes "mif", 3, bytes "application/x-mif"),
    (bytes "mime", 4, bytes "www/mime"),
    (bytes "movie", 5, bytes "video/x-sgi-movie"),
    (bytes "mov", 3, bytes "video/quicktime"),
    (bytes "mp2", 3, bytes "audio/mpeg"),
    (bytes "mp2", 3, bytes "video/mpeg"),
    (bytes "mp3", 3, bytes "audio/mpeg"),
    (bytes "mpeg", 4, bytes "video/mpeg"),
    (bytes "mpe", 3, bytes "video/mpeg"),
    (bytes "mpga", 4, bytes "audio/mpeg"),
    (bytes "mpg", 3, bytes "video/mpeg"),
    (bytes "ms", 2, bytes "application/x-troff-ms"),
    (bytes "msh", 3, bytes "model/mesh"),
    (bytes "nc", 2, bytes "application/x-netcdf"),
    (bytes "oda", 3, bytes "application/oda"),
    (bytes "ogg", 3, bytes "application/ogg"),
    (bytes "ogm", 3, bytes "application/ogg"),
    (bytes "pbm", 3, bytes "image/x-portable-bitmap"),
    (bytes "pdb", 3, bytes "chemical/x-pdb"),
    (bytes "pdf", 3, bytes "application/pdf"),
    (bytes "pgm", 3, bytes "image/x-portable-graymap"),
    (bytes "pgn", 3, bytes "application/x-chess-pgn"),
    (bytes "pgp", 3, bytes "application/pgp"),
    (bytes "pl", 2, bytes "application/x-perl"),
    (bytes "pm", 2, bytes "application/x-perl"),
    (bytes "png", 3, bytes "image/png"),
    (bytes "pnm", 3, bytes "image/x-portable-anymap"),
    (bytes "pot", 3, bytes "application/mspowerpoint"),
    (bytes "ppm", 3, bytes "image/x-portable-pixmap"),
    (bytes "pps", 3, bytes "application/mspowerpoint"),
    (bytes "ppt", 3, bytes "application/mspowerpoint"),
    (bytes "ppz", 3, bytes "application/mspowerpoint"),
    (bytes "pre", 3, bytes "application/x-freelance"),
    (bytes "prt", 3, bytes "application/pro_eng"),
    (bytes "ps", 2, bytes "application/postscript"),
    (bytes "qt", 2, bytes "video/quicktime"),
    (bytes "ra", 2, bytes "audio/x-realaudio"),
    (bytes "ram", 3, bytes "audio/x-pn-realaudio"),
    (bytes "rar", 3, bytes "application/x-rar-compressed"),
    (bytes "ras", 3, bytes "image/cmu-raster"),
    (bytes "ras", 3, bytes "image/x-cmu-raster"),
    (bytes "rgb", 3, bytes "image/x-rgb"),
    (bytes "rm", 2, bytes "audio/x-pn-realaudio"),
    (bytes "roff", 4, bytes "application/x-troff"),
    (bytes "rpm", 3, bytes "audio/x-pn-realaudio-plugin"),
    (bytes "rtf", 3, bytes "application/rtf"),
    (bytes "rtf", 3, bytes "text/rtf"),
    (bytes "rtx", 3, bytes "text/richtext"),
    (bytes "scm", 3, bytes "application/x-lotusscreencam"),
    (bytes "set", 3, bytes "application/set"),
    (bytes "sgml", 4, bytes "text/sgml"),
    (bytes "sgm", 3, bytes "text/sgml"),
    (bytes "sh", 2, bytes "application/x-sh"),
    (bytes "shar", 4, bytes "application/x-shar"),
    (bytes "silo", 4, bytes "model/mesh"),
    (bytes "sit", 3, bytes "application/x-stuffit"),
    (bytes "skd", 3, bytes "application/x-koan"),
    (bytes "skm", 3, bytes "application/x-koan"),
    (bytes "skp", 3, bytes "application/x-koan"),
    (bytes "skt", 3, bytes "application/x-koan"),
    (bytes "smi", 3, bytes "application/smil"),
    (bytes "smil", 4, bytes "application/smil"),
    (bytes "snd", 3, bytes "audio/basic"),
    (bytes "sol", 3, bytes "application/solids"),
    (bytes "spl", 3, bytes "application/x-futuresplash"),
    (bytes "src", 3, bytes "application/x-wais-source"),
    (bytes "step", 4, bytes "application/STEP"),
    (bytes "stl", 3, bytes "application/SLA"),
    (bytes "stp", 3, bytes "application/STEP"),
    (bytes "sv4cpio", 7, bytes "application/x-sv4cpio"),
    (bytes "sv4crc", 6, bytes "application/x-sv4crc"),
    (bytes "svg", 3, bytes "image/svg+xml"),
    (bytes "swf", 3, bytes "application/x-shockwave-flash"),
    (bytes "t", 1, bytes "application/x-troff"),
    (bytes "tar", 3, bytes "application/x-tar"),
    (bytes "tcl", 3, bytes "application/x-tcl"),
    (bytes "tex", 3, bytes "application/x-tex"),
    (bytes "texi", 4, bytes "application/x-texinfo"),
    (bytes "texinfo", 7, bytes "application/x-texinfo"),
    (bytes "tgz", 3, bytes "application/x-tar-gz"),
    (bytes "tiff", 4, bytes "image/tiff"),
    (bytes "tif", 3, bytes "image/tiff"),
    (bytes "tr", 2, bytes "application/x-troff"),
    (bytes "tsi", 3, bytes "audio/TSP-audio"),
    (bytes "tsp", 3, bytes "application/dsptype"),
    (bytes "tsv", 3, bytes "text/tab-separated-values"),
    (bytes "txt", 3, bytes "text/plain"),
    (bytes "unv", 3, bytes "application/i-deas"),
    (bytes "ustar", 5, bytes "application/x-ustar"),
    (bytes "vcd", 3, bytes "application/x-cdlink"),
    (bytes "vda", 3, bytes "application/vda"),
    (bytes "viv", 3, bytes "video/vnd.vivo"),
    (bytes "vivo", 4, bytes "video/vnd.vivo"),
    (bytes "vrml", 4, bytes "model/vrml"),
    (bytes "vsix", 4, bytes "application/vsix"),
    (bytes "wav", 3, bytes "audio/x-wav"),
    (bytes "wax", 3, bytes "audio/x-ms-wax"),
    (bytes "wiki", 4, bytes "application/x-fossil-wiki"),
    (bytes "wma", 3, bytes "audio/x-ms-wma"),
    (bytes "wmv", 3, bytes "video/x-ms-wmv"),
    (bytes "wmx", 3, bytes "video/x-ms-wmx"),
    (bytes "wrl", 3, bytes "model/vrml"),
    (bytes "wvx", 3, bytes "video/x-ms-wvx"),
    (bytes "xbm", 3, bytes "image/x-xbitmap"),
    (bytes "xlc", 3, bytes "application/vnd.ms-excel"),
    (bytes "xll", 3, bytes "application/vnd.ms-excel"),
    (bytes "xlm", 3, bytes "application/vnd.ms-excel"),
    (bytes "xls", 3, bytes "application/vnd.ms-excel"),
    (bytes "xlw", 3, bytes "application/vnd.ms-excel"),
    (bytes "xml", 3, bytes "text/xml"),
    (bytes "xpm", 3, bytes "image/x-xpixmap"),
    (bytes "xwd", 3, bytes "image/x-xwindowdump"),
    (bytes "xyz", 3, bytes "chemical/x-pdb"),
    (bytes "zip", 3, bytes "application/zip") ]

/-- The loop `for(i=nName-1; i>0 && zName[i]!='.'; i--){}` of line 1181,
entered with the index `i`. -/
def suffixIndex (zName : List Nat) : Nat → Nat
  | 0 => 0
  | i + 1 => if rd zName (i + 1) ≠ 46 then suffixIndex zName i else i + 1

/-- The binary search of lines 1189-1199 over `aMime`, entered at its test
with `first` and `last`; `none` when the search reads `aMime[i]` for an
index outside the table.  Every pass shrinks the interval from `first` to
`last`, so the size of the table bounds the number of passes. -/
def mimeSearch (zSuffix : List Nat) : Nat → Int → Int → Option (List Nat)
  | 0, _, _ => none
  | fuel + 1, first, last =>
    if first ≤ last then
      match aMime.get? ((first + last) / 2).toNat with
      | none => none
      | some e =>
        if strcmp zSuffix e.1 = 0 then some e.2.2
        else if strcmp zSuffix e.1 < 0 then mimeSearch zSuffix fuel first ((first + last) / 2 - 1)
        else mimeSearch zSuffix fuel ((first + last) / 2 + 1) last
    else some (bytes "application/octet-stream")

/-- The function `GetMimeType(zName, nName)` (lines 972-1202) for a name of
at least one byte; `none` when the binary search reads outside the table. -/
def GetMimeType (zName : List Nat) (nName : Nat) : Option (List Nat) :=
  let i := suffixIndex zName (nName - 1)
  let z := zName.drop (i + 1)
  let len := nName - i
  if len < 19 then
    mimeSearch (z.map tolower) (aMime.length + 2) 0 aMime.length
  else some (bytes "application/octet-stream")

/-! ## The header block of an SCGI request (lines 1581-1608) -/

/-- The global variables that the table `cgienv[]` points to (lines 297-341),
`none` being a NULL pointer. -/
structure CgiEnv where
  zContentLength : Option (List Nat)
  zAuthType : Option (List Nat)
  zAuthArg : Option (List Nat)
  zContentType : Option (List Nat)
  zHome : Option (List Nat)
  zAccept : Option (List Nat)
  zAcceptEncoding : Option (List Nat)
  zCookie : Option (List Nat)
  zHttpHost : Option (List Nat)
  zIfModifiedSince : Option (List Nat)
  zIfNoneMatch : Option (List Nat)
  zReferer : Option (List Nat)
  zAgent : Option (List Nat)
  default_path : Option (List Nat)
  zPathInfo : Option (List Nat)
  zQueryString : Option (List Nat)
  zRemoteAddr : Option (List Nat)
  zMethod : Option (List Nat)
  zScript : Option (List Nat)
  zRemoteUser : Option (List Nat)
  zScgi : Option (List Nat)
  zDir : Option (List Nat)
  zFile : Option (List Nat)
  zRealScript : Option (List Nat)
  zServerName : Option (List Nat)
  zServerPort : Option (List Nat)
  zProtocol : Option (List Nat)
  deriving DecidableEq, Repr

/-- The table `cgienv[]` of lines 350-381: the name of each variable and the
current value of the global it points to. -/
def cgienv (g : CgiEnv) : List (List Nat × Option (List Nat)) :=
  [ (bytes "CONTENT_LENGTH", g.zContentLength),
    (bytes "AUTH_TYPE", g.zAuthType),
    (bytes "AUTH_CONTENT", g.zAuthArg),
    (bytes "CONTENT_TYPE", g.zContentType),
    (bytes "DOCUMENT_ROOT", g.zHome),
    (bytes "HTTP_ACCEPT", g.zAccept),
    (bytes "HTTP_ACCEPT_ENCODING", g.zAcceptEncoding),
    (bytes "HTTP_COOKIE", g.zCookie),
    (bytes "HTTP_HOST", g.zHttpHost),
    (bytes "HTTP_IF_MODIFIED_SINCE", g.zIfModifiedSince),
    (bytes "HTTP_IF_NONE_MATCH", g.zIfNoneMatch),
    (bytes "HTTP_REFERER", g.zReferer),
    (bytes "HTTP_USER_AGENT", g.zAgent),
    (bytes "PATH", g.default_path),
    (bytes "PATH_INFO", g.zPathInfo),
    (bytes "QUERY_STRING", g.zQueryString),
    (bytes "REMOTE_ADDR", g.zRemoteAddr),
    (bytes "REQUEST_METHOD", g.zMethod),
    (bytes "REQUEST_URI", g.zScript),
    (bytes "REMOTE_USER", g.zRemoteUser),
    (bytes "SCGI", g.zScgi),
    (bytes "SCRIPT_DIRECTORY", g.zDir),
    (bytes "SCRIPT_FILENAME", g.zFile),
    (bytes "SCRIPT_NAME", g.zRealScript),
    (bytes "SERVER_NAME", g.zServerName),
    (bytes "SERVER_PORT", g.zServerPort),
    (bytes "SERVER_PROTOCOL", g.zProtocol) ]

/-- The call `memcpy(zHdr+nHdr, src, n)` with `n` the length of `src`, on a
buffer that `realloc` has made large enough. -/
def memcpyAt (zHdr : List Nat) (nHdr : Nat) (src : List Nat) : List Nat :=
  zHdr.take nHdr ++ src ++ zHdr.drop (nHdr + src.length)

/-- The loop of lines 1585-1603 over the entries of `cgienv` that are left,
with the buffer `zHdr` and the count `nHdr`. -/
def scgiHeaderLoop : List (List Nat × Option (List Nat)) → List Nat → Nat → List Nat × Nat
  | [], zHdr, nHdr => (zHdr, nHdr)
  | (_, none) :: rest, zHdr, nHdr => scgiHeaderLoop rest zHdr nHdr
  | (zEnvName, some zEnvValue) :: rest, zHdr, nHdr =>
    let z1 := memcpyAt zHdr nHdr zEnvName
    let n1 := nHdr + zEnvName.length
    let z2 := memcpyAt z1 n1 [0]
    let n2 := n1 + 1
    let z3 := memcpyAt z2 n2 zEnvValue
    let n3 := n2 + zEnvValue.length
    let z4 := memcpyAt z3 n3 [0]
    scgiHeaderLoop rest z4 (n3 + 1)

/-- The conversion `(int)n` of a `size_t` value. -/
def toInt32 (n : Nat) : Int :=
  if n % 4294967296 < 2147483648 then (n % 4294967296 : Nat) else (n % 4294967296 : Nat) - 4294967296

/-- Lines 1581-1608 of `SendScgiRequest`: the bytes written to the socket of
the SCGI server in front of the request content. -/
def scgiRequestHeader (g : CgiEnv) : List Nat :=
  let g1 := if g.zContentLength = none then { g with zContentLength := some (bytes "0") } else g
  let g2 := { g1 with zScgi := some (bytes "1") }
  let r := scgiHeaderLoop (cgienv g2) [] 0
  fmtD (toInt32 r.2) ++ [58] ++ r.1.take r.2 ++ [44]

/-- The entries of a table of variables whose value is not NULL, as pairs
of name and value, in the order of the table. -/
def envPairs (l : List (List Nat × Option (List Nat))) : List (List Nat × List Nat) :=
  l.filterMap fun e => e.2.map fun v => (e.1, v)

/-- A list of pairs written as name, NUL, value, NUL. -/
def netPayload (ps : List (List Nat × List Nat)) : List Nat :=
  (ps.map fun p => p.1 ++ [0] ++ p.2 ++ [0]).flatten

/-- The header block as the specification describes it: the pairs of the
entries of `cgienv` whose value is not NULL, in the order of the table, with
`CONTENT_LENGTH` defaulting to `0` and `SCGI` set to `1`. -/
def scgiPairs (g : CgiEnv) : List (List Nat × List Nat) :=
  envPairs (cgienv { g with zContentLength := some (g.zContentLength.getD (bytes "0")),
                            zScgi := some (bytes "1") })

/-- The payload of the netstring as the specification describes it: each
pair as name, NUL, value, NUL. -/
def scgiPayload (g : CgiEnv) : List Nat := netPayload (scgiPairs g)

/-! ## Decode64 on the memory region it overwrites (lines 851-890) -/

/-- The loop `while( n64>0 && z64[n64-1]=='=' ) n64--;` of line 867, entered
with `n64`. -/
def stripPad (z64 : List Nat) : Nat → Nat
  | 0 => 0
  | n + 1 => if rd z64 n = 61 then stripPad z64 n else n + 1

/-- The loop of lines 869-877 of `Decode64` on the region `m` (`zData` and
`z64` are the same pointer), entered at its test with `i` and `j`: the
region and the two indices when the loop is left. -/
def decodeLoop (n64 : Nat) : Nat → List Nat → Nat → Nat → List Nat × Nat × Nat
  | 0, m, i, j => (m, i, j)
  | fuel + 1, m, i, j =>
    if i + 3 < n64 then
      let a := trans (rd m i)
      let b := trans (rd m (i + 1))
      let c := trans (rd m (i + 2))
      let d := trans (rd m (i + 3))
      let m1 := wr m j (((a <<< 2) &&& 0xfc) ||| ((b >>> 4) &&& 0x03))
      let m2 := wr m1 (j + 1) (((b <<< 4) &&& 0xf0) ||| ((c >>> 2) &&& 0x0f))
      let m3 := wr m2 (j + 2) (((c <<< 6) &&& 0xc0) ||| (d &&& 0x3f))
      decodeLoop n64 fuel m3 (i + 4) (j + 3)
    else (m, i, j)

/-- Lines 878-889 of `Decode64`: the bytes of an incomplete group and the
terminating NUL. -/
def decodeTail (n64 : Nat) (m : List Nat) (i j : Nat) : List Nat :=
  if i + 2 < n64 then
    let a := trans (rd m i)
    let b := trans (rd m (i + 1))
    let c := trans (rd m (i + 2))
    let m1 := wr m j (((a <<< 2) &&& 0xfc) ||| ((b >>> 4) &&& 0x03))
    let m2 := wr m1 (j + 1) (((b <<< 4) &&& 0xf0) ||| ((c >>> 2) &&& 0x0f))
    wr m2 (j + 2) 0
  else if i + 1 < n64 then
    let a := trans (rd m i)
    let b := trans (rd m (i + 1))
    let m1 := wr m j (((a <<< 2) &&& 0xfc) ||| ((b >>> 4) &&& 0x03))
    wr m1 (j + 1) 0
  else wr m j 0

/-- The function `Decode64(z64)` (lines 851-890) on the region `z64`: the
region when the function returns.  The loop consumes four bytes per pass,
so `n64` bounds the number of passes. -/
def Decode64InPlace (z64 : List Nat) : List Nat :=
  let n64 := stripPad z64 (cstr z64).length
  let r := decodeLoop n64 (n64 + 1) z64 0 0
  decodeTail n64 r.1 r.2.1 r.2.2

/-- The character of the base-64 alphabet for the six-bit value `k`. -/
def base64Char (k : Nat) : Nat := zBase.getD k 0

/-- The standard base-64 encoding without padding: three bytes give four
characters, a last group of two bytes gives three characters and a last
single byte gives two. -/
def base64EncodeNoPad : List Nat → List Nat
  | b0 :: b1 :: b2 :: rest =>
    base64Char (b0 / 4) :: base64Char (b0 % 4 * 16 + b1 / 16)
      :: base64Char (b1 % 16 * 4 + b2 / 64) :: base64Char (b2 % 64) :: base64EncodeNoPad rest
  | [b0, b1] =>
    [base64Char (b0 / 4), base64Char (b0 % 4 * 16 + b1 / 16), base64Char (b1 % 16 * 4)]
  | [b0] => [base64Char (b0 / 4), base64Char (b0 % 4 * 16)]
  | [] => []

/-- The standard base-64 encoding followed by `k` padding characters `=`;
the standard uses `k = (3 - n % 3) % 3` for `n` bytes. -/
def base64Encode (s : List Nat) (k : Nat) : List Nat :=
  base64EncodeNoPad s ++ List.replicate k 61

/-! ## Rfc822Date and ParseRfc822Date (lines 613-661) -/

/-- Whether the year `y` of the Gregorian calendar is a leap year. -/
def isLeapYear (y : Nat) : Bool := y % 4 == 0 && (y % 100 != 0 || y % 400 == 0)

/-- The number of days of the year `y`. -/
def daysInYear (y : Nat) : Nat := if isLeapYear y then 366 else 365

/-- The lengths of the twelve months of a year. -/
def daysInMonth (leap : Bool) : List Nat :=
  [31, if leap then 29 else 28, 31, 30, 31, 30, 31, 31, 30, 31, 30, 31]

/-- The year that holds the day `d` counted from the first of January of
the year `y`, and the number of that day within its year. -/
def gmYear : Nat → Nat → Nat → Nat × Nat
  | 0, y, d => (y, d)
  | fuel + 1, y, d =>
    if daysInYear y ≤ d then gmYear fuel (y + 1) (d - daysInYear y) else (y, d)

/-- The month that holds the day `d` counted from the first day of the
month `mon`, and the number of that day within its month; `lens` holds the
lengths of the months from `mon` on. -/
def gmMonth : List Nat → Nat → Nat → Nat × Nat
  | [], mon, d => (mon, d)
  | len :: rest, mon, d => if len ≤ d then gmMonth rest (mon + 1) (d - len) else (mon, d)

/-- The fields of `struct tm` that `strftime` reads for the format of line
620. -/
structure Tm where
  tm_sec : Nat
  tm_min : Nat
  tm_hour : Nat
  tm_mday : Nat
  tm_mon : Nat
  tm_year : Nat
  tm_wday : Nat
  deriving DecidableEq, Repr

/-- The C library function `gmtime` for a time `t` that is not negative:
seconds since the first of January 1970, every day having 86400 seconds.
A year has at least 365 days, which bounds the number of passes of the
year search. -/
def gmtime (t : Nat) : Tm :=
  { tm_sec := t % 86400 % 60
    tm_min := t % 86400 / 60 % 60
    tm_hour := t % 86400 / 3600
    tm_mday :=
      (gmMonth (daysInMonth (isLeapYear (gmYear (t / 86400 + 1) 1970 (t / 86400)).1)) 0
        (gmYear (t / 86400 + 1) 1970 (t / 86400)).2).2 + 1
    tm_mon :=
      (gmMonth (daysInMonth (isLeapYear (gmYear (t / 86400 + 1) 1970 (t / 86400)).1)) 0
        (gmYear (t / 86400 + 1) 1970 (t / 86400)).2).1
    tm_year := (gmYear (t / 86400 + 1) 1970 (t / 86400)).1 - 1900
    tm_wday := (t / 86400 + 4) % 7 }

/-- The abbreviated names of the days of the week in the C locale (`%a`). -/
def azWeekdays : List (List Nat) :=
  [bytes "Sun", bytes "Mon", bytes "Tue", bytes "Wed", bytes "Thu", bytes "Fri", bytes "Sat"]

/-- The table `azMonths[]` of lines 640-642, which also holds the
abbreviated names of the months in the C locale (`%b`). -/
def azMonths : List (List Nat) :=
  [bytes "Jan", bytes "Feb", bytes "Mar", bytes "Apr", bytes "May", bytes "Jun",
   bytes "Jul", bytes "Aug", bytes "Sep", bytes "Oct", bytes "Nov", bytes "Dec"]

/-- The conversion `%02d` of a number that is not negative. -/
def fmt02 (n : Nat) : List Nat := if n < 10 then 48 :: fmtNat n else fmtNat n

/-- The function `Rfc822Date(t)` (lines 616-622) for a time that is not
negative: `strftime` with the format `%a, %d %b %Y %H:%M:%S %Z` on the
result of `gmtime`, whose time zone name is `GMT`. -/
def Rfc822Date (t : Nat) : List Nat :=
  azWeekdays.getD (gmtime t).tm_wday [] ++ bytes ", " ++ fmt02 (gmtime t).tm_mday ++ [32]
    ++ azMonths.getD (gmtime t).tm_mon [] ++ [32] ++ fmtNat ((gmtime t).tm_year + 1900) ++ [32]
    ++ fmt02 (gmtime t).tm_hour ++ [58] ++ fmt02 (gmtime t).tm_min ++ [58]
    ++ fmt02 (gmtime t).tm_sec ++ bytes " GMT"

/-- The call `sscanf(zDate, "%3[A-Za-z], %d %3[A-Za-z] %d %d:%d:%d", ...)` of
line 643: the values of `mday`, `zMonth`, `year`, `hour`, `min` and `sec`
when all seven conversions are done, `none` otherwise.  A blank of the
format skips white space of the input. -/
def scanDate (zDate : List Nat) : Option (Int × List Nat × Int × Int × Int × Int) :=
  (scanAlpha3 zDate).bind fun ig =>
  (scanLit [44] ig.2).bind fun s1 =>
  (scanD (s1.dropWhile isspace)).bind fun mday =>
  (scanAlpha3 (mday.2.dropWhile isspace)).bind fun zMonth =>
  (scanD (zMonth.2.dropWhile isspace)).bind fun year =>
  (scanD (year.2.dropWhile isspace)).bind fun hour =>
  (scanLit [58] hour.2).bind fun s2 =>
  (scanD s2).bind fun min =>
  (scanLit [58] min.2).bind fun s3 =>
  (scanD s3).bind fun sec =>
  some (mday.1, zMonth.1, year.1, hour.1, min.1, sec.1)

/-- The table `priorDays[]` of lines 650-651. -/
def priorDays : List Int := [0, 31, 59, 90, 120, 151, 181, 212, 243, 273, 304, 334]

/-- Lines 648-656 of `ParseRfc822Date` for the month `mon`; `/` and `%` of C
round toward zero. -/
def dateSeconds (mon : Nat) (mday year hour min sec : Int) : Int :=
  let isLeapYr : Bool :=
    year.tmod 4 == 0 && (year.tmod 100 != 0 || (year + 300).tmod 400 == 0)
  let yday0 := priorDays.getD mon 0 + mday - 1
  let yday := if isLeapYr && decide (mon > 1) then yday0 + 1 else yday0
  let nDay := (year - 70) * 365 + (year - 69).tdiv 4 - year.tdiv 100 + (year + 300).tdiv 400 + yday
  ((nDay * 24 + hour) * 60 + min) * 60 + sec

/-- The function `ParseRfc822Date(zDate)` (lines 636-661). -/
def ParseRfc822Date (zDate : List Nat) : Int :=
  match scanDate zDate with
  | none => 0
  | some (mday, zMonth, year, hour, min, sec) =>
    match (List.range 12).find? fun mon => strncmpEq (azMonths.getD mon []) zMonth 3 with
    | none => 0
    | some mon => dateSeconds mon mday (if year > 1900 then year - 1900 else year) hour min sec

/-! ## The probes of the mime table -/

/-- The indices `i` at which the loop of lines 1189-1199 of `GetMimeType`
reads `aMime[i]`, in the order of the reads; the list ends at a read outside
the table. -/
def mimeProbes (zSuffix : List Nat) : Nat → Int → Int → List Int
  | 0, _, _ => []
  | fuel + 1, first, last =>
    if first ≤ last then
      (first + last) / 2 ::
        match aMime.get? ((first + last) / 2).toNat with
        | none => []
        | some e =>
          if strcmp zSuffix e.1 = 0 then []
          else if strcmp zSuffix e.1 < 0 then
            mimeProbes zSuffix fuel first ((first + last) / 2 - 1)
          else mimeProbes zSuffix fuel ((first + last) / 2 + 1) last
    else []

/-! ## The quoting of log fields -/

/-- The loop `for(i=0; (c=z[i])!=0 && c!='"'; i++){}` of line 392 of
`Escape`, entered with the index `i`: the index at its end. -/
def escapeFirst (z : List Nat) : Nat → Nat → Nat
  | 0, i => i
  | fuel + 1, i => if rd z i ≠ 0 ∧ rd z i ≠ 34 then escapeFirst z fuel (i + 1) else i

/-- The loop `for(i++; (c=z[i])!=0; i++){ if( c=='"' ) n++; }` of line 395,
entered with the index `i` and the count `n`: `i` and `n` at its end. -/
def escapeCount (z : List Nat) : Nat → Nat → Nat → Nat × Nat
  | 0, i, n => (i, n)
  | fuel + 1, i, n =>
    if rd z i ≠ 0 then escapeCount z fuel (i + 1) (if rd z i = 34 then n + 1 else n)
    else (i, n)

/-- The loop of lines 398-401, entered with the index `i`, the region
`zOut` and the index `j`: the region and `j` at its end. -/
def escapeCopy (z : List Nat) : Nat → Nat → List Nat → Nat → List Nat × Nat
  | 0, _, zOut, j => (zOut, j)
  | fuel + 1, i, zOut, j =>
    if rd z i ≠ 0 then
      if rd z i = 34 then escapeCopy z fuel (i + 1) (wr (wr zOut j (rd z i)) (j + 1) (rd z i)) (j + 2)
      else escapeCopy z fuel (i + 1) (wr zOut j (rd z i)) (j + 1)
    else (zOut, j)

/-- The function `Escape(z)` (lines 387-404) on the region `z` that holds
the string: the string returned.  `malloc` is taken to succeed and to return
a region of the size asked for, every byte of which is `fill`; a write
outside the region is lost. -/
def Escape (z : List Nat) (fill : Nat) : List Nat :=
  let i := escapeFirst z (z.length + 1) 0
  if rd z i = 0 then cstr z
  else
    let r := escapeCount z (z.length + 1) (i + 1) 1
    let zOut := List.replicate (r.1 + r.2 + 1) fill
    let w := escapeCopy z (z.length + 1) 0 zOut 0
    cstr (wr w.1 w.2 0)

/-! ## The content root -/

/-- The test `isupper(c)` in the C locale. -/
def isupper (c : Nat) : Bool := 65 ≤ c && c ≤ 90

/-- The test `isalnum(c)` in the C locale. -/
def isalnum (c : Nat) : Bool := isDigit c || isAlpha c

/-- The loop of lines 1986-1999 of `ProcessOneRequest` over the bytes of
`zLine` that follow the root and the slash, which `sprintf` copied from
`zHttpHost`: the bytes of the directory name in front of `.website`. -/
def hostLoop : List Nat → List Nat
  | [] => []
  | c :: rest =>
    if c = 0 ∨ c = 58 then []
    else if ¬ isalnum c then
      if c = 46 ∧ (rd rest 0 = 0 ∨ rd rest 0 = 58) then []
      else 95 :: hostLoop rest
    else if isupper c then tolower c :: hostLoop rest
    else c :: hostLoop rest

/-- Lines 1985-2000 of `ProcessOneRequest`: the name left in `zLine` for the
root `zRoot` and the host `zHttpHost`. -/
def hostDirectory (zRoot zHttpHost : List Nat) : List Nat :=
  zRoot ++ [47] ++ hostLoop zHttpHost ++ bytes ".website"

/-- The test `stat(zLine,&statbuf) || !S_ISDIR(statbuf.st_mode)` of lines
2002 and 2004, negated. -/
def isDirectory (sys : Sys) (zLine : List Nat) : Bool :=
  match sys.stat zLine with
  | some st => st.isDir
  | none => false

/-- Lines 1974-2012 of `ProcessOneRequest`: the content root `zHome` for
the root directory `zRoot`; `standalone` is the global of that name. -/
def contentRoot (sys : Sys) (c : Ctx) (zRoot : List Nat) (standalone : Bool) :
    Res (List Nat) :=
  if rd c.zScript 0 ≠ 47 then NotFound c 310
  else if zRoot.length + 40 ≥ 1000 then NotFound c 320
  else
    match c.zHttpHost with
    | none => NotFound c 330
    | some zHttpHost =>
      if rd zHttpHost 0 = 0 then NotFound c 330
      else if zHttpHost.length + zRoot.length + 10 ≥ 1000 then NotFound c 340
      else if isDirectory sys (hostDirectory zRoot zHttpHost) then
        .ret c (hostDirectory zRoot zHttpHost)
      else if isDirectory sys (zRoot ++ bytes "/default.website") then
        .ret c (zRoot ++ bytes "/default.website")
      else if standalone then .ret c zRoot
      else NotFound c 350

/-! ## Definitions used in the proofs -/

/-- What the shift loop of `sanitizeString` leaves in the cells from
`z[i-2]` on, when `y` is the byte at `z[i-1]` and `rest` the bytes from
`z[i]` on. -/
def shiftSpec : Nat → List Nat → List Nat
  | y, [] => [0, y]
  | y, v :: rest => if v != 0 then v :: shiftSpec v rest else 0 :: y :: v :: rest

/-- A context for examples: an HTTP/1.1 GET of `/x` with a log file
configured, nothing sent and the connection open. -/
def exampleCtx : Ctx where
  zProtocol := bytes "HTTP/1.1"
  zMethod := bytes "GET"
  zScript := bytes "/x"
  zRealScript := bytes "/x"
  zQuerySuffix := []
  zHttp := bytes "http"
  zHttpHost := some (bytes "example.com")
  zServerName := some (bytes "example.com")
  zServerPort := some (bytes "80")
  zRealPort := none
  zAuthArg := none
  zRemoteUser := none
  zIfNoneMatch := none
  zIfModifiedSince := none
  useHttps := false
  zReplyStatus := []
  statusSent := false
  closeConnection := false
  omitLog := false
  zLogFile := some (bytes "/logs/http.log")
  logOpens := true
  rangeStart := 0
  rangeEnd := 0
  mxAge := 120
  nIn := 0
  nOut := 0
  zDate := bytes "Thu, 01 Jan 1970 00:00:00 GMT"
  out := []
  log := []

/-- A directory, as `stat` reports it. -/
def exampleDir : Stat := ⟨false, true, 0o755, 0, 4096⟩

/-- A regular file of `size` bytes, as `stat` reports it. -/
def exampleReg (size : Int) : Stat := ⟨true, false, 0o644, 0, size⟩

/-- An operating system for examples: `files` lists the regular files with
their content, `dirs` the directories; every file is readable, none is
executable, no SCGI server answers. -/
def exampleSys (files : List (List Nat × List Nat)) (dirs : List (List Nat)) : Sys where
  stat := fun path =>
    match files.lookup path with
    | some content => some (exampleReg content.length)
    | none => if path ∈ dirs then some exampleDir else none
  accessR := fun path => (files.lookup path).isSome || decide (path ∈ dirs)
  accessX := fun _ => false
  fopen := fun path => files.lookup path
  chdir := fun path => decide (path ∈ dirs)
  getcwd := bytes "/"
  system := fun _ => 1
  getaddrinfo := fun _ _ => 0
  gai_strerror := fun _ => bytes "Name or service not known"
  connect := fun _ => none
  Rfc822Date := fun _ => bytes "Thu, 01 Jan 1970 00:00:00 GMT"
  ParseRfc822Date := fun _ => 0
  GetMimeType := fun _ => bytes "application/octet-stream"

/-- A content root whose directory `.well-known` holds an `-auth` file that
names a user and then lets anyone in. -/
def wellKnownSys : Sys :=
  exampleSys
    [(bytes "/www/default.website/.well-known/-auth",
      bytes "realm private\nuser alice alice:secret\nanyone\n")]
    [bytes "/www/default.website", bytes "/www/default.website/.well-known"]

/-- The context of a request for that file, after lines 1946-2097. -/
def wellKnownCtx : Ctx :=
  { exampleCtx with
    zScript := bytes "/.well-known/-auth"
    zRealScript := bytes "/.well-known/-auth" }

/-- A content root with an SCGI specification `app.scgi` whose server
cannot be reached and whose fallback file is `down.html`. -/
def fallbackSys : Sys :=
  exampleSys
    [(bytes "/www/default.website/app.scgi",
      bytes "SCGI localhost 9999\nfallback: down.html\n"),
     (bytes "down.html", bytes "down\n")]
    [bytes "/www/default.website"]

/-- The context of a request for that SCGI file, after lines 1946-2097. -/
def fallbackCtx : Ctx :=
  { exampleCtx with
    zScript := bytes "/app.scgi"
    zRealScript := bytes "/app.scgi" }

/-- The content root of `fallbackSys` with an empty line between the two
lines of the SCGI specification file. -/
def blankLineSys : Sys :=
  exampleSys
    [(bytes "/www/default.website/app.scgi",
      bytes "SCGI localhost 9999\n\nfallback: down.html\n"),
     (bytes "down.html", bytes "down\n")]
    [bytes "/www/default.website"]

/-- The value of a `Range:` header that asks for the bytes `S` to `E`. -/
def rangeValue (S E : Nat) : List Nat := bytes "bytes=" ++ fmtNat S ++ [45] ++ fmtNat E

/-- A content root with one file of ten bytes. -/
def tenByteSys : Sys :=
  exampleSys [(bytes "/www/default.website/ten.txt", bytes "0123456789")]
    [bytes "/www/default.website"]

/-- A content root whose directory `deep` holds the file `index.html`. -/
def deepSys : Sys :=
  exampleSys [(bytes "/www/default.website/deep/index.html", bytes "<p>deep</p>\n")]
    [bytes "/www/default.website", bytes "/www/default.website/deep"]

/-- The context of a request for the directory `deep`. -/
def deepCtx : Ctx :=
  { exampleCtx with
    zScript := bytes "/deep"
    zRealScript := bytes "/deep" }

/-- The variables of a GET request for `/app.scgi` without any optional
header. -/
def exampleEnv : CgiEnv where
  zContentLength := none
  zAuthType := none
  zAuthArg := none
  zContentType := none
  zHome := some (bytes "/www/default.website")
  zAccept := none
  zAcceptEncoding := none
  zCookie := none
  zHttpHost := some (bytes "example.com")
  zIfModifiedSince := none
  zIfNoneMatch := none
  zReferer := none
  zAgent := none
  default_path := some (bytes "/bin:/usr/bin")
  zPathInfo := some []
  zQueryString := some []
  zRemoteAddr := some (bytes "192.0.2.1")
  zMethod := some (bytes "GET")
  zScript := some (bytes "/app.scgi")
  zRemoteUser := none
  zScgi := none
  zDir := some (bytes "/www/default.website")
  zFile := some (bytes "/www/default.website/app.scgi")
  zRealScript := some (bytes "/app.scgi")
  zServerName := some (bytes "example.com")
  zServerPort := some (bytes "80")
  zProtocol := some (bytes "HTTP/1.1")

/-- The number of days from the first of January 1970 to the first of
January of the year `1970 + n`. -/
def daysBeforeYear : Nat → Nat
  | 0 => 0
  | n + 1 => daysBeforeYear n + daysInYear (1970 + n)

/-- A content root whose file `-auth` lets anyone in and then asks for
HTTPS. -/
def anyoneFirstSys : Sys :=
  exampleSys [(bytes "/www/default.website/-auth", bytes "anyone\nhttps-only\n")]
    [bytes "/www/default.website"]

/-- A content root whose file `-auth` names a user and then asks for
HTTPS. -/
def userFirstSys : Sys :=
  exampleSys
    [(bytes "/www/default.website/-auth", bytes "user alice alice:secret\nhttps-only\n")]
    [bytes "/www/default.website"]

/-- A content root whose file `-auth` asks for HTTPS after a comment and a
realm, and before the lines that name a user and let anyone in. -/
def httpsFirstSys : Sys :=
  exampleSys
    [(bytes "/www/default.website/-auth",
      bytes "# members\nrealm private\nhttps-only\nuser alice alice:secret\nanyone\n")]
    [bytes "/www/default.website"]

/-- The text of a file made of the given lines, each ended by a newline. -/
def fileLines (lines : List (List Nat)) : List Nat :=
  (lines.map fun l => l ++ [10]).flatten

/-- Whether the loop of `CheckBasicAuthorization` goes on to the next line
after the line `line` whatever the request is: the line is blank, a comment
or a `realm` line (lines 927-931). -/
def passedOver (line : List Nat) : Bool :=
  decide ((GetFirstElement (cstr line)).1 = [])
    || decide (rd (GetFirstElement (cstr line)).1 0 = 35)
    || decide ((GetFirstElement (cstr line)).1 = bytes "realm")

/-- A string with each double-quote replaced by two double-quotes and every
other byte unchanged. -/
def doubleQuotes : List Nat → List Nat
  | [] => []
  | c :: rest => if c = 34 then 34 :: 34 :: doubleQuotes rest else c :: doubleQuotes rest

/-- A string with each pair of double-quotes replaced by one double-quote. -/
def undoubleQuotes : List Nat → List Nat
  | [] => []
  | [c] => [c]
  | a :: b :: rest =>
    if a = 34 ∧ b = 34 then 34 :: undoubleQuotes rest else a :: undoubleQuotes (b :: rest)

/-- A byte of a host name as it appears in the name of the content
directory: a letter in lower case, a digit, or `_` for any other byte. -/
def hostByte (c : Nat) : Nat := if isalnum c then tolower c else 95

/-- A content root with the directory `default.website` only. -/
def plainSys : Sys := exampleSys [] [bytes "/www/default.website"]

/-- The context of a GET request whose path is a slash followed by 980
letters `a`; the request line `GET <path> HTTP/1.1\r\n` has 996 bytes. -/
def longPathCtx : Ctx :=
  { exampleCtx with
    zScript := 47 :: List.replicate 980 97
    zRealScript := 47 :: List.replicate 980 97 }

theorem printf_closeConnection (c : Ctx) (s : List Nat) :
    (c.printf s).closeConnection = c.closeConnection := rfl

theorem printf_zReplyStatus (c : Ctx) (s : List Nat) :
    (c.printf s).zReplyStatus = c.zReplyStatus := rfl

theorem printf_statusSent (c : Ctx) (s : List Nat) :
    (c.printf s).statusSent = c.statusSent := rfl

theorem printf_log (c : Ctx) (s : List Nat) : (c.printf s).log = c.log := rfl

theorem printf_out (c : Ctx) (s : List Nat) : (c.printf s).out = c.out ++ s := rfl

theorem StartResponse_sent (c : Ctx) (code : List Nat) (h : c.statusSent = true) :
    StartResponse c code = c := by
  simp [StartResponse, h]

theorem StartResponse_zReplyStatus (c : Ctx) (code : List Nat) (h : c.statusSent = false) :
    (StartResponse c code).zReplyStatus = code.take 3 := by
  simp only [StartResponse, h, Bool.false_eq_true, if_false]
  split_ifs <;> rfl

theorem StartResponse_closeConnection (c : Ctx) (code : List Nat) :
    (StartResponse c code).closeConnection
      = (c.closeConnection || (!c.statusSent && decide (schar (rd (code.take 3) 0) ≥ 52))) := by
  by_cases h : c.statusSent = true
  · rw [StartResponse_sent c code h]; simp [h]
  · have h1 : c.statusSent = false := by simpa using h
    simp only [StartResponse, h1, Bool.false_eq_true, if_false, Ctx.printf]
    split_ifs with h2 h3 h3 <;> simp_all

theorem StartResponse_log (c : Ctx) (code : List Nat) :
    (StartResponse c code).log = c.log := by
  simp only [StartResponse, Ctx.printf]
  split_ifs <;> rfl

theorem StartResponse_logging (c : Ctx) (code : List Nat) :
    (StartResponse c code).zLogFile = c.zLogFile
    ∧ (StartResponse c code).omitLog = c.omitLog
    ∧ (StartResponse c code).logOpens = c.logOpens := by
  simp only [StartResponse, Ctx.printf]
  split_ifs <;> exact ⟨rfl, rfl, rfl⟩

theorem MakeLogEntry_closeConnection (c : Ctx) (exitCode lineNum : Nat) :
    (MakeLogEntry c exitCode lineNum).ctx.closeConnection = c.closeConnection := by
  simp only [MakeLogEntry]
  split_ifs <;> simp_all [Res.ctx]

theorem MakeLogEntry_zReplyStatus (c : Ctx) (exitCode lineNum : Nat) :
    (MakeLogEntry c exitCode lineNum).ctx.zReplyStatus = c.zReplyStatus := by
  simp only [MakeLogEntry]
  split_ifs <;> simp_all [Res.ctx]

theorem MakeLogEntry_exited (c : Ctx) (exitCode lineNum : Nat) :
    (MakeLogEntry c exitCode lineNum).exited = c.closeConnection := by
  simp only [MakeLogEntry]
  split_ifs <;> simp_all [Res.exited]

theorem MakeLogEntry_exit (c : Ctx) (exitCode lineNum : Nat) (h : c.closeConnection = true) :
    ∃ c1, MakeLogEntry c exitCode lineNum = .exit c1 exitCode := by
  simp only [MakeLogEntry]
  split_ifs <;> simp_all

theorem bind_exit_ctx (r : Res Unit) (code : Nat) :
    (r.bind fun c _ => (.exit c code : Res Unit)).ctx = r.ctx := by
  cases r <;> rfl

theorem bind_exit_exited (r : Res Unit) (code : Nat) :
    (r.bind fun c _ => (.exit c code : Res Unit)).exited = true := by
  cases r <;> rfl

theorem Forbidden_exited (c : Ctx) (lineno : Nat) :
    (Forbidden c lineno : Res Unit).exited = true :=
  bind_exit_exited _ 0

theorem Forbidden_zReplyStatus (c : Ctx) (lineno : Nat) (h : c.statusSent = false) :
    (Forbidden c lineno : Res Unit).ctx.zReplyStatus = bytes "403" := by
  have e : (Forbidden c lineno : Res Unit).ctx
      = (MakeLogEntry
          { ((StartResponse c (bytes "403 Forbidden")).printf
              (bytes "Content-type: text/plain; charset=utf-8\r\n\r\nAccess denied\n")) with
            closeConnection := true } 0 lineno).ctx := bind_exit_ctx _ 0
  rw [e, MakeLogEntry_zReplyStatus]
  show (StartResponse c (bytes "403 Forbidden")).zReplyStatus = bytes "403"
  rw [StartResponse_zReplyStatus c _ h]
  decide

/-! ## Theorems: the sanitizer -/

theorem isAllowed_iff (c : Nat) : isAllowed c = true ↔ inAllowSet c := by
  by_cases h : c < 256
  · have key : ∀ d, d < 256 → (isAllowed d = true ↔ inAllowSet d) := by
      set_option maxRecDepth 100000 in decide
    exact key c h
  · have h1 : isAllowed c = false := by
      unfold isAllowed
      have : allowedInName.length = 256 := by
        set_option maxRecDepth 100000 in decide
      rw [List.getD_eq_default _ _ (by omega)]
      rfl
    constructor
    · intro h2; rw [h1] at h2; cases h2
    · intro h2; unfold inAllowSet at h2; omega

theorem rd_append (pre l : List Nat) (k : Nat) :
    rd (pre ++ l) (pre.length + k) = rd l k := by
  unfold rd
  simp [List.getD_eq_getElem?_getD, List.getElem?_append_right]

theorem wr_append (pre l : List Nat) (k v : Nat) :
    wr (pre ++ l) (pre.length + k) v = pre ++ wr l k v := by
  unfold wr
  simp [List.set_append]

theorem cstr_nil : cstr [] = [] := rfl

theorem cstr_cons_zero (l : List Nat) : cstr (0 :: l) = [] := by
  simp [cstr]

theorem cstr_cons_ne (c : Nat) (l : List Nat) (h : c ≠ 0) :
    cstr (c :: l) = c :: cstr l := by
  simp [cstr, h]

theorem cstr_shiftSpec (y : Nat) (rest : List Nat) :
    cstr (shiftSpec y rest) = cstr rest := by
  induction rest generalizing y with
  | nil => simp [shiftSpec, cstr]
  | cons v rest ih =>
    by_cases hv : v = 0
    · subst hv; simp [shiftSpec, cstr]
    · simp [shiftSpec, hv, cstr_cons_ne, ih]

theorem length_shiftSpec (y : Nat) (rest : List Nat) :
    (shiftSpec y rest).length = rest.length + 2 := by
  induction rest generalizing y with
  | nil => simp [shiftSpec]
  | cons v rest ih =>
    by_cases hv : v = 0
    · subst hv; simp [shiftSpec]
    · simp [shiftSpec, hv, ih]

theorem shiftLoop_spec (fuel : Nat) : ∀ (pre : List Nat) (x y : Nat) (rest : List Nat)
    (z i : Nat), z + i = pre.length + 2 → rest.length < fuel →
    shiftLoop fuel (pre ++ x :: y :: rest) z i = pre ++ shiftSpec y rest := by
  induction fuel with
  | zero => intro pre x y rest z i _ h; omega
  | succ fuel ih =>
    intro pre x y rest z i hzi hf
    have e1 : z + i - 2 = pre.length + 0 := by omega
    cases rest with
    | nil =>
      simp only [shiftLoop, hzi, e1, rd_append, wr_append]
      simp [rd, wr, shiftSpec]
    | cons v rest =>
      simp only [shiftLoop, hzi, e1, rd_append, wr_append]
      by_cases hv : v = 0
      · subst hv; simp [rd, wr, shiftSpec]
      · have h2 := ih (pre ++ [v]) y v rest z (i + 1) (by simp; omega)
          (by simp at hf; omega)
        simp [rd, wr, shiftSpec, hv]
        simpa using h2

theorem sanitizeRef_cons_allowed (c : Nat) (s : List Nat) (h : inAllowSet c) :
    sanitizeRef (c :: s) = (c :: (sanitizeRef s).1, (sanitizeRef s).2) := by
  match s with
  | [] => simp [sanitizeRef, h]
  | [a] => simp [sanitizeRef, h]
  | a :: b :: r => simp [sanitizeRef, h]

theorem sanitizeRef_cons_escape (a b : Nat) (s : List Nat) :
    sanitizeRef (37 :: a :: b :: s) = (95 :: (sanitizeRef s).1, (sanitizeRef s).2 + 1) := by
  have h : ¬ inAllowSet 37 := by decide
  simp [sanitizeRef, h]

theorem sanitizeRef_cons_other (c : Nat) (s : List Nat) (h : ¬ inAllowSet c)
    (h2 : c ≠ 37 ∨ s.length < 2) :
    sanitizeRef (c :: s) = (95 :: (sanitizeRef s).1, (sanitizeRef s).2 + 1) := by
  match s with
  | [] => simp [sanitizeRef, h]
  | [a] => simp [sanitizeRef, h]
  | a :: b :: r =>
    have h3 : c ≠ 37 := by
      rcases h2 with h2 | h2
      · exact h2
      · have : (a :: b :: r).length ≥ 2 := by simp
        omega
    simp [sanitizeRef, h, h3]

theorem sanitizeLoop_succ (fuel : Nat) (m : List Nat) (z n : Nat) :
    sanitizeLoop (fuel + 1) m z n =
      if rd m z = 0 then (m, n)
      else if !isAllowed (rd m z) then
        sanitizeLoop fuel
          (wr (if rd m z = 37 ∧ rd m (z + 1) ≠ 0 ∧ rd m (z + 2) ≠ 0 then
                shiftLoop (m.length + 1) m z 3 else m) z 95) (z + 1) (n + 1)
      else sanitizeLoop fuel m (z + 1) n := by
  rw [sanitizeLoop]

theorem sanitizeLoop_spec (fuel : Nat) : ∀ (pre cur : List Nat) (z n : Nat),
    z = pre.length → cur.length < fuel →
    ∃ tail, sanitizeLoop fuel (pre ++ cur) z n
        = (pre ++ tail, n + (sanitizeRef (cstr cur)).2)
      ∧ cstr tail = (sanitizeRef (cstr cur)).1 ∧ tail.length = cur.length := by
  induction fuel with
  | zero => intro pre cur z n _ h; omega
  | succ fuel ih =>
    intro pre cur z n hz hf
    subst hz
    have r0 : ∀ l : List Nat, rd (pre ++ l) pre.length = rd l 0 := fun l => by
      simpa using rd_append pre l 0
    have w0 : ∀ (l : List Nat) (v : Nat), wr (pre ++ l) pre.length v = pre ++ wr l 0 v :=
      fun l v => by simpa using wr_append pre l 0 v
    cases cur with
    | nil =>
      refine ⟨[], ?_, ?_, rfl⟩
      · have hr : rd (pre ++ []) pre.length = 0 := by rw [r0]; rfl
        rw [sanitizeLoop_succ, if_pos hr]
        simp [cstr, sanitizeRef]
      · simp [cstr, sanitizeRef]
    | cons c rest =>
      have hrest : rest.length < fuel := by simp at hf; omega
      have hr : rd (pre ++ c :: rest) pre.length = c := by rw [r0]; rfl
      rw [sanitizeLoop_succ, hr]
      by_cases hc : c = 0
      · subst hc
        refine ⟨0 :: rest, ?_, ?_, rfl⟩
        · simp [cstr, sanitizeRef]
        · simp [cstr, sanitizeRef]
      · rw [if_neg hc]
        by_cases ha : isAllowed c = true
        · obtain ⟨tail, h1, h2, h3⟩ := ih (pre ++ [c]) rest (pre.length + 1) n (by simp) hrest
          refine ⟨c :: tail, ?_, ?_, by simp [h3]⟩
          · have e : pre ++ c :: rest = (pre ++ [c]) ++ rest := by simp
            simp only [ha, Bool.not_true, if_false, Bool.false_eq_true]
            rw [e, h1, cstr_cons_ne c rest hc,
              sanitizeRef_cons_allowed c _ ((isAllowed_iff c).1 ha)]
            simp
          · rw [cstr_cons_ne c tail hc, h2, cstr_cons_ne c rest hc,
              sanitizeRef_cons_allowed c _ ((isAllowed_iff c).1 ha)]
        · have hna : ¬ inAllowSet c := fun h => ha ((isAllowed_iff c).2 h)
          have ha' : isAllowed c = false := by simpa using ha
          simp only [ha', Bool.not_false, if_true]
          by_cases hesc : c = 37 ∧ rd (pre ++ c :: rest) (pre.length + 1) ≠ 0
              ∧ rd (pre ++ c :: rest) (pre.length + 2) ≠ 0
          · rw [if_pos hesc]
            obtain ⟨h37, hA, hB⟩ := hesc
            rw [rd_append] at hA hB
            match rest, hrest, hA, hB with
            | [], _, hA, _ => simp [rd] at hA
            | [a], _, _, hB => simp [rd] at hB
            | a :: b :: rest2, hrest, hA, hB =>
              have hA' : a ≠ 0 := by simpa [rd] using hA
              have hB' : b ≠ 0 := by simpa [rd] using hB
              have hlen : (shiftSpec b rest2).length < fuel := by
                rw [length_shiftSpec]; simp at hrest; omega
              obtain ⟨tail, h1, h2, h3⟩ :=
                ih (pre ++ [95]) (shiftSpec b rest2) (pre.length + 1) (n + 1) (by simp) hlen
              have hs := shiftLoop_spec ((pre ++ c :: a :: b :: rest2).length + 1)
                (pre ++ [c]) a b rest2 pre.length 3 (by simp) (by simp; omega)
              have e : (pre ++ [c]) ++ a :: b :: rest2 = pre ++ c :: a :: b :: rest2 := by simp
              have e2 : pre ++ [c] ++ shiftSpec b rest2 = pre ++ (c :: shiftSpec b rest2) := by
                simp
              have e3 : pre ++ wr (c :: shiftSpec b rest2) 0 95
                  = pre ++ [95] ++ shiftSpec b rest2 := by simp [wr]
              rw [e] at hs
              rw [hs, e2, w0, e3, h1]
              refine ⟨95 :: tail, ?_, ?_, ?_⟩
              · rw [cstr_cons_ne c _ hc, cstr_cons_ne a _ hA', cstr_cons_ne b _ hB',
                  cstr_shiftSpec, h37, sanitizeRef_cons_escape]
                simp; omega
              · rw [cstr_cons_ne 95 tail (by decide), h2, cstr_shiftSpec, cstr_cons_ne c _ hc,
                  cstr_cons_ne a _ hA', cstr_cons_ne b _ hB', h37, sanitizeRef_cons_escape]
              · simp [h3, length_shiftSpec]
          · rw [if_neg hesc]
            obtain ⟨tail, h1, h2, h3⟩ :=
              ih (pre ++ [95]) rest (pre.length + 1) (n + 1) (by simp) hrest
            have hshort : c ≠ 37 ∨ (cstr rest).length < 2 := by
              by_cases h37 : c = 37
              · right
                rw [rd_append, rd_append] at hesc
                match rest, hesc with
                | [], _ => simp [cstr]
                | [a], _ =>
                  by_cases hA : a = 0
                  · subst hA; simp [cstr]
                  · simp [cstr, hA]
                | a :: b :: rest2, hesc =>
                  by_cases hA : a = 0
                  · subst hA; simp [cstr]
                  · by_cases hB : b = 0
                    · subst hB; simp [cstr, hA]
                    · exact absurd ⟨h37, by simpa [rd] using hA, by simpa [rd] using hB⟩ hesc
              · left; exact h37
            have e3 : pre ++ wr (c :: rest) 0 95 = pre ++ [95] ++ rest := by simp [wr]
            rw [w0, e3, h1]
            refine ⟨95 :: tail, ?_, ?_, by simp [h3]⟩
            · rw [cstr_cons_ne c rest hc, sanitizeRef_cons_other c _ hna hshort]
              simp; omega
            · rw [cstr_cons_ne 95 tail (by decide), h2, cstr_cons_ne c rest hc,
                sanitizeRef_cons_other c _ hna hshort]

theorem sanitizeString_refines (m : List Nat) :
    cstr (sanitizeString m).1 = (sanitizeRef (cstr m)).1
      ∧ (sanitizeString m).2 = (sanitizeRef (cstr m)).2 := by
  obtain ⟨tail, h1, h2, _⟩ := sanitizeLoop_spec (m.length + 1) [] m 0 0 rfl (by omega)
  simp only [List.nil_append, Nat.zero_add] at h1
  unfold sanitizeString
  rw [h1]
  exact ⟨h2, rfl⟩

theorem sanitizeRef_allowed : ∀ (s : List Nat) (c : Nat),
    c ∈ (sanitizeRef s).1 → inAllowSet c := by
  intro s
  induction s using sanitizeRef.induct with
  | case1 => intro c h; simp [sanitizeRef] at h
  | case2 c a b rest2 hc ih =>
    intro d h
    rw [sanitizeRef_cons_allowed c _ hc] at h
    rcases List.mem_cons.1 h with h | h
    · rw [h]; exact hc
    · exact ih d h
  | case3 a b rest2 hc ih =>
    intro d h
    rw [sanitizeRef_cons_escape] at h
    rcases List.mem_cons.1 h with h | h
    · rw [h]; decide
    · exact ih d h
  | case4 c a b rest2 hc h37 ih =>
    intro d h
    rw [sanitizeRef_cons_other c _ hc (Or.inl h37)] at h
    rcases List.mem_cons.1 h with h | h
    · rw [h]; decide
    · exact ih d h
  | case5 c rest hshort hc ih =>
    intro d h
    rw [sanitizeRef_cons_allowed c _ hc] at h
    rcases List.mem_cons.1 h with h | h
    · rw [h]; exact hc
    · exact ih d h
  | case6 c rest hshort hc ih =>
    intro d h
    have hl : rest.length < 2 := by
      match rest, hshort with
      | [], _ => simp
      | [a], _ => simp
      | a :: b :: r, hshort => exact absurd rfl (hshort a b r)
    rw [sanitizeRef_cons_other c _ hc (Or.inr hl)] at h
    rcases List.mem_cons.1 h with h | h
    · rw [h]; decide
    · exact ih d h

theorem sanitizeRef_count_zero (s : List Nat) :
    (sanitizeRef s).2 = 0 ↔ ∀ ch ∈ s, inAllowSet ch := by
  induction s using sanitizeRef.induct with
  | case1 => simp [sanitizeRef]
  | case2 c a b rest2 hc ih =>
    rw [sanitizeRef_cons_allowed c _ hc]
    simp only [ih, List.forall_mem_cons (p := inAllowSet) (a := c)]
    simp [hc]
  | case3 a b rest2 hc ih =>
    rw [sanitizeRef_cons_escape]
    simp only [List.forall_mem_cons (p := inAllowSet) (a := 37)]
    simp [hc]
  | case4 c a b rest2 hc h37 ih =>
    rw [sanitizeRef_cons_other c _ hc (Or.inl h37)]
    simp only [List.forall_mem_cons (p := inAllowSet) (a := c)]
    simp [hc]
  | case5 c rest hshort hc ih =>
    rw [sanitizeRef_cons_allowed c _ hc]
    simp only [ih, List.forall_mem_cons (p := inAllowSet) (a := c)]
    simp [hc]
  | case6 c rest hshort hc ih =>
    have hl : rest.length < 2 := by
      match rest, hshort with
      | [], _ => simp
      | [a], _ => simp
      | a :: b :: r, hshort => exact absurd rfl (hshort a b r)
    rw [sanitizeRef_cons_other c _ hc (Or.inr hl)]
    simp only [List.forall_mem_cons (p := inAllowSet) (a := c)]
    simp [hc]

theorem sanitizeRef_id (s : List Nat) (h : ∀ ch ∈ s, inAllowSet ch) :
    (sanitizeRef s).1 = s := by
  induction s with
  | nil => simp [sanitizeRef]
  | cons c rest ih =>
    have hc : inAllowSet c := h c (List.mem_cons_self _ _)
    rw [sanitizeRef_cons_allowed c _ hc]
    simp [ih (fun d hd => h d (List.mem_cons_of_mem _ hd))]


/-! ## Theorems: claims about the sanitizer -/

/-- C1: for every input region, every byte of the C string that
`sanitizeString` leaves is one of the characters 0-9, a-z, A-Z, comma,
minus, dot, slash, colon, underscore and tilde. -/
theorem sanitizeString_bytes_allowed (m : List Nat) (ch : Nat)
    (h : ch ∈ cstr (sanitizeString m).1) : inAllowSet ch := by
  rw [(sanitizeString_refines m).1] at h
  exact sanitizeRef_allowed _ ch h

/-- Witness for C1 on the input `a b%41c`, whose result contains an
underscore. -/
theorem sanitizeString_bytes_allowed_witness :
    95 ∈ cstr (sanitizeString (bytes "a b%41c")).1 ∧ inAllowSet 95 :=
  ⟨by decide, sanitizeString_bytes_allowed (bytes "a b%41c") 95 (by decide)⟩

/-- C2: `sanitizeString` returns 0 exactly when every byte of its input
string is in the allow-set, in that case the string is left unchanged, and
the `Host:` step of the request pipeline answers with `Forbidden(240)` (a
403 reply followed by `exit`) exactly when the header value has a byte
outside the allow-set. -/
theorem host_check_iff (c : Ctx) (zVal : List Nat) :
    ((sanitizeString zVal).2 = 0 ↔ ∀ ch ∈ cstr zVal, inAllowSet ch)
    ∧ ((sanitizeString zVal).2 = 0 → cstr (sanitizeString zVal).1 = cstr zVal)
    ∧ (headerHost c zVal = Forbidden c 240 ↔ ∃ ch ∈ cstr zVal, ¬ inAllowSet ch)
    ∧ (c.statusSent = false →
        (Forbidden c 240 : Res Unit).ctx.zReplyStatus = bytes "403"
        ∧ (Forbidden c 240 : Res Unit).exited = true) := by
  have hcount : (sanitizeString zVal).2 = 0 ↔ ∀ ch ∈ cstr zVal, inAllowSet ch := by
    rw [(sanitizeString_refines zVal).2]
    exact sanitizeRef_count_zero _
  refine ⟨hcount, ?_, ?_, ?_⟩
  · intro h0
    rw [(sanitizeString_refines zVal).1]
    exact sanitizeRef_id _ (hcount.1 h0)
  · constructor
    · intro hf
      by_contra hno
      have hall : ∀ ch ∈ cstr zVal, inAllowSet ch := by
        intro ch hch
        by_contra hbad
        exact hno ⟨ch, hch, hbad⟩
      have h0 := hcount.2 hall
      have h1 : (headerHost c zVal).exited = false := by simp [headerHost, h0, Res.exited]
      rw [hf, Forbidden_exited] at h1
      cases h1
    · rintro ⟨ch, hch, hbad⟩
      have hne : (sanitizeString zVal).2 ≠ 0 := fun h0 => hbad (hcount.1 h0 ch hch)
      simp [headerHost, hne]
  · intro hs
    exact ⟨Forbidden_zReplyStatus c 240 hs, Forbidden_exited c 240⟩

/-- C3: `sanitizeString` computes the left-to-right reference transformer
`sanitizeRef` on the input string, both the resulting string and the
returned count; the input `%2e%2e` becomes `__` with return value 2, so its
result holds no dot. -/
theorem sanitizeString_eq_reference (m : List Nat) :
    cstr (sanitizeString m).1 = (sanitizeRef (cstr m)).1
    ∧ (sanitizeString m).2 = (sanitizeRef (cstr m)).2
    ∧ cstr (sanitizeString (bytes "%2e%2e")).1 = bytes "__"
    ∧ (sanitizeString (bytes "%2e%2e")).2 = 2
    ∧ 46 ∉ cstr (sanitizeString (bytes "%2e%2e")).1 :=
  ⟨(sanitizeString_refines m).1, (sanitizeString_refines m).2, by decide, by decide, by decide⟩

/-! ## Theorems: the path-element check -/

theorem cstr_no_zero (m : List Nat) : 0 ∉ cstr m := by
  intro h
  have := List.mem_takeWhile_imp h
  simp at this

theorem pathElementLoop_cons (wk : Bool) (ch : Nat) (rest : List Nat)
    (h : pathElementLoop wk (ch :: rest) = false) (h0 : ch ≠ 0) :
    pathElementLoop wk rest = false
    ∧ ¬ (ch = 47 ∧ rd rest 0 = 46 ∧ rd rest 1 = 46)
    ∧ (wk = false → ¬ (ch = 47 ∧ (rd rest 0 = 46 ∨ rd rest 0 = 45))) := by
  rw [pathElementLoop, if_neg h0] at h
  by_cases h1 : ch = 47 ∧ (rd rest 0 = 46 ∨ rd rest 0 = 45)
  · rw [if_pos h1] at h
    by_cases h2 : wk = true ∧ (rd rest 0 ≠ 46 ∨ rd rest 1 ≠ 46)
    · rw [if_pos h2] at h
      refine ⟨h, ?_, ?_⟩
      · rintro ⟨_, ha, hb⟩
        rcases h2.2 with h3 | h3
        · exact h3 ha
        · exact h3 hb
      · intro hwk; rw [hwk] at h2; exact absurd h2.1 (by simp)
    · rw [if_neg h2] at h; cases h
  · rw [if_neg h1] at h
    refine ⟨h, ?_, ?_⟩
    · rintro ⟨ha, hb, _⟩; exact h1 ⟨ha, Or.inl hb⟩
    · intro _ h3; exact h1 h3

theorem pathElementLoop_suffix (wk : Bool) (pre t : List Nat) (h0 : 0 ∉ pre)
    (h : pathElementLoop wk (pre ++ t) = false) : pathElementLoop wk t = false := by
  induction pre with
  | nil => simpa using h
  | cons ch pre ih =>
    have hch : ch ≠ 0 := fun e => h0 (by simp [e])
    exact ih (fun hm => h0 (List.mem_cons_of_mem _ hm))
      (pathElementLoop_cons wk ch (pre ++ t) h hch).1

theorem pathElementLoop_no_dotdot (wk : Bool) (s : List Nat) (h0 : 0 ∉ s)
    (h : pathElementLoop wk s = false) : ¬ [47, 46, 46] <:+: s := by
  rintro ⟨pre, suf, rfl⟩
  have hpre : 0 ∉ pre := fun hm => h0 (by simp [hm])
  have h1 := pathElementLoop_suffix wk pre ([47, 46, 46] ++ suf) hpre (by simpa using h)
  exact (pathElementLoop_cons wk 47 (46 :: 46 :: suf) h1 (by decide)).2.1
    ⟨rfl, by simp [rd], by simp [rd]⟩

theorem pathElementLoop_no_hidden (s : List Nat) (h0 : 0 ∉ s)
    (h : pathElementLoop false s = false) (x : Nat) (hx : x = 46 ∨ x = 45) :
    ¬ [47, x] <:+: s := by
  rintro ⟨pre, suf, rfl⟩
  have hpre : 0 ∉ pre := fun hm => h0 (by simp [hm])
  have h1 := pathElementLoop_suffix false pre ([47, x] ++ suf) hpre (by simpa using h)
  exact (pathElementLoop_cons false 47 (x :: suf) h1 (by decide)).2.2 rfl
    ⟨rfl, by simpa [rd] using hx⟩

theorem strncmpEq_wellKnown (s : List Nat) :
    strncmpEq s (bytes "/.well-known/") 13 = true ↔ bytes "/.well-known/" <+: s := by
  have hl : (bytes "/.well-known/").length = 13 := by decide
  have ht : (bytes "/.well-known/").take 13 = bytes "/.well-known/" := by
    rw [← hl, List.take_length]
  simp only [strncmpEq, ht, decide_eq_true_eq]
  constructor
  · intro h; rw [← h]; exact List.take_prefix _ _
  · intro h
    have := List.prefix_iff_eq_take.1 h
    rw [hl] at this
    exact this.symm

/-- C4: a sanitized request path that passes the path-element check of
lines 1956-1965 (no `NotFound(300)`) contains no `/..`, and when it does
not begin with `/.well-known/` it contains neither a slash followed by a
dot nor a slash followed by a minus sign.  The
paths `/../etc/passwd` and `/.well-known/../x` are rejected and
`/.well-known/x` is accepted. -/
theorem path_element_check_sound (m : List Nat)
    (h : pathElementCheck (cstr (sanitizeString m).1) = false) :
    (¬ bytes "/.." <:+: cstr (sanitizeString m).1)
    ∧ (¬ bytes "/.well-known/" <+: cstr (sanitizeString m).1 →
        (¬ bytes "/." <:+: cstr (sanitizeString m).1)
        ∧ (¬ bytes "/-" <:+: cstr (sanitizeString m).1))
    ∧ pathElementCheck (cstr (sanitizeString (bytes "/../etc/passwd")).1) = true
    ∧ pathElementCheck (cstr (sanitizeString (bytes "/.well-known/../x")).1) = true
    ∧ pathElementCheck (cstr (sanitizeString (bytes "/.well-known/x")).1) = false := by
  have h0 := cstr_no_zero (sanitizeString m).1
  refine ⟨pathElementLoop_no_dotdot _ _ h0 h, ?_, by decide, by decide, by decide⟩
  intro hwk
  have hf : strncmpEq (cstr (sanitizeString m).1) (bytes "/.well-known/") 13 = false := by
    cases hb : strncmpEq (cstr (sanitizeString m).1) (bytes "/.well-known/") 13
    · rfl
    · exact absurd ((strncmpEq_wellKnown _).1 hb) hwk
  unfold pathElementCheck at h
  rw [hf] at h
  exact ⟨pathElementLoop_no_hidden _ h0 h 46 (Or.inl rfl),
    pathElementLoop_no_hidden _ h0 h 45 (Or.inr rfl)⟩

/-- Witness for C4 on the accepted path `/.well-known/x`. -/
theorem path_element_check_sound_witness :
    pathElementCheck (cstr (sanitizeString (bytes "/.well-known/x")).1) = false
    ∧ ¬ bytes "/.." <:+: cstr (sanitizeString (bytes "/.well-known/x")).1 :=
  ⟨by decide, (path_element_check_sound (bytes "/.well-known/x") (by decide)).1⟩

/-! ## Theorems: file resolution -/

theorem splitOn_cons_sep (xs : List Nat) :
    (47 :: xs).splitOn 47 = [] :: xs.splitOn 47 := by
  simp [List.splitOn]

theorem splitOn_cons_ne (x : Nat) (xs : List Nat) (h : x ≠ 47) :
    (x :: xs).splitOn 47 = (xs.splitOn 47).modifyHead (List.cons x) := by
  simp [List.splitOn, h]

theorem splitOn_ne_nil (xs : List Nat) : xs.splitOn 47 ≠ [] := by
  simpa [List.splitOn] using List.splitOnP_ne_nil (fun x => x == 47) xs

theorem splitOn_head_isPrefix (t : List Nat) : ∀ (h : List Nat) (rest : List (List Nat)),
    t.splitOn 47 = h :: rest → h <+: t := by
  induction t with
  | nil =>
    intro h rest e
    simp at e
    rw [← e.1]
  | cons x xs ih =>
    intro h rest e
    by_cases hx : x = 47
    · subst hx
      rw [splitOn_cons_sep] at e
      simp at e
      rw [e.1]
      exact List.nil_prefix
    · rw [splitOn_cons_ne x xs hx] at e
      cases hs : xs.splitOn 47 with
      | nil => exact absurd hs (splitOn_ne_nil xs)
      | cons h1 rest1 =>
        rw [hs] at e
        simp [List.modifyHead] at e
        rw [← e.1]
        exact (List.prefix_cons_inj x).2 (ih h1 rest1 hs)

theorem splitOn_tail_isInfix (t : List Nat) : ∀ (h : List Nat) (rest : List (List Nat)),
    t.splitOn 47 = h :: rest → [46, 46] ∈ rest → [47, 46, 46] <:+: t := by
  induction t with
  | nil =>
    intro h rest e hm
    simp at e
    rw [e.2] at hm
    cases hm
  | cons x xs ih =>
    intro h rest e hm
    cases hs : xs.splitOn 47 with
    | nil => exact absurd hs (splitOn_ne_nil xs)
    | cons h1 rest1 =>
      by_cases hx : x = 47
      · subst hx
        rw [splitOn_cons_sep, hs] at e
        simp at e
        rw [← e.2] at hm
        rcases List.mem_cons.1 hm with hm | hm
        · have hp := splitOn_head_isPrefix xs h1 rest1 hs
          rw [← hm] at hp
          obtain ⟨u, hu⟩ := hp
          exact ⟨[], u, by simp [← hu]⟩
        · obtain ⟨a, b, hab⟩ := ih h1 rest1 hs hm
          exact ⟨47 :: a, b, by simp [← hab]⟩
      · rw [splitOn_cons_ne x xs hx, hs] at e
        simp [List.modifyHead] at e
        rw [← e.2] at hm
        obtain ⟨a, b, hab⟩ := ih h1 rest1 hs hm
        exact ⟨x :: a, b, by simp [← hab]⟩

theorem splitOn_append_sep (q r : List Nat) :
    (q ++ 47 :: r).splitOn 47 = q.splitOn 47 ++ r.splitOn 47 := by
  induction q with
  | nil => simp [splitOn_cons_sep]
  | cons x xs ih =>
    by_cases hx : x = 47
    · subst hx
      simp only [List.cons_append, splitOn_cons_sep, ih]
    · simp only [List.cons_append, splitOn_cons_ne x _ hx, ih]
      cases hs : xs.splitOn 47 with
      | nil => exact absurd hs (splitOn_ne_nil xs)
      | cons h1 rest1 => simp [List.modifyHead]

theorem no_dotdot_of_isPrefix (s q : List Nat) (hs : rd s 0 = 47)
    (hno : ¬ [47, 46, 46] <:+: s) (hq : q <+: s) : [46, 46] ∉ q.splitOn 47 := by
  intro hm
  cases q with
  | nil => simp at hm
  | cons x q1 =>
    obtain ⟨u, hu⟩ := hq
    have hx : x = 47 := by
      rw [← hu] at hs
      simpa [rd] using hs
    subst hx
    rw [splitOn_cons_sep] at hm
    have hinf : [47, 46, 46] <:+: (47 :: q1) :=
      splitOn_tail_isInfix (47 :: q1) [] (q1.splitOn 47) (splitOn_cons_sep q1)
        (by simpa using hm)
    exact hno (hinf.trans ⟨[], u, by simpa using hu⟩)

theorem take_succ_rd (s : List Nat) (i : Nat) (h : rd s i ≠ 0) :
    s.take (i + 1) = s.take i ++ [rd s i] := by
  have hi : i < s.length := by
    by_contra hge
    exact h (by unfold rd; exact List.getD_eq_default _ _ (Nat.le_of_not_lt hge))
  rw [List.take_succ]
  simp [rd, List.getD_eq_getElem?_getD, List.getElem?_eq_getElem hi]

theorem copyLoop_spec (s zHome : List Nat) (fuel : Nat) : ∀ i : Nat,
    ∃ i1, copyLoop s fuel i (zHome ++ s.take i) = (i1, zHome ++ s.take i1) ∧ i ≤ i1
      ∧ (fuel ≠ 0 → i = 0 → rd s 0 ≠ 0 → 1 ≤ i1) := by
  induction fuel with
  | zero => intro i; exact ⟨i, rfl, le_refl _, fun h => absurd rfl h⟩
  | succ fuel ih =>
    intro i
    by_cases hc : rd s i ≠ 0 ∧ (i = 0 ∨ rd s i ≠ 47)
    · obtain ⟨i1, h1, h2, _⟩ := ih (i + 1)
      refine ⟨i1, ?_, by omega, fun _ _ _ => by omega⟩
      rw [copyLoop, if_pos hc, List.append_assoc, ← take_succ_rd s i hc.1, h1]
    · refine ⟨i, ?_, le_refl _, ?_⟩
      · rw [copyLoop, if_neg hc]
      · intro _ hi h0
        subst hi
        exact absurd ⟨h0, Or.inl rfl⟩ hc

theorem notFoundSearch_not_file (sys : Sys) (j0 i : Nat) (fuel : Nat) :
    ∀ (zLine : List Nat) (j hw : Nat) (f rs : List Nat) (i1 : Nat) (st : Stat),
    (notFoundSearch sys j0 i fuel zLine j hw).1 ≠ .file f rs i1 st := by
  induction fuel with
  | zero => intro zLine j hw f rs i1 st; simp [notFoundSearch]
  | succ fuel ih =>
    intro zLine j hw f rs i1 st
    rw [notFoundSearch]
    by_cases h1 : i > 0 ∧ j > j0
    · rw [if_pos h1]
      simp only []
      by_cases h2 : backToSlash zLine j0 j = 0
      · rw [if_pos h2]; simp
      · rw [if_neg h2]
        by_cases h3 : readableFile sys
            (List.take (backToSlash zLine j0 j - 1) zLine ++ bytes "/not-found.html") = true
        · rw [if_pos h3]; simp
        · rw [if_neg h3]; exact ih _ _ _ _ _ _ _
    · rw [if_neg h1]; simp

theorem indexSearch_spec (sys : Sys) (zLine : List Nat) (k : Nat) (l : List (List Nat)) :
    ∀ (hw hw2 : Nat) (z : List Nat) (st : Stat),
    indexSearch sys zLine k l hw = (some (z, st), hw2) →
    ∃ ix ∈ l, z = zLine.take k ++ ix := by
  induction l with
  | nil => intro hw hw2 z st h; simp [indexSearch] at h
  | cons ix more ih =>
    intro hw hw2 z st h
    rw [indexSearch] at h
    cases hst : sys.stat (zLine.take k ++ ix) with
    | none =>
      simp only [hst] at h
      obtain ⟨ix2, hm, he⟩ := ih _ _ _ _ h
      exact ⟨ix2, List.mem_cons_of_mem _ hm, he⟩
    | some st1 =>
      simp only [hst] at h
      split_ifs at h with hc
      · simp at h
        exact ⟨ix, List.mem_cons_self _ _, h.1.1.symm⟩
      · obtain ⟨ix2, hm, he⟩ := ih _ _ _ _ h
        exact ⟨ix2, List.mem_cons_of_mem _ hm, he⟩

theorem take_pred_append (zHome q : List Nat) (hq : q ≠ []) :
    (zHome ++ q).take ((zHome ++ q).length - 1) = zHome ++ q.dropLast := by
  rw [← List.dropLast_eq_take, List.dropLast_append_of_ne_nil zHome hq]

theorem resolveLoop_spec (sys : Sys) (s zHome : List Nat) (fuel : Nat) :
    ∀ (i : Nat) (zLine : List Nat) (statbuf : Stat) (hw : Nat) (f rs : List Nat) (i2 : Nat)
      (st : Stat),
    rd s 0 ≠ 0 → zLine = zHome ++ s.take i →
    (resolveLoop sys s zHome.length fuel i zLine statbuf hw).1 = .file f rs i2 st →
    ∃ q, q <+: s ∧ ((f = zHome ++ q ∧ q ≠ []) ∨ ∃ ix ∈ azIndex, f = zHome ++ q ++ ix) := by
  induction fuel with
  | zero => intro i zLine statbuf hw f rs i2 st _ _ h; simp [resolveLoop] at h
  | succ fuel ih =>
    intro i zLine statbuf hw f rs i2 st hs0 hz h
    subst hz
    have hsne : s ≠ [] := by
      intro e; subst e; exact hs0 (by simp [rd])
    rw [resolveLoop] at h
    by_cases h0 : rd s i = 0
    · rw [if_pos h0] at h
      simp at h
      refine ⟨s.take i, List.take_prefix _ _, Or.inl ⟨h.1.symm, ?_⟩⟩
      intro e
      rcases List.take_eq_nil_iff.1 e with e | e
      · subst e; exact hs0 h0
      · exact hsne e
    · rw [if_neg h0] at h
      obtain ⟨i1, hcp, hle, hfirst⟩ := copyLoop_spec s zHome (s.length + 1) i
      have hi1 : 1 ≤ i1 := by
        by_cases hi : i = 0
        · subst hi; exact hfirst (by omega) rfl h0
        · omega
      have hs : s ≠ [] := by
        intro e; subst e; exact h0 (by simp [rd])
      have hq : s.take i1 ≠ [] := by
        intro e
        rcases List.take_eq_nil_iff.1 e with e | e
        · omega
        · exact hs e
      rw [hcp] at h
      simp only [] at h
      cases hst : sys.stat (zHome ++ s.take i1) with
      | none =>
        rw [hst] at h
        exact absurd h (notFoundSearch_not_file _ _ _ _ _ _ _ _ _ _ _)
      | some st1 =>
        rw [hst] at h
        simp only [] at h
        by_cases hreg : st1.isReg = true
        · rw [if_pos hreg] at h
          by_cases hacc : ¬ sys.accessR (zHome ++ s.take i1) = true
          · rw [if_pos hacc] at h; simp at h
          · rw [if_neg hacc] at h
            simp at h
            exact ⟨s.take i1, List.take_prefix _ _, Or.inl ⟨h.1.symm, hq⟩⟩
        · rw [if_neg hreg] at h
          by_cases hend : rd s i1 = 0 ∨ rd s (i1 + 1) = 0
          · rw [if_pos hend] at h
            have hk : ∃ q, q <+: s ∧
                (zHome ++ s.take i1).take
                  (if (zHome ++ s.take i1).length > 0
                      ∧ rd (zHome ++ s.take i1) ((zHome ++ s.take i1).length - 1) = 47
                    then (zHome ++ s.take i1).length - 1 else (zHome ++ s.take i1).length)
                  = zHome ++ q := by
              split_ifs
              · exact ⟨(s.take i1).dropLast,
                  (List.dropLast_prefix _).trans (List.take_prefix _ _),
                  take_pred_append zHome _ hq⟩
              · exact ⟨s.take i1, List.take_prefix _ _, List.take_length _⟩
            obtain ⟨q, hqs, hqe⟩ := hk
            cases hix : indexSearch sys (zHome ++ s.take i1)
                (if (zHome ++ s.take i1).length > 0
                    ∧ rd (zHome ++ s.take i1) ((zHome ++ s.take i1).length - 1) = 47
                  then (zHome ++ s.take i1).length - 1 else (zHome ++ s.take i1).length)
                azIndex (max hw (zHome ++ s.take i1).length) with
            | mk o hw2 =>
              rw [hix] at h
              cases o with
              | none => simp at h
              | some zs =>
                obtain ⟨z, st2⟩ := zs
                simp only [] at h
                obtain ⟨ix, hixm, hze⟩ := indexSearch_spec _ _ _ _ _ _ _ _ hix
                rw [hqe] at hze
                by_cases he : rd s i1 = 0
                · rw [if_pos he] at h; simp at h
                · rw [if_neg he] at h
                  simp at h
                  exact ⟨q, hqs, Or.inr ⟨ix, hixm, by rw [← h.1, hze]⟩⟩
          · rw [if_neg hend] at h
            have hne : rd s i1 ≠ 0 := fun e => hend (Or.inl e)
            refine ih (i1 + 1) _ st1 _ f rs i2 st hs0 ?_ h
            rw [List.append_assoc, ← take_succ_rd s i1 hne]

theorem copyLoop_ge (s : List Nat) (fuel : Nat) : ∀ (i : Nat) (zLine : List Nat),
    i ≤ (copyLoop s fuel i zLine).1 := by
  induction fuel with
  | zero => intro i zLine; exact le_refl _
  | succ fuel ih =>
    intro i zLine
    rw [copyLoop]
    split_ifs
    · exact le_trans (Nat.le_succ i) (ih (i + 1) _)
    · exact le_refl _

theorem rd_ne_zero_lt (s : List Nat) (i : Nat) (h : rd s i ≠ 0) : i < s.length := by
  by_contra hge
  exact h (by unfold rd; exact List.getD_eq_default _ _ (Nat.le_of_not_lt hge))

/-- The bound on the number of passes of the resolution loop is adequate:
one more unit of fuel does not change its result. -/
theorem resolveLoop_fuel (sys : Sys) (s : List Nat) (j0 : Nat) (fuel : Nat) :
    ∀ (i : Nat) (zLine : List Nat) (statbuf : Stat) (hw : Nat),
    i ≤ s.length → s.length + 1 ≤ fuel + i →
    resolveLoop sys s j0 (fuel + 1) i zLine statbuf hw
      = resolveLoop sys s j0 fuel i zLine statbuf hw := by
  induction fuel with
  | zero => intro i zLine statbuf hw h1 h2; omega
  | succ fuel ih =>
    intro i zLine statbuf hw h1 h2
    conv_lhs => rw [resolveLoop]
    conv_rhs => rw [resolveLoop]
    by_cases h0 : rd s i = 0
    · rw [if_pos h0, if_pos h0]
    · rw [if_neg h0, if_neg h0]
      simp only []
      have hge := copyLoop_ge s (s.length + 1) i zLine
      cases hst : sys.stat (copyLoop s (s.length + 1) i zLine).2 with
      | none => rfl
      | some st =>
        simp only []
        by_cases hreg : st.isReg = true
        · rw [if_pos hreg, if_pos hreg]
        · rw [if_neg hreg, if_neg hreg]
          by_cases hend : rd s (copyLoop s (s.length + 1) i zLine).1 = 0
              ∨ rd s ((copyLoop s (s.length + 1) i zLine).1 + 1) = 0
          · rw [if_pos hend, if_pos hend]
          · rw [if_neg hend, if_neg hend]
            have hlt := rd_ne_zero_lt s _ (fun e => hend (Or.inl e))
            exact ih _ _ _ _ (by omega) (by omega)

/-- The runs of lines 2028-2087 that stay inside the 1000 bytes of `zLine`
and end with a file name: for every request path that is sanitized, begins
with a slash (the test of line 1974) and passes the path-element check, for
every content root `zHome` and for every behaviour of `stat` and `access`,
the file name is `zHome` followed by a path that begins with a slash and
has no component `..` when split at the slashes; in particular `zHome` is a
prefix of it. -/
theorem file_path_inside_root (sys : Sys) (zHome m : List Nat) (statbuf st : Stat)
    (zFile zRealScript : List Nat) (i : Nat)
    (hstart : rd (cstr (sanitizeString m).1) 0 = 47)
    (hcheck : pathElementCheck (cstr (sanitizeString m).1) = false)
    (hres : resolveFile sys zHome (cstr (sanitizeString m).1) statbuf
      = .file zFile zRealScript i st) :
    ∃ p, zFile = zHome ++ p ∧ p.head? = some 47 ∧ bytes ".." ∉ p.splitOn 47
      ∧ zHome <+: zFile := by
  have e2 : bytes ".." = [46, 46] := by decide
  rw [e2]
  have hno : ¬ [47, 46, 46] <:+: cstr (sanitizeString m).1 :=
    pathElementLoop_no_dotdot _ _ (cstr_no_zero _) hcheck
  unfold resolveFile at hres
  simp only [] at hres
  split_ifs at hres with hw
  have hs0 : rd (cstr (sanitizeString m).1) 0 ≠ 0 := by rw [hstart]; decide
  obtain ⟨q, hq, hf⟩ :=
    resolveLoop_spec sys _ zHome _ 0 zHome statbuf _ _ _ _ _ hs0 (by simp) hres
  have hhead : ∀ (q1 t : List Nat), q1 <+: cstr (sanitizeString m).1 →
      (q1 ≠ [] ∨ t.head? = some 47) → (q1 ++ t).head? = some 47 := by
    intro q1 t hq1 hor
    cases q1 with
    | nil =>
      rcases hor with hor | hor
      · exact absurd rfl hor
      · simpa using hor
    | cons x q2 =>
      obtain ⟨u, hu⟩ := hq1
      have hx : x = 47 := by
        rw [← hu] at hstart
        simpa [rd] using hstart
      simp [hx]
  rcases hf with ⟨hf, hqne⟩ | ⟨ix, hix, hf⟩
  · exact ⟨q, hf, by simpa using hhead q [] hq (Or.inl hqne),
      no_dotdot_of_isPrefix _ q hstart hno hq, by rw [hf]; exact List.prefix_append _ _⟩
  · refine ⟨q ++ ix, by rw [hf, List.append_assoc], ?_, ?_,
      by rw [hf, List.append_assoc]; exact List.prefix_append _ _⟩
    · refine hhead q ix hq (Or.inr ?_)
      simp only [azIndex, List.mem_cons, List.mem_singleton, List.not_mem_nil, or_false] at hix
      rcases hix with hix | hix | hix <;> rw [hix] <;> decide
    have hq2 := no_dotdot_of_isPrefix _ q hstart hno hq
    simp only [azIndex, List.mem_cons, List.mem_singleton, List.not_mem_nil, or_false] at hix
    have key : ∀ name : List Nat, [46, 46] ∉ name.splitOn 47 →
        [46, 46] ∉ (q ++ 47 :: name).splitOn 47 := by
      intro name hn hm
      rw [splitOn_append_sep] at hm
      rcases List.mem_append.1 hm with hm | hm
      · exact hq2 hm
      · exact hn hm
    rcases hix with hix | hix | hix
    · rw [hix, show bytes "/home" = 47 :: bytes "home" by decide]
      exact key _ (by decide)
    · rw [hix, show bytes "/index.html" = 47 :: bytes "index.html" by decide]
      exact key _ (by decide)
    · rw [hix, show bytes "/index.cgi" = 47 :: bytes "index.cgi" by decide]
      exact key _ (by decide)

/-- An example: the request path `/docs/` in a content root that holds
`docs/index.html` resolves to that file. -/
theorem file_path_inside_root_witness :
    rd (cstr (sanitizeString (bytes "/docs/")).1) 0 = 47
    ∧ pathElementCheck (cstr (sanitizeString (bytes "/docs/")).1) = false
    ∧ resolveFile
        (exampleSys [(bytes "/www/default.website/docs/index.html", bytes "hello")]
          [bytes "/www/default.website", bytes "/www/default.website/docs"])
        (bytes "/www/default.website") (cstr (sanitizeString (bytes "/docs/")).1) exampleDir
      = .file (bytes "/www/default.website/docs/index.html") (bytes "/docs/index.html") 5
          (exampleReg 5)
    ∧ ∃ p, bytes "/www/default.website/docs/index.html" = bytes "/www/default.website" ++ p
        ∧ p.head? = some 47 ∧ bytes ".." ∉ p.splitOn 47
        ∧ bytes "/www/default.website" <+: bytes "/www/default.website/docs/index.html" :=
  ⟨by decide, by decide, by decide,
    file_path_inside_root
      (exampleSys [(bytes "/www/default.website/docs/index.html", bytes "hello")]
        [bytes "/www/default.website", bytes "/www/default.website/docs"])
      (bytes "/www/default.website") (bytes "/docs/") exampleDir (exampleReg 5)
      (bytes "/www/default.website/docs/index.html") (bytes "/docs/index.html") 5
      (by decide) (by decide) (by decide)⟩

/-! ## Theorems: `closeConnection` along the pipeline -/

theorem StartResponse_keeps (c : Ctx) (code : List Nat) (h : c.closeConnection = true) :
    (StartResponse c code).closeConnection = true := by
  rw [StartResponse_closeConnection, h]; rfl

theorem MakeLogEntry_keeps (c : Ctx) (exitCode lineNum : Nat) (h : c.closeConnection = true) :
    (MakeLogEntry c exitCode lineNum).ctx.closeConnection = true := by
  rw [MakeLogEntry_closeConnection, h]

theorem bind_keeps {α β : Type} (r : Res α) (f : Ctx → α → Res β)
    (h1 : r.ctx.closeConnection = true)
    (h2 : ∀ c a, c.closeConnection = true → (f c a).ctx.closeConnection = true) :
    (r.bind f).ctx.closeConnection = true := by
  cases r with
  | ret c a => exact h2 c a h1
  | exit c code => exact h1

theorem NotFound_keeps {α : Type} (c : Ctx) (lineno : Nat) (h : c.closeConnection = true) :
    (NotFound c lineno : Res α).ctx.closeConnection = true := by
  unfold NotFound
  exact bind_keeps _ _ (MakeLogEntry_keeps _ _ _ (StartResponse_keeps c _ h)) (fun _ _ hc => hc)

theorem Forbidden_keeps {α : Type} (c : Ctx) (lineno : Nat) :
    (Forbidden c lineno : Res α).ctx.closeConnection = true := by
  unfold Forbidden
  exact bind_keeps _ _ (MakeLogEntry_keeps _ _ _ rfl) (fun _ _ hc => hc)

theorem NotAuthorized_keeps (c : Ctx) (zRealm : List Nat) (h : c.closeConnection = true) :
    (NotAuthorized c zRealm).ctx.closeConnection = true := by
  unfold NotAuthorized
  exact MakeLogEntry_keeps _ _ _ (StartResponse_keeps c _ h)

theorem CgiError_keeps {α : Type} (c : Ctx) (h : c.closeConnection = true) :
    (CgiError c : Res α).ctx.closeConnection = true := by
  unfold CgiError
  exact bind_keeps _ _ (MakeLogEntry_keeps _ _ _ (StartResponse_keeps c _ h)) (fun _ _ hc => hc)

theorem CgiScriptWritable_keeps {α : Type} (c : Ctx) (h : c.closeConnection = true) :
    (CgiScriptWritable c : Res α).ctx.closeConnection = true := by
  unfold CgiScriptWritable
  exact bind_keeps _ _ (MakeLogEntry_keeps _ _ _ (StartResponse_keeps c _ h)) (fun _ _ hc => hc)

theorem Malfunction_keeps {α : Type} (c : Ctx) (linenum : Nat) (msg : Option (List Nat))
    (h : c.closeConnection = true) :
    (Malfunction c linenum msg : Res α).ctx.closeConnection = true := by
  unfold Malfunction
  refine bind_keeps _ _ (MakeLogEntry_keeps _ _ _ ?_) (fun _ _ hc => hc)
  cases msg <;> exact StartResponse_keeps c _ h

theorem redirectStatus_keeps (c : Ctx) (iStatus : Nat) (h : c.closeConnection = true) :
    (redirectStatus c iStatus).closeConnection = true := by
  unfold redirectStatus
  split_ifs <;> exact StartResponse_keeps c _ h

theorem redirectLocation_closeConnection (c : Ctx) (zPath : List Nat) :
    (redirectLocation c zPath).closeConnection = c.closeConnection := by
  unfold redirectLocation
  split_ifs <;> rfl

theorem Redirect_keeps (c : Ctx) (zPath : List Nat) (iStatus : Nat) (finish : Bool)
    (lineno : Nat) (h : c.closeConnection = true) :
    (Redirect c zPath iStatus finish lineno).ctx.closeConnection = true := by
  have h2 : (redirectLocation (redirectStatus c iStatus) zPath).closeConnection = true := by
    rw [redirectLocation_closeConnection]; exact redirectStatus_keeps c iStatus h
  unfold Redirect
  by_cases hf : finish = true
  · simp only [hf, if_true]
    exact MakeLogEntry_keeps _ _ _ h2
  · simp only [hf, if_false]
    exact h2

theorem headerHost_keeps (c : Ctx) (zVal : List Nat) (h : c.closeConnection = true) :
    (headerHost c zVal).ctx.closeConnection = true := by
  unfold headerHost
  split_ifs
  · exact Forbidden_keeps c 240
  · exact h

theorem requestLineClose_keeps (c : Ctx) (forceClose : Bool) (h : c.closeConnection = true) :
    (requestLineClose c forceClose).closeConnection = true := by
  unfold requestLineClose
  split_ifs
  · rfl
  · rfl
  · exact h

theorem authLoop_keeps (fuel : Nat) : ∀ (c : Ctx) (zRealm inp : List Nat),
    c.closeConnection = true → (authLoop fuel c zRealm inp).ctx.closeConnection = true := by
  induction fuel with
  | zero => intro c zRealm inp h; exact h
  | succ fuel ih =>
    intro c zRealm inp h
    rw [authLoop]
    cases hf : fgets 2000 inp with
    | none =>
      simp only []
      exact bind_keeps _ _ (NotAuthorized_keeps c zRealm h) (fun _ _ hc => hc)
    | some lr =>
      obtain ⟨line, rest⟩ := lr
      simp only []
      split_ifs
      all_goals first
        | exact ih _ _ _ h
        | exact NotFound_keeps _ _ h
        | exact h
        | skip
      · cases c.zAuthArg with
        | none => exact ih _ _ _ h
        | some arg =>
          simp only []
          split_ifs
          · exact h
          · exact ih _ _ _ h
      · exact bind_keeps _ _ (Redirect_keeps _ _ _ _ _ h) (fun _ _ hc => hc)

theorem CheckBasicAuthorization_keeps (sys : Sys) (c : Ctx) (zAuthFile : List Nat)
    (h : c.closeConnection = true) :
    (CheckBasicAuthorization sys c zAuthFile).ctx.closeConnection = true := by
  unfold CheckBasicAuthorization
  cases sys.fopen zAuthFile with
  | none => exact NotFound_keeps c 150 h
  | some content => exact authLoop_keeps _ _ _ _ h

theorem notModifiedReply_keeps (sys : Sys) (c : Ctx) (st : Stat) (zETag : List Nat)
    (h : c.closeConnection = true) :
    (notModifiedReply sys c st zETag).closeConnection = true := by
  simp only [notModifiedReply, printf_closeConnection]
  exact StartResponse_keeps c _ h

theorem rangeReply_keeps (c : Ctx) (size : Int) (h : c.closeConnection = true) :
    (rangeReply c size).1.closeConnection = true := by
  unfold rangeReply
  by_cases hr : c.rangeEnd > 0 ∧ c.rangeStart < size
  · rw [if_pos hr]
    simp only [printf_closeConnection]
    split_ifs
    · exact StartResponse_keeps c _ h
    · exact StartResponse_keeps c _ h
  · rw [if_neg hr]
    exact StartResponse_keeps c _ h

theorem fileHeaders_closeConnection (sys : Sys) (c : Ctx) (st : Stat)
    (zETag zContentType : List Nat) (size : Int) :
    (fileHeaders sys c st zETag zContentType size).closeConnection = c.closeConnection := by
  simp only [fileHeaders, printf_closeConnection]

theorem SendFile_keeps (sys : Sys) (c : Ctx) (zFile : List Nat) (st : Stat)
    (h : c.closeConnection = true) :
    (SendFile sys c zFile st).ctx.closeConnection = true := by
  unfold SendFile
  simp only []
  by_cases hn : notModified sys c st ([109] ++ fmtX st.st_mtime ++ [115] ++ fmtX st.st_size)
      = true
  · rw [if_pos hn]
    exact bind_keeps _ _ (MakeLogEntry_keeps _ _ _ (notModifiedReply_keeps sys c st _ h))
      (fun _ _ hc => hc)
  · rw [if_neg hn]
    cases sys.fopen zFile with
    | none => exact NotFound_keeps c 480 h
    | some content =>
      have h2 : (fileHeaders sys (rangeReply c st.st_size).1 st
          ([109] ++ fmtX st.st_mtime ++ [115] ++ fmtX st.st_size) (sys.GetMimeType zFile)
          (rangeReply c st.st_size).2).closeConnection = true := by
        rw [fileHeaders_closeConnection]; exact rangeReply_keeps c st.st_size h
      simp only []
      split_ifs
      · exact bind_keeps _ _ (MakeLogEntry_keeps _ _ _ h2) (fun _ _ hc => hc)
      · exact h2

theorem cgiHeaders_keeps (fuel : Nat) : ∀ (c : Ctx) (v : CgiVars) (inp : List Nat),
    c.closeConnection = true → (cgiHeaders fuel c v inp).1.closeConnection = true := by
  induction fuel with
  | zero => intro c v inp h; exact h
  | succ fuel ih =>
    intro c v inp h
    rw [cgiHeaders]
    cases fgets 1000 inp with
    | none => exact h
    | some lr =>
      obtain ⟨line, rest⟩ := lr
      simp only []
      split_ifs
      · exact h
      · exact ih _ _ _ (StartResponse_keeps c _ h)
      · exact ih _ _ _ h
      · exact ih _ _ _ h
      · exact ih _ _ _ h
      · exact ih _ _ _ h

theorem cgiRangeReply_keeps (c : Ctx) (v : CgiVars) (h : c.closeConnection = true) :
    (cgiRangeReply c v).1.closeConnection = true := by
  unfold cgiRangeReply
  by_cases hr : c.rangeEnd > 0 ∧ v.seenContentLength = true ∧ c.rangeStart < v.contentLength
  · rw [if_pos hr]
    simp only [printf_closeConnection]
    split_ifs
    · exact StartResponse_keeps c _ h
    · exact StartResponse_keeps c _ h
  · rw [if_neg hr]
    exact StartResponse_keeps c _ h

theorem cgiBody_closeConnection (c : Ctx) (v : CgiVars) (n : Int) (rest : List Nat) :
    (cgiBody c v n rest).closeConnection = c.closeConnection := by
  unfold cgiBody
  simp only []
  split_ifs <;> rfl

theorem CgiHandleReply_keeps (c : Ctx) (inp zLine0 : List Nat) (h : c.closeConnection = true) :
    (CgiHandleReply c inp zLine0).closeConnection = true := by
  unfold CgiHandleReply
  simp only []
  rw [cgiBody_closeConnection]
  exact cgiRangeReply_keeps _ _ (cgiHeaders_keeps _ _ _ _ h)

theorem scgiSpecLines_keeps (fuel : Nat) :
    ∀ (c : Ctx) (zRelight zFallback : Option (List Nat)) (inp : List Nat),
    c.closeConnection = true →
    (scgiSpecLines fuel c zRelight zFallback inp).ctx.closeConnection = true := by
  induction fuel with
  | zero => intro c r f inp h; exact h
  | succ fuel ih =>
    intro c r f inp h
    rw [scgiSpecLines]
    cases h0 : fgets 999 inp with
    | none => dsimp only; exact h
    | some lr =>
      obtain ⟨line, rest⟩ := lr
      dsimp only
      by_cases h1 : rd (GetFirstElement (cstr line)).1 0 = 35
      · rw [if_pos h1]; exact ih _ _ _ _ h
      · rw [if_neg h1]
        by_cases h2 : (GetFirstElement (cstr line)).1 = bytes "relight:"
        · rw [if_pos h2]; exact ih _ _ _ _ h
        · rw [if_neg h2]
          by_cases h3 : (GetFirstElement (cstr line)).1 = bytes "fallback:"
          · rw [if_pos h3]; exact ih _ _ _ _ h
          · rw [if_neg h3]; exact Malfunction_keeps _ _ _ h

theorem scgiNoSocket_keeps {α : Type} (sys : Sys) (c : Ctx) (zFallback : Option (List Nat))
    (zDir : List Nat) (h : c.closeConnection = true) :
    (scgiNoSocket sys c zFallback zDir : Res α).ctx.closeConnection = true := by
  cases zFallback with
  | none => simp only [scgiNoSocket]; exact Malfunction_keeps _ _ _ h
  | some fb =>
    simp only [scgiNoSocket]
    by_cases h1 : ¬ sys.chdir zDir = true
    · rw [if_pos h1]; exact Malfunction_keeps _ _ _ h
    · rw [if_neg h1]
      by_cases h2 : readableFile sys fb = true
      · rw [if_pos h2]
        cases hs : sys.stat fb with
        | none => dsimp only; exact Malfunction_keeps _ _ _ h
        | some st =>
          dsimp only
          exact bind_keeps _ _ (SendFile_keeps _ _ _ _ rfl) (fun _ _ hc => hc)
      · rw [if_neg h2]; exact Malfunction_keeps _ _ _ h

theorem scgiConnect_keeps (sys : Sys) (c : Ctx) (zRelight zFallback : Option (List Nat))
    (zDir : List Nat) (h : c.closeConnection = true) :
    (scgiConnect sys c zRelight zFallback zDir).ctx.closeConnection = true := by
  unfold scgiConnect
  cases h0 : sys.connect 0 with
  | some s => dsimp only; exact h
  | none =>
    cases zRelight with
    | none => dsimp only; exact scgiNoSocket_keeps _ _ _ _ h
    | some cmd =>
      dsimp only
      by_cases h1 : sys.system cmd ≠ 0
      · rw [if_pos h1]; exact Malfunction_keeps _ _ _ h
      · rw [if_neg h1]
        cases h2 : sys.connect 1 with
        | some s => dsimp only; exact h
        | none => dsimp only; exact scgiNoSocket_keeps _ _ _ _ h

theorem SendScgiRequest_keeps (sys : Sys) (c : Ctx) (zFile zDir zLine0 : List Nat)
    (h : c.closeConnection = true) :
    (SendScgiRequest sys c zFile zDir zLine0).ctx.closeConnection = true := by
  unfold SendScgiRequest
  cases h0 : sys.fopen zFile with
  | none => dsimp only; exact Malfunction_keeps _ _ _ h
  | some content =>
    dsimp only
    cases h1 : fgets 999 content with
    | none => dsimp only; exact Malfunction_keeps _ _ _ h
    | some lr =>
      obtain ⟨line, rest⟩ := lr
      dsimp only
      by_cases h2 : ¬ strncmpEq (cstr line) (bytes "SCGI ") 5 = true
      · rw [if_pos h2]; exact Malfunction_keeps _ _ _ h
      · rw [if_neg h2]
        by_cases h3 : (GetFirstElement ((cstr line).drop 5)).1 = [] ∨
            (GetFirstElement (GetFirstElement ((cstr line).drop 5)).2).1 = []
        · rw [if_pos h3]; exact Malfunction_keeps _ _ _ h
        · rw [if_neg h3]
          refine bind_keeps _ _ (scgiSpecLines_keeps _ _ _ _ _ h) ?_
          intro c1 spec hc1
          by_cases h4 : sys.getaddrinfo (GetFirstElement ((cstr line).drop 5)).1
              (GetFirstElement (GetFirstElement ((cstr line).drop 5)).2).1 ≠ 0
          · rw [if_pos h4]; exact Malfunction_keeps _ _ _ hc1
          · rw [if_neg h4]
            refine bind_keeps _ _ (scgiConnect_keeps _ _ _ _ _ hc1) ?_
            intro c2 s hc2
            exact CgiHandleReply_keeps _ _ _ hc2

theorem serveStatic_keeps (sys : Sys) (c : Ctx) (zFile : List Nat) (st : Stat)
    (h : c.closeConnection = true) :
    (serveStatic sys c zFile st).ctx.closeConnection = true := by
  unfold serveStatic
  by_cases h1 : countSlashes c.zRealScript ≠ countSlashes c.zScript
  · rw [if_pos h1]; exact NotFound_keeps _ _ h
  · rw [if_neg h1]
    refine bind_keeps _ _ (SendFile_keeps _ _ _ _ h) ?_
    intro c1 rc hc1
    by_cases h2 : rc ≠ 0
    · rw [if_pos h2]; exact hc1
    · rw [if_neg h2]
      exact bind_keeps _ _ (MakeLogEntry_keeps _ _ _ hc1) (fun _ _ hc => hc)

theorem strcasecmpEq_exclusive (zVal : List Nat)
    (h : strcasecmpEq zVal (bytes "keep-alive") = true) :
    strcasecmpEq zVal (bytes "close") = false := by
  unfold strcasecmpEq at *
  simp only [decide_eq_true_eq, decide_eq_false_iff_not] at *
  rw [h]
  decide

/-- C8 (amended): starting with `closeConnection` set, every operation of
the request pipeline leaves it set, except a `Connection: keep-alive`
header on a connection that is not forced to close, which clears it
(lines 1772-1773). -/
theorem close_connection_monotone_except_keep_alive (op : Op) (c : Ctx)
    (h : c.closeConnection = true) :
    (op.run c).closeConnection = !op.isKeepAlive := by
  cases op with
  | requestLine forceClose => exact requestLineClose_keeps c forceClose h
  | connectionHeader forceClose zVal =>
    simp only [Op.run, Op.isKeepAlive, headerConnection]
    by_cases hk : strcasecmpEq zVal (bytes "keep-alive") = true
    · rw [strcasecmpEq_exclusive zVal hk, hk]
      cases forceClose <;> simp [h]
    · have hk2 : strcasecmpEq zVal (bytes "keep-alive") = false := by simpa using hk
      rw [hk2]
      by_cases hc : strcasecmpEq zVal (bytes "close") = true
      · simp [hc]
      · simp [hc, h]
  | hostHeader zVal => exact headerHost_keeps c zVal h
  | startResponse zResultCode => exact StartResponse_keeps c _ h
  | notFound lineno => exact NotFound_keeps c lineno h
  | forbidden lineno => exact Forbidden_keeps c lineno
  | notAuthorized zRealm => exact NotAuthorized_keeps c zRealm h
  | cgiError => exact CgiError_keeps c h
  | cgiScriptWritable => exact CgiScriptWritable_keeps c h
  | malfunction linenum msg => exact Malfunction_keeps c linenum msg h
  | redirect zPath iStatus finish lineno => exact Redirect_keeps c zPath iStatus finish lineno h
  | makeLogEntry exitCode lineNum => exact MakeLogEntry_keeps c exitCode lineNum h
  | checkAuth sys zAuthFile => exact CheckBasicAuthorization_keeps sys c zAuthFile h
  | sendFile sys zFile st => exact SendFile_keeps sys c zFile st h
  | cgiReply inp zLine0 => exact CgiHandleReply_keeps c inp zLine0 h
  | scgiRequest sys zFile zDir zLine0 => exact SendScgiRequest_keeps sys c zFile zDir zLine0 h
  | staticFile sys zFile st => exact serveStatic_keeps sys c zFile st h

/-- Witness for the amended C8: a `404` responder run on a connection that
is already marked for closing. -/
theorem close_connection_monotone_except_keep_alive_witness :
    ({ exampleCtx with closeConnection := true } : Ctx).closeConnection = true
    ∧ ((Op.notFound 300).run { exampleCtx with closeConnection := true }).closeConnection
        = !(Op.notFound 300).isKeepAlive :=
  ⟨rfl, close_connection_monotone_except_keep_alive (Op.notFound 300)
    { exampleCtx with closeConnection := true } rfl⟩

/-- C8 (counterexample): on an HTTP/1.0 request, which sets
`closeConnection` at line 1696, the header `Connection: keep-alive` changes
`closeConnection` from true to false. -/
theorem keep_alive_header_clears_close :
    (requestLineClose { exampleCtx with zProtocol := bytes "HTTP/1.0" } false).closeConnection
      = true
    ∧ ((Op.connectionHeader false (bytes "keep-alive")).run
        (requestLineClose { exampleCtx with zProtocol := bytes "HTTP/1.0" } false)).closeConnection
      = false := by
  decide

theorem fgetsSplit_length (n : Nat) : ∀ inp : List Nat,
    (fgetsSplit n inp).1.length + (fgetsSplit n inp).2.length = inp.length := by
  induction n with
  | zero => intro inp; simp [fgetsSplit]
  | succ n ih =>
    intro inp
    cases inp with
    | nil => simp [fgetsSplit]
    | cons ch rest =>
      rw [fgetsSplit]
      split_ifs
      · simp; omega
      · have := ih rest
        simp only [List.length_cons]
        omega

theorem fgetsSplit_ne_nil (n : Nat) (ch : Nat) (rest : List Nat) :
    (fgetsSplit (n + 1) (ch :: rest)).1 ≠ [] := by
  rw [fgetsSplit]
  split_ifs <;> simp

theorem fgets_shorter (n : Nat) (inp line rest : List Nat)
    (h : fgets (n + 2) inp = some (line, rest)) : rest.length < inp.length := by
  unfold fgets at h
  split_ifs at h with he
  cases inp with
  | nil => exact absurd rfl he
  | cons ch tl =>
    simp only [Option.some.injEq] at h
    have h1 := fgetsSplit_length (n + 2 - 1) (ch :: tl)
    have h2 := fgetsSplit_ne_nil n ch tl
    have e : n + 2 - 1 = n + 1 := by omega
    rw [e] at h1 h
    rw [h] at h1 h2
    have : line.length ≠ 0 := fun e0 => h2 (List.length_eq_zero.1 e0)
    simp only at h1
    omega

/-- The bound on the number of passes of the loop over the `-auth` file is
adequate: one more unit of fuel does not change its result. -/
theorem authLoop_fuel (fuel : Nat) : ∀ (c : Ctx) (zRealm inp : List Nat),
    inp.length + 1 ≤ fuel → authLoop (fuel + 1) c zRealm inp = authLoop fuel c zRealm inp := by
  induction fuel with
  | zero => intro c zRealm inp h; omega
  | succ fuel ih =>
    intro c zRealm inp h
    conv_lhs => rw [authLoop]
    conv_rhs => rw [authLoop]
    cases hf : fgets 2000 inp with
    | none => rfl
    | some lr =>
      obtain ⟨line, rest⟩ := lr
      have hlt := fgets_shorter 1998 inp line rest hf
      have hr : rest.length + 1 ≤ fuel := by omega
      simp only []
      split_ifs
      all_goals first
        | rfl
        | exact ih _ _ _ hr
        | skip
      cases c.zAuthArg with
      | none => exact ih _ _ _ hr
      | some arg =>
        simp only []
        split_ifs
        · rfl
        · exact ih _ _ _ hr

/-- The bound on the number of passes of the header loop of the CGI reply
framer is adequate: one more unit of fuel does not change its result. -/
theorem cgiHeaders_fuel (fuel : Nat) : ∀ (c : Ctx) (v : CgiVars) (inp : List Nat),
    inp.length + 1 ≤ fuel → cgiHeaders (fuel + 1) c v inp = cgiHeaders fuel c v inp := by
  induction fuel with
  | zero => intro c v inp h; omega
  | succ fuel ih =>
    intro c v inp h
    conv_lhs => rw [cgiHeaders]
    conv_rhs => rw [cgiHeaders]
    cases hf : fgets 1000 inp with
    | none => rfl
    | some lr =>
      obtain ⟨line, rest⟩ := lr
      have hlt := fgets_shorter 998 inp line rest hf
      have hr : rest.length + 1 ≤ fuel := by omega
      simp only []
      split_ifs
      all_goals first
        | rfl
        | exact ih _ _ _ hr

/-! ## Theorems: the 401 reply, the -auth file, the CGI status line, the log -/

theorem MakeLogEntry_out (c : Ctx) (exitCode lineNum : Nat) :
    (MakeLogEntry c exitCode lineNum).ctx.out = c.out := by
  simp only [MakeLogEntry]
  split_ifs <;> simp_all [Res.ctx]

theorem StartResponse_out_closing (c : Ctx) (code : List Nat) (h : c.statusSent = false)
    (h4 : schar (rd (code.take 3) 0) ≥ 52) :
    (StartResponse c code).out
      = c.out ++ (c.zProtocol ++ [32] ++ code ++ [13, 10]) ++ bytes "Connection: close\r\n"
        ++ (bytes "Date: " ++ c.zDate ++ [13, 10]) := by
  simp only [StartResponse, h, Bool.false_eq_true, if_false, Ctx.printf]
  rw [if_pos h4]
  simp

theorem NotAuthorized_exited (c : Ctx) (zRealm : List Nat) (h : c.statusSent = false) :
    (NotAuthorized c zRealm).exited = true := by
  unfold NotAuthorized
  simp only []
  rw [MakeLogEntry_exited, printf_closeConnection, StartResponse_closeConnection, h]
  have : schar (rd ((bytes "401 Authorization Required").take 3) 0) ≥ 52 := by decide
  simp [this]

theorem NotAuthorized_ctx (c : Ctx) (zRealm : List Nat) (h : c.statusSent = false) :
    (NotAuthorized c zRealm).ctx.closeConnection = true
    ∧ (NotAuthorized c zRealm).ctx.zReplyStatus = bytes "401"
    ∧ bytes "Connection: close\r\n" <:+: (NotAuthorized c zRealm).ctx.out := by
  have h4 : schar (rd ((bytes "401 Authorization Required").take 3) 0) ≥ 52 := by decide
  unfold NotAuthorized
  simp only []
  refine ⟨?_, ?_, ?_⟩
  · rw [MakeLogEntry_closeConnection, printf_closeConnection, StartResponse_closeConnection, h]
    simp [h4]
  · rw [MakeLogEntry_zReplyStatus, printf_zReplyStatus, StartResponse_zReplyStatus c _ h]
    decide
  · rw [MakeLogEntry_out, printf_out, StartResponse_out_closing c _ h h4]
    exact (List.infix_append _ _ _).trans (List.prefix_append _ _).isInfix

/-- C7 (amended): when the authorization check reaches the end of the
`-auth` file with no allow decision and no status line has been sent for
the request, the 401 reply closes the connection: `StartResponse` sets
`closeConnection` because the status begins with the character 4, the
header `Connection: close` is written, and `MakeLogEntry` ends the process
with `exit`, so control does not return for a further request. -/
theorem not_authorized_closes_connection (c : Ctx) (zRealm : List Nat) (fuel : Nat)
    (h : c.statusSent = false) :
    authLoop (fuel + 1) c zRealm [] = (NotAuthorized c zRealm).bind (fun c1 _ => .ret c1 false)
    ∧ (authLoop (fuel + 1) c zRealm []).exited = true
    ∧ (authLoop (fuel + 1) c zRealm []).ctx.closeConnection = true
    ∧ (authLoop (fuel + 1) c zRealm []).ctx.zReplyStatus = bytes "401"
    ∧ bytes "Connection: close\r\n" <:+: (authLoop (fuel + 1) c zRealm []).ctx.out := by
  have e : authLoop (fuel + 1) c zRealm []
      = (NotAuthorized c zRealm).bind (fun c1 _ => .ret c1 false) := by
    rw [authLoop]; rfl
  have hx := NotAuthorized_exited c zRealm h
  have hc := NotAuthorized_ctx c zRealm h
  rw [e]
  cases hr : NotAuthorized c zRealm with
  | ret c1 a => rw [hr] at hx; cases hx
  | exit c1 code =>
    rw [hr] at hc
    exact ⟨rfl, rfl, hc⟩

/-- Witness for the amended C7 on the example context. -/
theorem not_authorized_closes_connection_witness :
    exampleCtx.statusSent = false
    ∧ (authLoop 1 exampleCtx (bytes "private") []).exited = true :=
  ⟨rfl, (not_authorized_closes_connection exampleCtx (bytes "private") 0 rfl).2.1⟩

/-- C7 (counterexample): a keep-alive HTTP/1.1 request without credentials
for a directory whose `-auth` file has only a `realm` and a `user` line:
`closeConnection` was false before the check, the check ends in `exit`,
and `closeConnection` is true. -/
theorem not_authorized_does_not_keep_alive :
    exampleCtx.closeConnection = false
    ∧ (CheckBasicAuthorization
        (exampleSys [(bytes "/www/default.website/-auth",
            bytes "realm private\nuser alice alice:secret\n")] [])
        exampleCtx (bytes "/www/default.website/-auth")).exited = true
    ∧ (CheckBasicAuthorization
        (exampleSys [(bytes "/www/default.website/-auth",
            bytes "realm private\nuser alice alice:secret\n")] [])
        exampleCtx (bytes "/www/default.website/-auth")).ctx.closeConnection = true := by
  decide

/-- C6: the request path that names the file `-auth` inside the directory
`.well-known` of the content root passes the path-element check, is
resolved to the `-auth` file of that directory, is
authorized by the `anyone` line of that very file, is handled as a static
file, and the reply carries the content of the `-auth` file. -/
theorem auth_file_served_under_well_known :
    pathElementCheck (cstr (sanitizeString (bytes "/.well-known/-auth")).1) = false
    ∧ resolveFile wellKnownSys (bytes "/www/default.website")
        (cstr (sanitizeString (bytes "/.well-known/-auth")).1) exampleDir
      = .file (bytes "/www/default.website/.well-known/-auth") (bytes "/.well-known/-auth") 18
          (exampleReg 45)
    ∧ CheckBasicAuthorization wellKnownSys wellKnownCtx
        (dirOf (bytes "/www/default.website/.well-known/-auth") ++ bytes "/-auth")
      = .ret wellKnownCtx true
    ∧ chooseHandler wellKnownSys (bytes "/www/default.website/.well-known/-auth")
        (exampleReg 45) = .static
    ∧ (serveStatic wellKnownSys wellKnownCtx (bytes "/www/default.website/.well-known/-auth")
        (exampleReg 45)).ctx.out
      = bytes "HTTP/1.1 200 OK\r\nConnection: keep-alive\r\nDate: Thu, 01 Jan 1970 00:00:00 GMT\r\nLast-Modified: Thu, 01 Jan 1970 00:00:00 GMT\r\nCache-Control: max-age=120\r\nETag: \"m0s2d\"\r\nContent-type: application/octet-stream; charset=utf-8\r\nContent-length: 45\r\n\r\n"
        ++ bytes "realm private\nuser alice alice:secret\nanyone\n" := by
  set_option maxRecDepth 100000 in
  refine ⟨by decide, by decide, by decide, by decide, by decide⟩

/-- C9: a CGI reply that sends `Location:` and then `Status:`.  After the
`Location:` line `statusSent` is true and the reply status is 302; the
`Status:` line then writes a second status line to the client and
overwrites the reply status with 301. -/
theorem cgi_status_line_after_status_sent :
    (cgiHeaders 1 exampleCtx ⟨false, 0, [], 0, []⟩
        (bytes "Location: /moved\nStatus: 301 Moved\n\n")).1.statusSent = true
    ∧ (cgiHeaders 1 exampleCtx ⟨false, 0, [], 0, []⟩
        (bytes "Location: /moved\nStatus: 301 Moved\n\n")).1.zReplyStatus = bytes "302"
    ∧ (CgiHandleReply exampleCtx (bytes "Location: /moved\nStatus: 301 Moved\n\n") []).out
      = bytes "HTTP/1.1 302 Redirect\r\nConnection: keep-alive\r\nDate: Thu, 01 Jan 1970 00:00:00 GMT\r\nLocation: /moved\r\nHTTP/1.1 301 Moved\nContent-length: 0\r\n\r\n"
    ∧ (CgiHandleReply exampleCtx (bytes "Location: /moved\nStatus: 301 Moved\n\n")
        []).zReplyStatus = bytes "301" := by
  set_option maxRecDepth 100000 in
  refine ⟨by decide, by decide, by decide, by decide⟩

/-- C10: with a log file configured, a GET request for an SCGI file whose
server cannot be reached and whose fallback file exists is answered with
200 and the content of the fallback file, and the process exits with no
record appended to the log; the same file served by the static path of
`ProcessOneRequest` appends one record. -/
theorem scgi_fallback_reply_is_not_logged :
    fallbackCtx.zLogFile.isSome = true ∧ fallbackCtx.omitLog = false
    ∧ fallbackCtx.logOpens = true
    ∧ chooseHandler fallbackSys (bytes "/www/default.website/app.scgi") (exampleReg 40) = .scgi
    ∧ (SendScgiRequest fallbackSys fallbackCtx (bytes "/www/default.website/app.scgi")
        (bytes "/www/default.website") []).exited = true
    ∧ (SendScgiRequest fallbackSys fallbackCtx (bytes "/www/default.website/app.scgi")
        (bytes "/www/default.website") []).ctx.zReplyStatus = bytes "200"
    ∧ (SendScgiRequest fallbackSys fallbackCtx (bytes "/www/default.website/app.scgi")
        (bytes "/www/default.website") []).ctx.out
      = bytes "HTTP/1.1 200 OK\r\nConnection: close\r\nDate: Thu, 01 Jan 1970 00:00:00 GMT\r\nLast-Modified: Thu, 01 Jan 1970 00:00:00 GMT\r\nCache-Control: max-age=120\r\nETag: \"m0s5\"\r\nContent-type: application/octet-stream; charset=utf-8\r\nContent-length: 5\r\n\r\ndown\n"
    ∧ (SendScgiRequest fallbackSys fallbackCtx (bytes "/www/default.website/app.scgi")
        (bytes "/www/default.website") []).ctx.log = []
    ∧ (serveStatic fallbackSys exampleCtx (bytes "down.html") (exampleReg 5)).ctx.log
      = [⟨0, bytes "200"⟩] := by
  set_option maxRecDepth 100000 in
  refine ⟨by decide, by decide, by decide, by decide, by decide, by decide, by decide,
    by decide, by decide⟩

/-! ## Theorems: decimal output and decimal input -/

theorem toDigitsCore_append (fuel : Nat) :
    ∀ (n : Nat) (ds : List Char),
      Nat.toDigitsCore 10 fuel n ds = Nat.toDigitsCore 10 fuel n [] ++ ds := by
  induction fuel with
  | zero => intro n ds; simp [Nat.toDigitsCore]
  | succ fuel ih =>
    intro n ds
    simp only [Nat.toDigitsCore]
    by_cases h : n / 10 = 0
    · simp [h]
    · simp only [h, if_false]
      rw [ih (n / 10) ((n % 10).digitChar :: ds), ih (n / 10) [(n % 10).digitChar]]
      simp

theorem toDigitsCore_fuel (f1 : Nat) :
    ∀ (f2 n : Nat) (ds : List Char), n < f1 → n < f2 →
      Nat.toDigitsCore 10 f1 n ds = Nat.toDigitsCore 10 f2 n ds := by
  induction f1 with
  | zero => intro f2 n ds h; omega
  | succ f1 ih =>
    intro f2 n ds h1 h2
    cases f2 with
    | zero => omega
    | succ f2 =>
      simp only [Nat.toDigitsCore]
      by_cases h : n / 10 = 0
      · simp [h]
      · simp only [h, if_false]
        have : n / 10 < n := Nat.div_lt_self (by omega) (by decide)
        exact ih f2 (n / 10) _ (by omega) (by omega)

theorem digitChar_toNat (k : Nat) (h : k < 10) : (Nat.digitChar k).toNat = 48 + k := by
  interval_cases k <;> rfl

theorem fmtNat_lt (n : Nat) (h : n < 10) : fmtNat n = [48 + n] := by
  have h0 : n / 10 = 0 := Nat.div_eq_of_lt h
  simp [fmtNat, Nat.toDigits, Nat.toDigitsCore, h0, Nat.mod_eq_of_lt h, digitChar_toNat n h]

theorem fmtNat_ge (n : Nat) (h : 10 ≤ n) : fmtNat n = fmtNat (n / 10) ++ [48 + n % 10] := by
  have h0 : n / 10 ≠ 0 := by
    intro h1
    have := (Nat.div_eq_zero_iff (by decide : 0 < 10)).1 h1
    omega
  have hlt : n / 10 < n := Nat.div_lt_self (by omega) (by decide)
  have key : Nat.toDigits 10 n = Nat.toDigits 10 (n / 10) ++ [(n % 10).digitChar] := by
    have e1 : Nat.toDigits 10 n = Nat.toDigitsCore 10 n (n / 10) [(n % 10).digitChar] := by
      simp [Nat.toDigits, Nat.toDigitsCore, h0]
    have e2 : Nat.toDigits 10 (n / 10) = Nat.toDigitsCore 10 (n / 10 + 1) (n / 10) [] := rfl
    rw [e1, e2, toDigitsCore_append, toDigitsCore_fuel n (n / 10 + 1) (n / 10) [] hlt (by omega)]
  unfold fmtNat
  rw [key]
  simp [digitChar_toNat (n % 10) (Nat.mod_lt _ (by decide))]

theorem fmtNat_digits (n : Nat) : ∀ ch ∈ fmtNat n, isDigit ch = true := by
  induction n using Nat.strong_induction_on with
  | _ n ih =>
    by_cases h : n < 10
    · rw [fmtNat_lt n h]
      intro ch hch
      simp at hch
      subst hch
      simp [isDigit]; omega
    · rw [fmtNat_ge n (by omega)]
      intro ch hch
      rw [List.mem_append] at hch
      rcases hch with hch | hch
      · exact ih (n / 10) (Nat.div_lt_self (by omega) (by decide)) ch hch
      · simp at hch
        subst hch
        have := Nat.mod_lt n (by decide : 0 < 10)
        simp [isDigit]; omega

theorem fmtNat_ne_nil (n : Nat) : fmtNat n ≠ [] := by
  by_cases h : n < 10
  · rw [fmtNat_lt n h]; simp
  · rw [fmtNat_ge n (by omega)]; simp

theorem atoiDigits_fmtNat (n : Nat) : ∀ rest : List Nat,
    atoiDigits (fmtNat n ++ rest) 0 = atoiDigits rest n := by
  induction n using Nat.strong_induction_on with
  | _ n ih =>
    intro rest
    by_cases h : n < 10
    · rw [fmtNat_lt n h]
      have hd : 48 ≤ 48 + n ∧ 48 + n ≤ 57 := by omega
      simp only [List.singleton_append, atoiDigits, if_pos hd]
      congr 1
      omega
    · rw [fmtNat_ge n (by omega), List.append_assoc,
        ih (n / 10) (Nat.div_lt_self (by omega) (by decide))]
      have := Nat.mod_lt n (by decide : 0 < 10)
      have hd : 48 ≤ 48 + n % 10 ∧ 48 + n % 10 ≤ 57 := by omega
      simp only [List.singleton_append, atoiDigits, if_pos hd]
      congr 1
      omega

theorem castInt_small (n : Nat) (h : n < 2147483648) : castInt (n : Int) = (n : Int) := by
  unfold castInt
  have e : ((n : Int) % 4294967296) = (n : Int) := by omega
  rw [e, if_pos (by omega)]

/-- A number that an `int` holds is stored as it is. -/
theorem intOfDigits_small (n : Nat) (h : n < 2147483648) :
    intOfDigits (n : Int) = (n : Int) := by
  unfold intOfDigits clampLong
  rw [if_neg (by omega), if_neg (by omega)]
  exact castInt_small n h

/-- The number stored is always in the range of `int`. -/
theorem intOfDigits_range (v : Int) :
    -2147483648 ≤ intOfDigits v ∧ intOfDigits v ≤ 2147483647 := by
  unfold intOfDigits castInt
  split_ifs <;> omega

theorem scanD_digit (d : Nat) (t : List Nat) (hd : isDigit d = true) :
    scanD (d :: t)
      = some (intOfDigits (atoiDigits ((d :: t).takeWhile isDigit) 0 : Int),
          (d :: t).dropWhile isDigit) := by
  have hsp : isspace d = false := by
    simp only [isDigit, Bool.and_eq_true, decide_eq_true_eq] at hd
    simp [isspace]; omega
  have h45 : d ≠ 45 := by
    simp only [isDigit, Bool.and_eq_true, decide_eq_true_eq] at hd; omega
  have h43 : d ≠ 43 := by
    simp only [isDigit, Bool.and_eq_true, decide_eq_true_eq] at hd; omega
  have hne : (d :: t).takeWhile isDigit ≠ [] := by simp [List.takeWhile, hd]
  unfold scanD
  rw [List.dropWhile_cons_of_neg (by simp [hsp])]
  split
  · rename_i r heq; injection heq with h1 _; exact absurd h1 h45
  · rename_i r heq; injection heq with h1 _; exact absurd h1 h43
  · rw [if_neg hne]

/-- The conversion `%d` reads back what `printf("%d")` wrote for a number
of the range of `int` that is not negative, when no digit follows it. -/
theorem scanD_fmtNat (n : Nat) (rest : List Nat) (hrest : rest.takeWhile isDigit = [])
    (hn : n < 2147483648) :
    scanD (fmtNat n ++ rest) = some ((n : Int), rest) := by
  have hall := fmtNat_digits n
  obtain ⟨d, t, hdt⟩ := List.exists_cons_of_ne_nil (fmtNat_ne_nil n)
  have hd : isDigit d = true := hall d (by rw [hdt]; simp)
  have htw : (fmtNat n ++ rest).takeWhile isDigit = fmtNat n := by
    rw [List.takeWhile_append_of_pos hall, hrest, List.append_nil]
  have hdw : (fmtNat n ++ rest).dropWhile isDigit = rest := by
    rw [List.dropWhile_append_of_pos hall]
    have hr : rest.dropWhile isDigit = rest := by
      cases rest with
      | nil => rfl
      | cons x xs =>
        have hx : isDigit x = false := by
          cases hb : isDigit x
          · rfl
          · simp [List.takeWhile, hb] at hrest
        simp [List.dropWhile, hx]
    exact hr
  have e : fmtNat n ++ rest = d :: (t ++ rest) := by rw [hdt]; rfl
  have hv : atoiDigits (fmtNat n) 0 = n := by
    have := atoiDigits_fmtNat n []
    simpa [atoiDigits] using this
  rw [e, scanD_digit d (t ++ rest) hd, ← e, htw, hdw, hv, intOfDigits_small n hn]

theorem scanLit_append (lit rest : List Nat) : scanLit lit (lit ++ rest) = some rest := by
  simp [scanLit]

theorem fmtD_natCast (n : Nat) : fmtD (n : Int) = fmtNat n := by
  unfold fmtD
  rw [if_neg (by omega)]
  simp


/-! ## Theorems: the round trip of `Rfc822Date` and `ParseRfc822Date` -/

theorem scanAlpha3_three (w rest : List Nat) (hw : w.length = 3)
    (ha : ∀ c ∈ w, isAlpha c = true) : scanAlpha3 (w ++ rest) = some (w, rest) := by
  match w, hw with
  | [a, b, c], _ =>
    have h1 : isAlpha a = true := ha a (by simp)
    have h2 : isAlpha b = true := ha b (by simp)
    have h3 : isAlpha c = true := ha c (by simp)
    simp [scanAlpha3, List.takeWhile, h1, h2, h3]

theorem isDigit_not_space (d : Nat) (h : isDigit d = true) : isspace d = false := by
  simp only [isDigit, Bool.and_eq_true, decide_eq_true_eq] at h
  simp [isspace]; omega

theorem isAlpha_not_space (d : Nat) (h : isAlpha d = true) : isspace d = false := by
  simp only [isAlpha, Bool.or_eq_true, Bool.and_eq_true, decide_eq_true_eq] at h
  simp [isspace]; omega

theorem skip_space (x : List Nat) (rest : List Nat) (hne : x ≠ [])
    (hx : ∀ c ∈ x, isspace c = false) :
    (32 :: (x ++ rest)).dropWhile isspace = x ++ rest := by
  obtain ⟨d, t, rfl⟩ := List.exists_cons_of_ne_nil hne
  have hd : isspace d = false := hx d (by simp)
  rw [List.dropWhile_cons_of_pos (by decide)]
  show (d :: (t ++ rest)).dropWhile isspace = d :: (t ++ rest)
  rw [List.dropWhile_cons_of_neg (by simp [hd])]

/-- The conversion `%d` on a run of digits that no digit follows. -/
theorem scanD_digits (ds rest : List Nat) (hne : ds ≠ []) (hd : ∀ c ∈ ds, isDigit c = true)
    (hrest : rest.takeWhile isDigit = []) :
    scanD (ds ++ rest) = some (intOfDigits (atoiDigits ds 0 : Int), rest) := by
  obtain ⟨d, t, hdt⟩ := List.exists_cons_of_ne_nil hne
  have hd0 : isDigit d = true := hd d (by rw [hdt]; simp)
  have htw : (ds ++ rest).takeWhile isDigit = ds := by
    rw [List.takeWhile_append_of_pos hd, hrest, List.append_nil]
  have hdw : (ds ++ rest).dropWhile isDigit = rest := by
    rw [List.dropWhile_append_of_pos hd]
    cases rest with
    | nil => rfl
    | cons x xs =>
      have hx : isDigit x = false := by
        cases hb : isDigit x
        · rfl
        · simp [List.takeWhile, hb] at hrest
      simp [List.dropWhile, hx]
  have e : ds ++ rest = d :: (t ++ rest) := by rw [hdt]; rfl
  rw [e, scanD_digit d (t ++ rest) hd0, ← e, htw, hdw]

theorem fmt02_digits (n : Nat) :
    fmt02 n ≠ [] ∧ (∀ c ∈ fmt02 n, isDigit c = true) ∧ atoiDigits (fmt02 n) 0 = n := by
  unfold fmt02
  by_cases h : n < 10
  · rw [if_pos h]
    refine ⟨by simp, ?_, ?_⟩
    · intro c hc
      rw [List.mem_cons] at hc
      rcases hc with rfl | hc
      · rfl
      · exact fmtNat_digits n c hc
    · have := atoiDigits_fmtNat n []
      simp only [List.append_nil, atoiDigits] at this
      rw [atoiDigits, if_pos (by decide)]
      exact this
  · rw [if_neg h]
    refine ⟨fmtNat_ne_nil n, fmtNat_digits n, ?_⟩
    have := atoiDigits_fmtNat n []
    simpa [atoiDigits] using this

theorem fmtNat_value (n : Nat) : atoiDigits (fmtNat n) 0 = n := by
  have := atoiDigits_fmtNat n []
  simpa [atoiDigits] using this

theorem digits_not_space (ds : List Nat) (hd : ∀ c ∈ ds, isDigit c = true) :
    ∀ c ∈ ds, isspace c = false := fun c hc => isDigit_not_space c (hd c hc)

theorem alpha_not_space (w : List Nat) (ha : ∀ c ∈ w, isAlpha c = true) :
    ∀ c ∈ w, isspace c = false := fun c hc => isAlpha_not_space c (ha c hc)

/-- The seven conversions of line 643 on a text of the shape that `strftime`
writes for the format of line 620. -/
theorem scanDate_format (wd mo D Y H M S tz : List Nat)
    (hwd : wd.length = 3) (hwda : ∀ c ∈ wd, isAlpha c = true)
    (hmo : mo.length = 3) (hmoa : ∀ c ∈ mo, isAlpha c = true)
    (hD : D ≠ [] ∧ ∀ c ∈ D, isDigit c = true) (hY : Y ≠ [] ∧ ∀ c ∈ Y, isDigit c = true)
    (hH : H ≠ [] ∧ ∀ c ∈ H, isDigit c = true) (hM : M ≠ [] ∧ ∀ c ∈ M, isDigit c = true)
    (hS : S ≠ [] ∧ ∀ c ∈ S, isDigit c = true) (htz : tz.takeWhile isDigit = []) :
    scanDate
        (wd ++ (44 :: 32 :: (D ++ (32 :: (mo ++ (32 :: (Y ++ (32 :: (H ++ (58 :: (M ++ (58 :: (S ++ tz)))))))))))))
      = some (intOfDigits (atoiDigits D 0 : Int), mo, intOfDigits (atoiDigits Y 0 : Int),
          intOfDigits (atoiDigits H 0 : Int), intOfDigits (atoiDigits M 0 : Int),
          intOfDigits (atoiDigits S 0 : Int)) := by
  have hmone : mo ≠ [] := by
    intro e; rw [e] at hmo; simp at hmo
  have nd32 : ∀ r : List Nat, (32 :: r).takeWhile isDigit = [] := fun r => by
    simp [List.takeWhile, isDigit]
  have nd58 : ∀ r : List Nat, (58 :: r).takeWhile isDigit = [] := fun r => by
    simp [List.takeWhile, isDigit]
  unfold scanDate
  rw [scanAlpha3_three wd _ hwd hwda]
  simp only [Option.bind_eq_bind, Option.some_bind]
  rw [show scanLit [44]
        (44 :: 32 :: (D ++ (32 :: (mo ++ (32 :: (Y ++ (32 :: (H ++ (58 :: (M ++ (58 :: (S ++ tz))))))))))))
      = some
        (32 :: (D ++ (32 :: (mo ++ (32 :: (Y ++ (32 :: (H ++ (58 :: (M ++ (58 :: (S ++ tz)))))))))))) from scanLit_append [44] _]
  simp only [Option.some_bind]
  rw [skip_space D _ hD.1 (digits_not_space D hD.2), scanD_digits D _ hD.1 hD.2 (nd32 _)]
  simp only [Option.some_bind]
  rw [skip_space mo _ hmone (alpha_not_space mo hmoa), scanAlpha3_three mo _ hmo hmoa]
  simp only [Option.some_bind]
  rw [skip_space Y _ hY.1 (digits_not_space Y hY.2), scanD_digits Y _ hY.1 hY.2 (nd32 _)]
  simp only [Option.some_bind]
  rw [skip_space H _ hH.1 (digits_not_space H hH.2), scanD_digits H _ hH.1 hH.2 (nd58 _)]
  simp only [Option.some_bind]
  rw [show scanLit [58] (58 :: (M ++ (58 :: (S ++ tz)))) = some (M ++ (58 :: (S ++ tz)))
      from scanLit_append [58] _]
  simp only [Option.some_bind]
  rw [scanD_digits M _ hM.1 hM.2 (nd58 _)]
  simp only [Option.some_bind]
  rw [show scanLit [58] (58 :: (S ++ tz)) = some (S ++ tz) from scanLit_append [58] _]
  simp only [Option.some_bind]
  rw [scanD_digits S _ hS.1 hS.2 htz]
  simp only [Option.some_bind]

theorem daysInYear_ge (y : Nat) : 365 ≤ daysInYear y ∧ daysInYear y ≤ 366 := by
  unfold daysInYear
  split_ifs <;> omega

theorem gmYear_spec (fuel : Nat) : ∀ n d : Nat, d < 365 * fuel →
    (gmYear fuel (1970 + n) d).2 < daysInYear (gmYear fuel (1970 + n) d).1
    ∧ ∃ n1, (gmYear fuel (1970 + n) d).1 = 1970 + n1
        ∧ daysBeforeYear n1 + (gmYear fuel (1970 + n) d).2 = daysBeforeYear n + d := by
  induction fuel with
  | zero => intro n d h; omega
  | succ fuel ih =>
    intro n d h
    rw [gmYear]
    by_cases hle : daysInYear (1970 + n) ≤ d
    · rw [if_pos hle]
      have hge := (daysInYear_ge (1970 + n)).1
      obtain ⟨h1, n1, h2, h3⟩ := ih (n + 1) (d - daysInYear (1970 + n)) (by omega)
      have e : 1970 + n + 1 = 1970 + (n + 1) := by omega
      rw [e]
      refine ⟨h1, n1, h2, ?_⟩
      rw [h3, daysBeforeYear]
      omega
    · rw [if_neg hle]
      refine ⟨?_, n, rfl, rfl⟩
      show d < daysInYear (1970 + n)
      omega

theorem daysBeforeYear_mono (n : Nat) : ∀ m, n ≤ m → daysBeforeYear n ≤ daysBeforeYear m := by
  intro m h
  induction m with
  | zero =>
    have : n = 0 := by omega
    subst this
    exact le_refl _
  | succ m ih =>
    by_cases hm : n = m + 1
    · subst hm; exact le_refl _
    · have := ih (by omega)
      rw [daysBeforeYear]
      omega

theorem daysBeforeYear_2039 : daysBeforeYear 69 = 25202 := by
  set_option maxRecDepth 100000 in
  decide

/-- The day count of lines 652-655 agrees with the calendar for the years
1970 to 2038. -/
theorem year_check : ∀ n : Nat, n < 69 →
    ((70 + (n : Int)).tmod 4 == 0
        && ((70 + (n : Int)).tmod 100 != 0 || (70 + (n : Int) + 300).tmod 400 == 0))
      = isLeapYear (1970 + n)
    ∧ (70 + (n : Int) - 70) * 365 + (70 + (n : Int) - 69).tdiv 4 - (70 + (n : Int)).tdiv 100
        + (70 + (n : Int) + 300).tdiv 400 = (daysBeforeYear n : Int) := by
  set_option maxRecDepth 100000 in
  decide

/-- The table `priorDays` agrees with the lengths of the months. -/
theorem month_check : ∀ b : Bool, ∀ d : Nat, d < 366 → d < (if b then 366 else 365) →
    (gmMonth (daysInMonth b) 0 d).1 < 12
    ∧ (if b && decide ((gmMonth (daysInMonth b) 0 d).1 > 1)
        then priorDays.getD (gmMonth (daysInMonth b) 0 d).1 0
          + (((gmMonth (daysInMonth b) 0 d).2 + 1 : Nat) : Int) - 1 + 1
        else priorDays.getD (gmMonth (daysInMonth b) 0 d).1 0
          + (((gmMonth (daysInMonth b) 0 d).2 + 1 : Nat) : Int) - 1) = (d : Int) := by
  set_option maxRecDepth 1000000 in
  decide

/-- The day of the month that `gmMonth` gives is below 366. -/
theorem month_day_check : ∀ b : Bool, ∀ d : Nat, d < 366 →
    (gmMonth (daysInMonth b) 0 d).2 < 366 := by
  set_option maxRecDepth 1000000 in
  decide

theorem names_check :
    (∀ k, k < 7 → (azWeekdays.getD k []).length = 3
      ∧ ∀ c ∈ azWeekdays.getD k [], isAlpha c = true)
    ∧ (∀ k, k < 12 → (azMonths.getD k []).length = 3
      ∧ (∀ c ∈ azMonths.getD k [], isAlpha c = true)
      ∧ ((List.range 12).find? fun mon =>
          strncmpEq (azMonths.getD mon []) (azMonths.getD k []) 3) = some k) := by
  set_option maxRecDepth 100000 in
  decide

theorem dateSeconds_gm (n d : Nat) (hn : n < 69) (hd : d < daysInYear (1970 + n))
    (hour min sec : Int) :
    dateSeconds (gmMonth (daysInMonth (isLeapYear (1970 + n))) 0 d).1
        (((gmMonth (daysInMonth (isLeapYear (1970 + n))) 0 d).2 + 1 : Nat) : Int)
        (70 + (n : Int)) hour min sec
      = ((((daysBeforeYear n + d : Nat) : Int) * 24 + hour) * 60 + min) * 60 + sec := by
  obtain ⟨y1, y2⟩ := year_check n hn
  have hd1 : d < 366 := by
    have := (daysInYear_ge (1970 + n)).2
    omega
  have hd2 : d < (if isLeapYear (1970 + n) = true then 366 else 365) := by
    unfold daysInYear at hd
    exact hd
  obtain ⟨_, m2⟩ := month_check (isLeapYear (1970 + n)) d hd1 hd2
  unfold dateSeconds
  simp only []
  rw [y1, y2, m2]
  push_cast
  ring


/-- C11: for every `t` with `0 ≤ t < 2^31`, `ParseRfc822Date` applied to the
text of `Rfc822Date(t)` gives `t` back; the text of `Rfc822Date(0)` is
`Thu, 01 Jan 1970 00:00:00 GMT`. -/
theorem rfc822_round_trip (t : Nat) (h : t < 2 ^ 31) :
    ParseRfc822Date (Rfc822Date t) = (t : Int)
    ∧ Rfc822Date 0 = bytes "Thu, 01 Jan 1970 00:00:00 GMT" := by
  refine ⟨?_, by decide⟩
  have hdays : t / 86400 < 24856 := by omega
  obtain ⟨hy1, n1, hy2, hy3⟩ := gmYear_spec (t / 86400 + 1) 0 (t / 86400) (by omega)
  simp only [Nat.add_zero, daysBeforeYear, Nat.zero_add] at hy1 hy2 hy3
  have hn1 : n1 < 69 := by
    by_contra hge
    have := daysBeforeYear_mono 69 n1 (by omega)
    rw [daysBeforeYear_2039] at this
    omega
  rw [hy2] at hy1
  have hm := month_check (isLeapYear (1970 + n1)) (gmYear (t / 86400 + 1) 1970 (t / 86400)).2
    (by have := (daysInYear_ge (1970 + n1)).2; omega)
    (by unfold daysInYear at hy1; exact hy1)
  have hmd := month_day_check (isLeapYear (1970 + n1))
    (gmYear (t / 86400 + 1) 1970 (t / 86400)).2
    (by have := (daysInYear_ge (1970 + n1)).2; omega)
  have hsec := dateSeconds_gm n1 (gmYear (t / 86400 + 1) 1970 (t / 86400)).2 hn1 hy1
  rw [hy3] at hsec
  generalize hg : gmMonth (daysInMonth (isLeapYear (1970 + n1))) 0
    (gmYear (t / 86400 + 1) 1970 (t / 86400)).2 = g at hm hsec hmd
  have eR : Rfc822Date t
      = (azWeekdays.getD ((t / 86400 + 4) % 7) [] ++ (44 :: 32 :: (fmt02 (g.2 + 1) ++ (32 :: (azMonths.getD g.1 [] ++ (32 :: (fmtNat (1970 + n1 - 1900 + 1900) ++ (32 :: (fmt02 (t % 86400 / 3600) ++ (58 :: (fmt02 (t % 86400 / 60 % 60) ++ (58 :: (fmt02 (t % 86400 % 60) ++ bytes " GMT"))))))))))))) := by
    simp only [Rfc822Date, gmtime, hy2, hg, List.append_assoc, List.cons_append,
      List.nil_append, show bytes ", " = [44, 32] from rfl]
  obtain ⟨nw, nm⟩ := names_check
  obtain ⟨w1, w2⟩ := nw ((t / 86400 + 4) % 7) (Nat.mod_lt _ (by decide))
  obtain ⟨m1, m2, m3⟩ := nm g.1 hm.1
  have f1 := fmt02_digits (g.2 + 1)
  have f2 := fmt02_digits (t % 86400 / 3600)
  have f3 := fmt02_digits (t % 86400 / 60 % 60)
  have f4 := fmt02_digits (t % 86400 % 60)
  have hscan := scanDate_format (azWeekdays.getD ((t / 86400 + 4) % 7) []) (azMonths.getD g.1 [])
    (fmt02 (g.2 + 1)) (fmtNat (1970 + n1 - 1900 + 1900)) (fmt02 (t % 86400 / 3600))
    (fmt02 (t % 86400 / 60 % 60)) (fmt02 (t % 86400 % 60)) (bytes " GMT")
    w1 w2 m1 m2 ⟨f1.1, f1.2.1⟩ ⟨fmtNat_ne_nil _, fmtNat_digits _⟩ ⟨f2.1, f2.2.1⟩
    ⟨f3.1, f3.2.1⟩ ⟨f4.1, f4.2.1⟩ (by decide)
  rw [f1.2.2, f2.2.2, f3.2.2, f4.2.2, fmtNat_value,
    intOfDigits_small (g.2 + 1) (by omega),
    intOfDigits_small (1970 + n1 - 1900 + 1900) (by omega),
    intOfDigits_small (t % 86400 / 3600) (by omega),
    intOfDigits_small (t % 86400 / 60 % 60) (by omega),
    intOfDigits_small (t % 86400 % 60) (by omega)] at hscan
  unfold ParseRfc822Date
  rw [eR, hscan]
  simp only []
  rw [m3]
  simp only []
  have hyear : (if ((1970 + n1 - 1900 + 1900 : Nat) : Int) > 1900
      then ((1970 + n1 - 1900 + 1900 : Nat) : Int) - 1900
      else ((1970 + n1 - 1900 + 1900 : Nat) : Int)) = 70 + (n1 : Int) := by
    rw [if_pos (by omega)]
    omega
  rw [hyear, hsec]
  omega

/-- Witness for C11: the last second that a signed 32-bit `time_t` holds. -/
theorem rfc822_round_trip_witness :
    (2147483647 < 2 ^ 31)
    ∧ Rfc822Date 2147483647 = bytes "Tue, 19 Jan 2038 03:14:07 GMT"
    ∧ ParseRfc822Date (Rfc822Date 2147483647) = 2147483647 :=
  ⟨by decide, by decide, (rfc822_round_trip 2147483647 (by decide)).1⟩


/-! ## Theorems: `Decode64` and the base-64 encoding -/

theorem rd_drop (l : List Nat) (a b : Nat) : rd (l.drop a) b = rd l (a + b) := by
  simp [rd, List.getD_eq_getElem?_getD, List.getElem?_drop]

theorem rd_take (l : List Nat) (n k : Nat) (h : k < n) : rd (l.take n) k = rd l k := by
  simp [rd, List.getD_eq_getElem?_getD, List.getElem?_take, h]

theorem rd_region (pre orig : List Nat) (i : Nat) (h : pre.length ≤ i) :
    rd (pre ++ orig.drop pre.length) i = rd orig i := by
  obtain ⟨k, rfl⟩ : ∃ k, i = pre.length + k := ⟨i - pre.length, by omega⟩
  rw [rd_append, rd_drop]

theorem rem_cons (orig : List Nat) (n64 i : Nat) (hn : n64 ≤ orig.length) (h : i < n64) :
    (orig.take n64).drop i = rd orig i :: (orig.take n64).drop (i + 1) := by
  have hl : i < (orig.take n64).length := by
    rw [List.length_take]; omega
  rw [List.drop_eq_getElem_cons hl]
  congr 1
  have : rd (orig.take n64) i = (orig.take n64)[i] := by
    simp [rd, List.getD_eq_getElem?_getD, List.getElem?_eq_getElem hl]
  rw [← this, rd_take orig n64 i h]

theorem rem_nil (orig : List Nat) (n64 i : Nat) (h : n64 ≤ i) :
    (orig.take n64).drop i = [] := by
  apply List.drop_eq_nil_of_le
  rw [List.length_take]; omega

theorem wr_zero_cons (x v : Nat) (T : List Nat) : wr (x :: T) 0 v = v :: T := rfl

theorem wr_succ_cons (x v k : Nat) (T : List Nat) : wr (x :: T) (k + 1) v = x :: wr T k v := rfl

theorem wr_pre (pre T : List Nat) (k v : Nat) :
    wr (pre ++ T) (pre.length + k) v = pre ++ wr T k v := wr_append pre T k v

theorem wr3_region (pre T : List Nat) (v0 v1 v2 : Nat) (h : 3 ≤ T.length) :
    wr (wr (wr (pre ++ T) pre.length v0) (pre.length + 1) v1) (pre.length + 2) v2
      = pre ++ [v0, v1, v2] ++ T.drop 3 := by
  match T, h with
  | t0 :: t1 :: t2 :: T1, _ =>
    have e0 := wr_pre pre (t0 :: t1 :: t2 :: T1) 0 v0
    rw [Nat.add_zero] at e0
    rw [e0, wr_pre, wr_pre]
    simp [wr_zero_cons, wr_succ_cons]

theorem wr2z_region (pre T : List Nat) (v0 v1 : Nat) (h : 2 ≤ T.length) :
    wr (wr (wr (pre ++ T) pre.length v0) (pre.length + 1) v1) (pre.length + 2) 0
      = pre ++ [v0, v1] ++ wr (T.drop 2) 0 0 := by
  match T, h with
  | t0 :: t1 :: T1, _ =>
    have e0 := wr_pre pre (t0 :: t1 :: T1) 0 v0
    rw [Nat.add_zero] at e0
    rw [e0, wr_pre, wr_pre]
    simp [wr_zero_cons, wr_succ_cons]

theorem wr1z_region (pre T : List Nat) (v0 : Nat) (h : 1 ≤ T.length) :
    wr (wr (pre ++ T) pre.length v0) (pre.length + 1) 0
      = pre ++ [v0] ++ wr (T.drop 1) 0 0 := by
  match T, h with
  | t0 :: T1, _ =>
    have e0 := wr_pre pre (t0 :: T1) 0 v0
    rw [Nat.add_zero] at e0
    rw [e0, wr_pre]
    simp [wr_zero_cons, wr_succ_cons]

theorem wr0z_region (pre T : List Nat) :
    wr (pre ++ T) pre.length 0 = pre ++ wr T 0 0 := by
  have e0 := wr_pre pre T 0 0
  rw [Nat.add_zero] at e0
  exact e0

/-- What the loop and the tail of `Decode64` leave in the region: the bytes
already stored, the decoding of the significant input that is left, the
terminating NUL and the rest of the input untouched. -/
theorem decode_region_spec (orig : List Nat) (n64 : Nat) (hn : n64 ≤ orig.length) :
    ∀ (fuel i : Nat) (pre : List Nat), pre.length ≤ i → n64 < i + 4 * fuel + 1 →
      decodeTail n64 (decodeLoop n64 fuel (pre ++ orig.drop pre.length) i pre.length).1
          (decodeLoop n64 fuel (pre ++ orig.drop pre.length) i pre.length).2.1
          (decodeLoop n64 fuel (pre ++ orig.drop pre.length) i pre.length).2.2
        = pre ++ decodeQuads ((orig.take n64).drop i)
          ++ wr (orig.drop (pre.length + (decodeQuads ((orig.take n64).drop i)).length)) 0 0 := by
  have htail : ∀ (i : Nat) (pre : List Nat), pre.length ≤ i → ¬ i + 3 < n64 →
      decodeTail n64 (pre ++ orig.drop pre.length) i pre.length
        = pre ++ decodeQuads ((orig.take n64).drop i)
          ++ wr (orig.drop (pre.length + (decodeQuads ((orig.take n64).drop i)).length)) 0 0 := by
    intro i pre hj h3
    unfold decodeTail
    by_cases h2 : i + 2 < n64
    · rw [if_pos h2]
      simp only []
      rw [rd_region pre orig i hj, rd_region pre orig (i + 1) (by omega),
        rd_region pre orig (i + 2) (by omega)]
      rw [rem_cons orig n64 i hn (by omega), rem_cons orig n64 (i + 1) hn (by omega),
        rem_cons orig n64 (i + 2) hn (by omega), rem_nil orig n64 (i + 2 + 1) (by omega)]
      rw [wr2z_region pre _ _ _ (by rw [List.length_drop]; omega)]
      simp [decodeQuads, Nat.add_comm]
    · rw [if_neg h2]
      by_cases h1 : i + 1 < n64
      · rw [if_pos h1]
        simp only []
        rw [rd_region pre orig i hj, rd_region pre orig (i + 1) (by omega)]
        rw [rem_cons orig n64 i hn (by omega), rem_cons orig n64 (i + 1) hn (by omega),
          rem_nil orig n64 (i + 1 + 1) (by omega)]
        rw [wr1z_region pre _ _ (by rw [List.length_drop]; omega)]
        simp [decodeQuads, Nat.add_comm]
      · rw [if_neg h1]
        have hq : decodeQuads ((orig.take n64).drop i) = [] := by
          by_cases h0 : i < n64
          · rw [rem_cons orig n64 i hn h0, rem_nil orig n64 (i + 1) (by omega)]
            rfl
          · rw [rem_nil orig n64 i (by omega)]
            rfl
        rw [hq, wr0z_region]
        simp
  intro fuel
  induction fuel with
  | zero =>
    intro i pre hj hf
    simp only [decodeLoop]
    exact htail i pre hj (by omega)
  | succ fuel ih =>
    intro i pre hj hf
    by_cases h3 : i + 3 < n64
    · have hstep : decodeLoop n64 (fuel + 1) (pre ++ orig.drop pre.length) i pre.length
          = decodeLoop n64 fuel
              ((pre ++ [((trans (rd orig i) <<< 2) &&& 0xfc) ||| ((trans (rd orig (i + 1)) >>> 4) &&& 0x03),
                  ((trans (rd orig (i + 1)) <<< 4) &&& 0xf0)
                    ||| ((trans (rd orig (i + 2)) >>> 2) &&& 0x0f),
                  ((trans (rd orig (i + 2)) <<< 6) &&& 0xc0) ||| (trans (rd orig (i + 3)) &&& 0x3f)])
                ++ orig.drop (pre.length + 3)) (i + 4) (pre.length + 3) := by
        rw [decodeLoop, if_pos h3]
        simp only []
        rw [rd_region pre orig i hj, rd_region pre orig (i + 1) (by omega),
          rd_region pre orig (i + 2) (by omega), rd_region pre orig (i + 3) (by omega)]
        rw [wr3_region pre _ _ _ _ (by rw [List.length_drop]; omega), List.drop_drop]
      rw [hstep]
      have hlen : (pre ++ [((trans (rd orig i) <<< 2) &&& 0xfc)
            ||| ((trans (rd orig (i + 1)) >>> 4) &&& 0x03),
          ((trans (rd orig (i + 1)) <<< 4) &&& 0xf0) ||| ((trans (rd orig (i + 2)) >>> 2) &&& 0x0f),
          ((trans (rd orig (i + 2)) <<< 6) &&& 0xc0) ||| (trans (rd orig (i + 3)) &&& 0x3f)]).length
          = pre.length + 3 := by simp
      have hih := ih (i + 4) _ (by rw [hlen]; omega) (by omega)
      rw [hlen] at hih
      rw [hih]
      rw [rem_cons orig n64 i hn (by omega), rem_cons orig n64 (i + 1) hn (by omega),
        rem_cons orig n64 (i + 2) hn (by omega), rem_cons orig n64 (i + 3) hn (by omega)]
      simp only [decodeQuads, List.length_cons, List.append_assoc, List.cons_append,
        List.nil_append]
      have e : pre.length + 3 + (decodeQuads ((orig.take n64).drop (i + 3 + 1))).length
          = pre.length + ((decodeQuads ((orig.take n64).drop (i + 3 + 1))).length + 1 + 1 + 1) := by
        omega
      rw [e]
    · have hstep : decodeLoop n64 (fuel + 1) (pre ++ orig.drop pre.length) i pre.length
          = (pre ++ orig.drop pre.length, i, pre.length) := by
        rw [decodeLoop, if_neg h3]
      rw [hstep]
      exact htail i pre hj h3

theorem base64Char_props : ∀ k, k < 64 →
    base64Char k ≠ 0 ∧ base64Char k ≠ 61 ∧ trans (base64Char k) = k := by
  set_option maxRecDepth 100000 in
  decide

theorem bits_first : ∀ p, p < 64 → ∀ u, u < 4 →
    ((p <<< 2) &&& 0xfc) ||| (u &&& 0x03) = 4 * p + u := by
  set_option maxRecDepth 100000 in
  decide

theorem bits_second : ∀ q, q < 64 → ∀ w, w < 16 →
    ((q <<< 4) &&& 0xf0) ||| (w &&& 0x0f) = q % 16 * 16 + w := by
  set_option maxRecDepth 100000 in
  decide

theorem bits_third : ∀ r, r < 64 → ∀ t, t < 64 →
    ((r <<< 6) &&& 0xc0) ||| (t &&& 0x3f) = r % 4 * 64 + t := by
  set_option maxRecDepth 1000000 in
  decide

theorem decode_first (b0 b1 : Nat) (h0 : b0 < 256) (h1 : b1 < 256) :
    ((trans (base64Char (b0 / 4)) <<< 2) &&& 0xfc)
      ||| ((trans (base64Char (b0 % 4 * 16 + b1 / 16)) >>> 4) &&& 0x03) = b0 := by
  rw [(base64Char_props (b0 / 4) (by omega)).2.2,
    (base64Char_props (b0 % 4 * 16 + b1 / 16) (by omega)).2.2, Nat.shiftRight_eq_div_pow]
  have e : (b0 % 4 * 16 + b1 / 16) / 2 ^ 4 = b0 % 4 := by omega
  rw [e, bits_first (b0 / 4) (by omega) (b0 % 4) (by omega)]
  omega

theorem decode_second (b0 b1 b2 : Nat) (h1 : b1 < 256) (h2 : b2 < 256) :
    ((trans (base64Char (b0 % 4 * 16 + b1 / 16)) <<< 4) &&& 0xf0)
      ||| ((trans (base64Char (b1 % 16 * 4 + b2 / 64)) >>> 2) &&& 0x0f) = b1 := by
  rw [(base64Char_props (b0 % 4 * 16 + b1 / 16) (by omega)).2.2,
    (base64Char_props (b1 % 16 * 4 + b2 / 64) (by omega)).2.2, Nat.shiftRight_eq_div_pow]
  have e : (b1 % 16 * 4 + b2 / 64) / 2 ^ 2 = b1 % 16 := by omega
  rw [e, bits_second (b0 % 4 * 16 + b1 / 16) (by omega) (b1 % 16) (by omega)]
  omega

theorem decode_third (b1 b2 : Nat) (h2 : b2 < 256) :
    ((trans (base64Char (b1 % 16 * 4 + b2 / 64)) <<< 6) &&& 0xc0)
      ||| (trans (base64Char (b2 % 64)) &&& 0x3f) = b2 := by
  rw [(base64Char_props (b1 % 16 * 4 + b2 / 64) (by omega)).2.2,
    (base64Char_props (b2 % 64) (by omega)).2.2,
    bits_third (b1 % 16 * 4 + b2 / 64) (by omega) (b2 % 64) (by omega)]
  omega

/-- Decoding the unpadded base-64 encoding of a byte string gives the byte
string back. -/
theorem decodeQuads_encode (s : List Nat) : (∀ b ∈ s, b < 256) →
    decodeQuads (base64EncodeNoPad s) = s := by
  induction s using base64EncodeNoPad.induct with
  | case1 b0 b1 b2 rest ih =>
    intro h
    have h0 : b0 < 256 := h b0 (by simp)
    have h1 : b1 < 256 := h b1 (by simp)
    have h2 : b2 < 256 := h b2 (by simp)
    rw [base64EncodeNoPad, decodeQuads, decode_first b0 b1 h0 h1, decode_second b0 b1 b2 h1 h2,
      decode_third b1 b2 h2, ih (fun b hb => h b (by simp [hb]))]
  | case2 b0 b1 =>
    intro h
    have h0 : b0 < 256 := h b0 (by simp)
    have h1 : b1 < 256 := h b1 (by simp)
    have e1 := decode_first b0 b1 h0 h1
    have e2 := decode_second b0 b1 0 h1 (by decide)
    simp only [Nat.zero_div, Nat.add_zero] at e2
    rw [base64EncodeNoPad, decodeQuads, e1, e2]
  | case3 b0 =>
    intro h
    have h0 : b0 < 256 := h b0 (by simp)
    have e1 := decode_first b0 0 h0 (by decide)
    simp only [Nat.zero_div, Nat.add_zero] at e1
    rw [base64EncodeNoPad, decodeQuads, e1]
  | case4 => intro _; rfl

/-- Every character of the unpadded encoding belongs to the alphabet: it is
neither NUL nor the padding character. -/
theorem encode_chars (s : List Nat) : (∀ b ∈ s, b < 256) →
    ∀ ch ∈ base64EncodeNoPad s, ch ≠ 0 ∧ ch ≠ 61 := by
  induction s using base64EncodeNoPad.induct with
  | case1 b0 b1 b2 rest ih =>
    intro h ch hch
    have h0 : b0 < 256 := h b0 (by simp)
    have h1 : b1 < 256 := h b1 (by simp)
    have h2 : b2 < 256 := h b2 (by simp)
    rw [base64EncodeNoPad] at hch
    simp only [List.mem_cons] at hch
    rcases hch with rfl | rfl | rfl | rfl | hch
    · exact ⟨(base64Char_props _ (by omega)).1, (base64Char_props _ (by omega)).2.1⟩
    · exact ⟨(base64Char_props _ (by omega)).1, (base64Char_props _ (by omega)).2.1⟩
    · exact ⟨(base64Char_props _ (by omega)).1, (base64Char_props _ (by omega)).2.1⟩
    · exact ⟨(base64Char_props _ (by omega)).1, (base64Char_props _ (by omega)).2.1⟩
    · exact ih (fun b hb => h b (by simp [hb])) ch hch
  | case2 b0 b1 =>
    intro h ch hch
    have h0 : b0 < 256 := h b0 (by simp)
    have h1 : b1 < 256 := h b1 (by simp)
    rw [base64EncodeNoPad] at hch
    simp only [List.mem_cons, List.mem_singleton, List.not_mem_nil, or_false] at hch
    rcases hch with rfl | rfl | rfl
    · exact ⟨(base64Char_props _ (by omega)).1, (base64Char_props _ (by omega)).2.1⟩
    · exact ⟨(base64Char_props _ (by omega)).1, (base64Char_props _ (by omega)).2.1⟩
    · exact ⟨(base64Char_props _ (by omega)).1, (base64Char_props _ (by omega)).2.1⟩
  | case3 b0 =>
    intro h ch hch
    have h0 : b0 < 256 := h b0 (by simp)
    rw [base64EncodeNoPad] at hch
    simp only [List.mem_cons, List.mem_singleton, List.not_mem_nil, or_false] at hch
    rcases hch with rfl | rfl
    · exact ⟨(base64Char_props _ (by omega)).1, (base64Char_props _ (by omega)).2.1⟩
    · exact ⟨(base64Char_props _ (by omega)).1, (base64Char_props _ (by omega)).2.1⟩
  | case4 => intro _ ch hch; simp [base64EncodeNoPad] at hch

theorem stripPad_le (m : List Nat) : ∀ n, stripPad m n ≤ n := by
  intro n
  induction n with
  | zero => simp [stripPad]
  | succ n ih =>
    rw [stripPad]
    split_ifs
    · omega
    · omega

/-- The loop of line 867 computes the length of the string without its
trailing `=` characters. -/
theorem stripPad_spec (l : List Nat) : ∀ m : List Nat, (∀ t, t < l.length → rd m t = rd l t) →
    stripPad m l.length = ((l.reverse.dropWhile fun ch => ch == 61).reverse).length
    ∧ (l.reverse.dropWhile fun ch => ch == 61).reverse
      = l.take ((l.reverse.dropWhile fun ch => ch == 61).reverse).length := by
  induction l using List.reverseRecOn with
  | nil => intro m _; simp [stripPad]
  | append_singleton init c ih =>
    intro m hm
    have hc : rd m init.length = c := by
      rw [hm init.length (by simp)]
      have := rd_append init [c] 0
      rw [Nat.add_zero] at this
      rw [this]
      rfl
    have hinit : ∀ t, t < init.length → rd m t = rd init t := by
      intro t ht
      rw [hm t (by simp; omega)]
      simp [rd, List.getD_eq_getElem?_getD, List.getElem?_append_left ht]
    have hlen : (init ++ [c]).length = init.length + 1 := by simp
    rw [hlen, stripPad, hc, List.reverse_append, List.reverse_singleton, List.singleton_append]
    by_cases h61 : c = 61
    · subst h61
      obtain ⟨i1, i2⟩ := ih m hinit
      rw [if_pos rfl, List.dropWhile_cons_of_pos (by simp), i1]
      refine ⟨rfl, ?_⟩
      have hle : ((init.reverse.dropWhile fun ch => ch == 61).reverse).length ≤ init.length := by
        rw [List.length_reverse]
        exact (List.dropWhile_suffix _).length_le.trans (by simp)
      rw [List.take_append_of_le_length hle]
      exact i2
    · rw [if_neg h61, List.dropWhile_cons_of_neg (by simpa using h61)]
      simp

theorem cstr_isPrefix (m : List Nat) : cstr m <+: m := List.takeWhile_prefix _

/-- The function `Decode64` on its region refines `Decode64` on the string:
the region begins with the decoded bytes, a NUL follows them, and the rest of
the region is unchanged. -/
theorem Decode64InPlace_refines (m : List Nat) :
    Decode64InPlace m
      = Decode64 (cstr m) ++ wr (m.drop (Decode64 (cstr m)).length) 0 0 := by
  obtain ⟨s1, s2⟩ := stripPad_spec (cstr m) m (by
    intro t ht
    obtain ⟨r, hr⟩ := cstr_isPrefix m
    conv_lhs => rw [← hr]
    simp [rd, List.getD_eq_getElem?_getD, List.getElem?_append_left ht])
  have hle : stripPad m (cstr m).length ≤ m.length :=
    (stripPad_le m _).trans (cstr_isPrefix m).length_le
  have htake : m.take (stripPad m (cstr m).length)
      = ((cstr m).reverse.dropWhile fun ch => ch == 61).reverse := by
    obtain ⟨r, hr⟩ := cstr_isPrefix m
    have h2 : (cstr m ++ r).take (stripPad m (cstr m).length)
        = (cstr m).take (stripPad m (cstr m).length) :=
      List.take_append_of_le_length (stripPad_le m _)
    rw [hr] at h2
    rw [h2, s1, ← s2]
  have h := decode_region_spec m (stripPad m (cstr m).length) hle
    (stripPad m (cstr m).length + 1) 0 [] (by simp) (by omega)
  simp only [List.nil_append, List.length_nil, List.drop_zero, Nat.zero_add] at h
  unfold Decode64InPlace Decode64
  simp only []
  rw [h, htake]

theorem Decode64_encode (s : List Nat) (k : Nat) (h : ∀ b ∈ s, b < 256) :
    cstr (base64Encode s k) = base64Encode s k ∧ Decode64 (base64Encode s k) = s := by
  have hch := encode_chars s h
  have hc : cstr (base64Encode s k) = base64Encode s k := by
    unfold cstr base64Encode
    rw [List.takeWhile_eq_self_iff]
    intro ch hch2
    rw [List.mem_append] at hch2
    rcases hch2 with h1 | h1
    · simpa using (hch ch h1).1
    · rw [List.eq_of_mem_replicate h1]; decide
  refine ⟨hc, ?_⟩
  unfold Decode64
  have hrev : ((base64Encode s k).reverse.dropWhile fun ch => ch == 61)
      = (base64EncodeNoPad s).reverse := by
    unfold base64Encode
    rw [List.reverse_append, List.reverse_replicate,
      List.dropWhile_append_of_pos (by
        intro a ha
        rw [List.eq_of_mem_replicate ha]; rfl)]
    cases hy : (base64EncodeNoPad s).reverse with
    | nil => rfl
    | cons y ys =>
      have hy1 : y ∈ base64EncodeNoPad s := by
        rw [← List.mem_reverse, hy]; simp
      rw [List.dropWhile_cons_of_neg (by simpa using (hch y hy1).2)]
  rw [hrev, List.reverse_reverse]
  exact decodeQuads_encode s h

/-- C12: for every byte string `s` and every number `k` of trailing `=`
characters, `Decode64` applied to the region that holds the base-64 encoding
of `s` leaves the bytes of `s` at the start of the region, followed by a
NUL, and the rest of the region unchanged. -/
theorem decode64_of_base64 (s : List Nat) (k : Nat) (h : ∀ b ∈ s, b < 256) :
    Decode64InPlace (base64Encode s k)
      = s ++ wr ((base64Encode s k).drop s.length) 0 0
    ∧ (Decode64InPlace (base64Encode s k)).take s.length = s
    ∧ rd (Decode64InPlace (base64Encode s k)) s.length = 0 := by
  obtain ⟨hc, hd⟩ := Decode64_encode s k h
  have e : Decode64InPlace (base64Encode s k)
      = s ++ wr ((base64Encode s k).drop s.length) 0 0 := by
    rw [Decode64InPlace_refines, hc, hd]
  refine ⟨e, ?_, ?_⟩
  · rw [e, List.take_left]
  · rw [e]
    have := rd_append s (wr ((base64Encode s k).drop s.length) 0 0) 0
    rw [Nat.add_zero] at this
    rw [this]
    cases (base64Encode s k).drop s.length with
    | nil => rfl
    | cons x xs => rfl

/-- Witness for C12: the credentials `alice:secret`, encoded without
padding. -/
theorem decode64_of_base64_witness :
    (∀ b ∈ bytes "alice:secret", b < 256)
    ∧ base64Encode (bytes "alice:secret") 0 = bytes "YWxpY2U6c2VjcmV0"
    ∧ (Decode64InPlace (base64Encode (bytes "alice:secret") 0)).take
        (bytes "alice:secret").length = bytes "alice:secret" :=
  ⟨by decide, by decide,
    (decode64_of_base64 (bytes "alice:secret") 0 (by decide)).2.1⟩


/-! ## Theorems: `CompareEtags` -/

theorem strcmp_eq_zero (a : List Nat) : ∀ b : List Nat, strcmp a b = 0 ↔ a = b := by
  induction a with
  | nil =>
    intro b
    cases b with
    | nil => simp [strcmp]
    | cons y ys => simp [strcmp]
  | cons x xs ih =>
    intro b
    cases b with
    | nil => simp [strcmp]
    | cons y ys =>
      rw [strcmp]
      by_cases h1 : x < y
      · rw [if_pos h1]
        constructor
        · intro h; cases h
        · intro h; injection h with hx _; omega
      · rw [if_neg h1]
        by_cases h2 : y < x
        · rw [if_pos h2]
          constructor
          · intro h; cases h
          · intro h; injection h with hx _; omega
        · rw [if_neg h2, ih ys]
          have hxy : x = y := by omega
          subst hxy
          simp

theorem quoted_iff (a b : List Nat) :
    (rd a 0 = 34 ∧ strncmpEq (a.drop 1) b b.length = true ∧ rd a (b.length + 1) = 34)
      ↔ [34] ++ b ++ [34] <+: a := by
  constructor
  · rintro ⟨h0, h1, h2⟩
    cases a with
    | nil => simp [rd] at h0
    | cons x a1 =>
      have hx : x = 34 := by simpa [rd] using h0
      subst hx
      have h1a : a1.take b.length = b := by
        simpa [strncmpEq] using h1
      have h2a : rd a1 b.length = 34 := by
        simpa [rd] using h2
      have hlt : b.length < a1.length := by
        apply rd_ne_zero_lt
        rw [h2a]; decide
      have e : a1 = a1.take b.length ++ (rd a1 b.length :: a1.drop (b.length + 1)) := by
        have h3 := take_succ_rd a1 b.length (by rw [h2a]; decide)
        calc a1 = a1.take (b.length + 1) ++ a1.drop (b.length + 1) :=
              (List.take_append_drop _ _).symm
          _ = a1.take b.length ++ (rd a1 b.length :: a1.drop (b.length + 1)) := by
              rw [h3]; simp
      rw [h1a, h2a] at e
      refine ⟨a1.drop (b.length + 1), ?_⟩
      rw [e]
      simp
  · rintro ⟨t, rfl⟩
    refine ⟨by simp [rd], ?_, ?_⟩
    · simp [strncmpEq]
    · have : rd ([34] ++ b ++ [34] ++ t) (b.length + 1) = rd (34 :: t) 0 := by
        have := rd_append ([34] ++ b) (34 :: t) 0
        simpa [Nat.add_comm] using this
      rw [this]; rfl

/-- What `CompareEtags` accepts: the result is 0 exactly when the value on
the left is the tag itself or begins with the tag in double quotes. -/
theorem CompareEtags_eq_zero (a b : List Nat) :
    CompareEtags (some a) b = 0 ↔ (a = b ∨ [34] ++ b ++ [34] <+: a) := by
  unfold CompareEtags
  simp only []
  by_cases hq : rd a 0 = 34 ∧ strncmpEq (a.drop 1) b b.length = true ∧ rd a (b.length + 1) = 34
  · rw [if_pos hq]
    exact ⟨fun _ => Or.inr ((quoted_iff a b).1 hq), fun _ => rfl⟩
  · rw [if_neg hq, strcmp_eq_zero]
    have hn : ¬ [34] ++ b ++ [34] <+: a := fun h => hq ((quoted_iff a b).2 h)
    exact ⟨Or.inl, fun h => h.elim id (fun h2 => absurd h2 hn)⟩

/-- C13: `CompareEtags` returns 0 for the `If-None-Match` value `"m0s5"x`
(the tag `m0s5` in double quotes followed by one more byte), which is
neither the tag nor the tag in one pair of double quotes, and the static
responder then answers 304 for the file with that tag.  It returns a
non-zero value when the left value is absent. -/
theorem compare_etags_accepts_trailing_bytes :
    CompareEtags (some (bytes "\"m0s5\"x")) (bytes "m0s5") = 0
    ∧ bytes "\"m0s5\"x" ≠ bytes "m0s5"
    ∧ bytes "\"m0s5\"x" ≠ [34] ++ bytes "m0s5" ++ [34]
    ∧ (SendFile fallbackSys { exampleCtx with zIfNoneMatch := some (bytes "\"m0s5\"x") }
        (bytes "down.html") (exampleReg 5)).ctx.zReplyStatus = bytes "304"
    ∧ CompareEtags none (bytes "m0s5") ≠ 0 := by
  set_option maxRecDepth 100000 in
  refine ⟨by decide, by decide, by decide, by decide, by decide⟩


/-! ## Theorems: byte ranges of a static file -/

theorem scanRange_rangeValue (S E : Nat) (hS : S < 2147483648) (hE : E < 2147483648) :
    scanRange (rangeValue S E) = (2, (S : Int), (E : Int)) := by
  have e1 : rangeValue S E = bytes "bytes=" ++ (fmtNat S ++ ([45] ++ (fmtNat E ++ []))) := by
    simp [rangeValue]
  have h1 : scanD (fmtNat S ++ ([45] ++ (fmtNat E ++ [])))
      = some ((S : Int), [45] ++ (fmtNat E ++ [])) :=
    scanD_fmtNat S _ (by simp [List.takeWhile, isDigit]) hS
  have h2 : scanD (fmtNat E ++ []) = some ((E : Int), []) := scanD_fmtNat E [] rfl hE
  unfold scanRange
  rw [e1, scanLit_append]
  simp only [h1, scanLit_append, h2]

theorem headerRange_rangeValue (c : Ctx) (S E : Nat) (hget : c.zMethod = bytes "GET")
    (hSE : S ≤ E) (hE : E < 2147483648) :
    headerRange c (rangeValue S E) = { c with rangeStart := (S : Int), rangeEnd := (E : Int) } := by
  unfold headerRange
  rw [if_pos hget, scanRange_rangeValue S E (by omega) hE]
  have h : True ∧ (S : Int) ≥ 0 ∧ (E : Int) ≥ (S : Int) :=
    ⟨trivial, by omega, by omega⟩
  simp only []
  rw [if_pos h]

theorem StartResponse_frame (c : Ctx) (code : List Nat) :
    (StartResponse c code).rangeStart = c.rangeStart
    ∧ (StartResponse c code).rangeEnd = c.rangeEnd
    ∧ (StartResponse c code).zMethod = c.zMethod
    ∧ (StartResponse c code).mxAge = c.mxAge := by
  simp only [StartResponse, Ctx.printf]
  split_ifs <;> exact ⟨rfl, rfl, rfl, rfl⟩

/-- The reply of lines 1329-1336 of `SendFile` to a byte range that begins
inside a file shorter than 2^31 bytes. -/
theorem rangeReply_partial (c : Ctx) (S E n : Nat) (hs : c.statusSent = false)
    (hrs : c.rangeStart = S) (hre : c.rangeEnd = E) (hE : 1 ≤ E) (hSE : S ≤ E)
    (hSn : S < n) (hn : n < 2147483648) :
    (rangeReply c n).1.out
      = (StartResponse c (bytes "206 Partial Content")).out
        ++ (bytes "Content-Range: bytes " ++ fmtNat S ++ [45] ++ fmtNat (min E (n - 1)) ++ [47]
            ++ fmtNat n ++ [13, 10])
    ∧ (rangeReply c n).2 = ((min E (n - 1) + 1 - S : Nat) : Int)
    ∧ (rangeReply c n).1.zReplyStatus = bytes "206"
    ∧ (rangeReply c n).1.zMethod = c.zMethod
    ∧ (rangeReply c n).1.rangeStart = S
    ∧ (rangeReply c n).1.mxAge = c.mxAge := by
  obtain ⟨f1, f2, f3, f4⟩ := StartResponse_frame c (bytes "206 Partial Content")
  have hcond : c.rangeEnd > 0 ∧ c.rangeStart < (n : Int) := by
    rw [hrs, hre]; constructor <;> omega
  have hst : (StartResponse c (bytes "206 Partial Content")).zReplyStatus = bytes "206" := by
    rw [StartResponse_zReplyStatus c _ hs]; decide
  unfold rangeReply
  rw [if_pos hcond]
  simp only []
  by_cases hge : (StartResponse c (bytes "206 Partial Content")).rangeEnd ≥ (n : Int)
  · rw [if_pos hge]
    rw [f2, hre] at hge
    have hmin : min E (n - 1) = n - 1 := by omega
    have e1 : ((n : Int) - 1) = ((n - 1 : Nat) : Int) := by omega
    refine ⟨?_, ?_, hst, f3, ?_, f4⟩
    · simp only [printf_out, f1, hrs, hmin, e1, castInt_small n hn, fmtD_natCast]
    · simp only [f1, hrs, hmin]
      omega
    · simp only [Ctx.printf, f1, hrs]
  · rw [if_neg hge]
    rw [f2, hre] at hge
    have hmin : min E (n - 1) = E := by omega
    refine ⟨?_, ?_, hst, f3, ?_, f4⟩
    · simp only [printf_out, f1, f2, hrs, hre, hmin, castInt_small n hn, fmtD_natCast]
    · simp only [f1, f2, hrs, hre, hmin]
      omega
    · simp only [Ctx.printf, f1, hrs]


theorem StartResponse_out_range (c : Ctx) (code : List Nat) (x y : Int) :
    (StartResponse { c with rangeStart := x, rangeEnd := y } code).out
      = (StartResponse c code).out := by
  simp only [StartResponse, Ctx.printf]
  split_ifs <;> rfl

theorem notModified_none (sys : Sys) (c : Ctx) (st : Stat) (zETag : List Nat)
    (hnm : c.zIfNoneMatch = none) (hims : c.zIfModifiedSince = none) :
    notModified sys c st zETag = false := by
  simp [notModified, hnm, hims, CompareEtags]

/-- The reply of `SendFile` to a GET request with a byte range that begins
inside a file shorter than 2^31 bytes, when no cache validator is sent. -/
theorem SendFile_partial (sys : Sys) (c : Ctx) (zFile content : List Nat) (st : Stat)
    (S E n : Nat) (hget : c.zMethod = bytes "GET") (hs : c.statusSent = false)
    (hnm : c.zIfNoneMatch = none) (hims : c.zIfModifiedSince = none)
    (hopen : sys.fopen zFile = some content) (hsize : st.st_size = (n : Int))
    (hrs : c.rangeStart = S) (hre : c.rangeEnd = E) (hE : 1 ≤ E) (hSE : S ≤ E) (hSn : S < n)
    (hn : n < 2147483648) :
    (SendFile sys c zFile st).exited = false
    ∧ (SendFile sys c zFile st).ctx.zReplyStatus = bytes "206"
    ∧ (SendFile sys c zFile st).ctx.out
      = (StartResponse c (bytes "206 Partial Content")).out
        ++ (bytes "Content-Range: bytes " ++ fmtNat S ++ [45] ++ fmtNat (min E (n - 1)) ++ [47]
            ++ fmtNat n ++ [13, 10])
        ++ (bytes "Last-Modified: " ++ sys.Rfc822Date st.st_mtime ++ [13, 10])
        ++ (bytes "Cache-Control: max-age=" ++ fmtD c.mxAge ++ [13, 10])
        ++ (bytes "ETag: \"" ++ ([109] ++ fmtX st.st_mtime ++ [115] ++ fmtX st.st_size)
            ++ bytes "\"\r\n")
        ++ (bytes "Content-type: " ++ sys.GetMimeType zFile ++ bytes "; charset=utf-8\r\n")
        ++ (bytes "Content-length: " ++ fmtNat (min E (n - 1) + 1 - S) ++ bytes "\r\n\r\n")
        ++ (content.drop S).take (min E (n - 1) + 1 - S) := by
  obtain ⟨r1, r2, r3, r4, r5, r6⟩ := rangeReply_partial c S E n hs hrs hre hE hSE hSn hn
  have hcl : castInt ((min E (n - 1) + 1 - S : Nat) : Int)
      = ((min E (n - 1) + 1 - S : Nat) : Int) := castInt_small _ (by omega)
  have hhead : ¬ (fileHeaders sys (rangeReply c st.st_size).1 st
      ([109] ++ fmtX st.st_mtime ++ [115] ++ fmtX st.st_size) (sys.GetMimeType zFile)
      (rangeReply c st.st_size).2).zMethod = bytes "HEAD" := by
    simp only [fileHeaders, Ctx.printf, hsize, r4, hget]
    decide
  unfold SendFile
  simp only []
  rw [notModified_none sys c st _ hnm hims]
  simp only [Bool.false_eq_true, if_false, hopen]
  rw [if_neg hhead]
  rw [hsize] at *
  simp only [Res.exited, Res.ctx, sendBody, fileHeaders, Ctx.printf, r1, r2, r3, r5, r6, hcl,
    fmtD_natCast, Int.toNat_ofNat, true_and]

/-- C14 (amended): for a GET request with the header `Range: bytes=S-E`
where `S ≤ E`, `1 ≤ E`, `E` is below 2^31 (a value that the `int` variables
of line 1804 hold) and `S` is smaller than the size `n` of the file, `n`
below 2^31, and
without a cache validator, the header sets the range to `S` and `E` and the
static responder replies `206 Partial Content` with the line
`Content-Range: bytes S-E'/n` for `E' = min(E, n-1)`, the length
`E'-S+1` and the `E'-S+1` bytes of the file that begin at offset `S`. -/
theorem range_request_partial_content (sys : Sys) (c : Ctx) (zFile content : List Nat)
    (st : Stat) (S E : Nat) (hget : c.zMethod = bytes "GET") (hs : c.statusSent = false)
    (hnm : c.zIfNoneMatch = none) (hims : c.zIfModifiedSince = none)
    (hopen : sys.fopen zFile = some content) (hsize : st.st_size = (content.length : Int))
    (hSE : S ≤ E) (hSn : S < content.length) (hE : 1 ≤ E)
    (hbig : content.length < 2147483648) (hint : E < 2147483648) :
    (headerRange c (rangeValue S E)).rangeStart = S
    ∧ (headerRange c (rangeValue S E)).rangeEnd = E
    ∧ (SendFile sys (headerRange c (rangeValue S E)) zFile st).exited = false
    ∧ (SendFile sys (headerRange c (rangeValue S E)) zFile st).ctx.zReplyStatus = bytes "206"
    ∧ (SendFile sys (headerRange c (rangeValue S E)) zFile st).ctx.out
      = (StartResponse c (bytes "206 Partial Content")).out
        ++ (bytes "Content-Range: bytes " ++ fmtNat S ++ [45]
            ++ fmtNat (min E (content.length - 1)) ++ [47] ++ fmtNat content.length ++ [13, 10])
        ++ (bytes "Last-Modified: " ++ sys.Rfc822Date st.st_mtime ++ [13, 10])
        ++ (bytes "Cache-Control: max-age=" ++ fmtD c.mxAge ++ [13, 10])
        ++ (bytes "ETag: \"" ++ ([109] ++ fmtX st.st_mtime ++ [115] ++ fmtX st.st_size)
            ++ bytes "\"\r\n")
        ++ (bytes "Content-type: " ++ sys.GetMimeType zFile ++ bytes "; charset=utf-8\r\n")
        ++ (bytes "Content-length: " ++ fmtNat (min E (content.length - 1) + 1 - S)
            ++ bytes "\r\n\r\n")
        ++ (content.drop S).take (min E (content.length - 1) + 1 - S)
    ∧ ((content.drop S).take (min E (content.length - 1) + 1 - S)).length
      = min E (content.length - 1) - S + 1 := by
  have e := headerRange_rangeValue c S E hget hSE hint
  have h := SendFile_partial sys { c with rangeStart := (S : Int), rangeEnd := (E : Int) }
    zFile content st S E content.length hget hs hnm hims hopen hsize rfl rfl hE hSE hSn hbig
  rw [StartResponse_out_range] at h
  rw [e]
  refine ⟨rfl, rfl, h.1, h.2.1, h.2.2, ?_⟩
  rw [List.length_take, List.length_drop]
  omega

/-- Witness for the amended C14: the bytes 2 to 5 of a file of ten bytes. -/
theorem range_request_partial_content_witness :
    exampleCtx.zMethod = bytes "GET" ∧ exampleCtx.statusSent = false
    ∧ exampleCtx.zIfNoneMatch = none ∧ exampleCtx.zIfModifiedSince = none
    ∧ tenByteSys.fopen (bytes "/www/default.website/ten.txt") = some (bytes "0123456789")
    ∧ (exampleReg 10).st_size = ((bytes "0123456789").length : Int)
    ∧ (bytes "0123456789").length < 2147483648 ∧ 5 < 2147483648
    ∧ (SendFile tenByteSys (headerRange exampleCtx (rangeValue 2 5))
        (bytes "/www/default.website/ten.txt") (exampleReg 10)).ctx.zReplyStatus = bytes "206" :=
  ⟨rfl, rfl, rfl, rfl, by decide, by decide, by decide, by decide,
    (range_request_partial_content tenByteSys exampleCtx (bytes "/www/default.website/ten.txt")
      (bytes "0123456789") (exampleReg 10) 2 5 rfl rfl rfl rfl (by decide) (by decide)
      (by decide) (by decide) (by decide) (by decide) (by decide)).2.2.2.1⟩

/-- C14 (counterexample): the header `Range: bytes=0-0` on a file of ten
bytes leaves `rangeEnd` at 0, and the static responder replies `200 OK`
with all ten bytes and no `Content-Range` line. -/
theorem range_zero_zero_replies_whole_file :
    rangeValue 0 0 = bytes "bytes=0-0"
    ∧ (headerRange exampleCtx (bytes "bytes=0-0")).rangeEnd = 0
    ∧ (SendFile tenByteSys (headerRange exampleCtx (bytes "bytes=0-0"))
        (bytes "/www/default.website/ten.txt") (exampleReg 10)).ctx.zReplyStatus = bytes "200"
    ∧ (SendFile tenByteSys (headerRange exampleCtx (bytes "bytes=0-0"))
        (bytes "/www/default.website/ten.txt") (exampleReg 10)).ctx.out
      = bytes "HTTP/1.1 200 OK\r\nConnection: keep-alive\r\nDate: Thu, 01 Jan 1970 00:00:00 GMT\r\nLast-Modified: Thu, 01 Jan 1970 00:00:00 GMT\r\nCache-Control: max-age=120\r\nETag: \"m0sa\"\r\nContent-type: application/octet-stream; charset=utf-8\r\nContent-length: 10\r\n\r\n0123456789" := by
  set_option maxRecDepth 100000 in
  refine ⟨by decide, by decide, by decide, by decide⟩


/-! ## Theorems: the redirect of a directory request -/

theorem length_le_of_rd_zero (s : List Nat) (i : Nat) (h0 : 0 ∉ s) (h : rd s i = 0) :
    s.length ≤ i := by
  by_contra hlt
  have hi : i < s.length := by omega
  apply h0
  have e : rd s i = s.get ⟨i, hi⟩ := by
    simp [rd, List.getD_eq_getElem?_getD, List.getElem?_eq_getElem hi]
  rw [← h, e]
  exact List.get_mem s i hi

theorem notFoundSearch_not_301 (sys : Sys) (j0 i : Nat) (fuel : Nat) :
    ∀ (zLine : List Nat) (j hw : Nat) (p : List Nat),
    (notFoundSearch sys j0 i fuel zLine j hw).1 ≠ .redirect p 301 410 := by
  induction fuel with
  | zero => intro zLine j hw p; simp [notFoundSearch]
  | succ fuel ih =>
    intro zLine j hw p
    rw [notFoundSearch]
    by_cases h1 : i > 0 ∧ j > j0
    · rw [if_pos h1]
      simp only []
      by_cases h2 : backToSlash zLine j0 j = 0
      · rw [if_pos h2]; simp
      · rw [if_neg h2]
        by_cases h3 : readableFile sys
            (List.take (backToSlash zLine j0 j - 1) zLine ++ bytes "/not-found.html") = true
        · rw [if_pos h3]; simp
        · rw [if_neg h3]; exact ih _ _ _ _
    · rw [if_neg h1]; simp

theorem indexSearch_readable (sys : Sys) (zLine : List Nat) (k : Nat) (l : List (List Nat)) :
    ∀ (hw hw2 : Nat) (z : List Nat) (st : Stat),
    indexSearch sys zLine k l hw = (some (z, st), hw2) → readableFile sys z = true := by
  induction l with
  | nil => intro hw hw2 z st h; simp [indexSearch] at h
  | cons ix more ih =>
    intro hw hw2 z st h
    rw [indexSearch] at h
    cases hst : sys.stat (zLine.take k ++ ix) with
    | none =>
      simp only [hst] at h
      exact ih _ _ _ _ h
    | some st1 =>
      simp only [hst] at h
      split_ifs at h with hc
      · simp at h
        rw [← h.1.1]
        simp [readableFile, hst, hc.1, hc.2]
      · exact ih _ _ _ _ h

/-- The redirect of line 2080: the path handed to `Redirect` is the whole
request path (without its last byte when that is a slash) followed by the
name of a readable index file. -/
theorem resolveLoop_redirect (sys : Sys) (s zHome : List Nat) (fuel : Nat) :
    ∀ (i : Nat) (zLine : List Nat) (statbuf : Stat) (hw : Nat) (p : List Nat),
    rd s 0 ≠ 0 → 0 ∉ s → zLine = zHome ++ s.take i →
    (resolveLoop sys s zHome.length fuel i zLine statbuf hw).1 = .redirect p 301 410 →
    ∃ ix ∈ azIndex,
      p = (if s.getLast? = some 47 then s.dropLast else s) ++ ix
      ∧ readableFile sys (zHome ++ p) = true := by
  induction fuel with
  | zero => intro i zLine statbuf hw p _ _ _ h; simp [resolveLoop] at h
  | succ fuel ih =>
    intro i zLine statbuf hw p hs0 hnz hz h
    subst hz
    rw [resolveLoop] at h
    by_cases h0 : rd s i = 0
    · rw [if_pos h0] at h; simp at h
    · rw [if_neg h0] at h
      obtain ⟨i1, hcp, hle, hfirst⟩ := copyLoop_spec s zHome (s.length + 1) i
      have hs : s ≠ [] := by
        intro e; subst e; exact h0 (by simp [rd])
      rw [hcp] at h
      simp only [] at h
      cases hst : sys.stat (zHome ++ s.take i1) with
      | none =>
        rw [hst] at h
        exact absurd h (notFoundSearch_not_301 _ _ _ _ _ _ _ _)
      | some st1 =>
        rw [hst] at h
        simp only [] at h
        by_cases hreg : st1.isReg = true
        · rw [if_pos hreg] at h
          by_cases hacc : ¬ sys.accessR (zHome ++ s.take i1) = true
          · rw [if_pos hacc] at h; simp at h
          · rw [if_neg hacc] at h; simp at h
        · rw [if_neg hreg] at h
          by_cases hend : rd s i1 = 0 ∨ rd s (i1 + 1) = 0
          · rw [if_pos hend] at h
            cases hix : indexSearch sys (zHome ++ s.take i1)
                (if (zHome ++ s.take i1).length > 0
                    ∧ rd (zHome ++ s.take i1) ((zHome ++ s.take i1).length - 1) = 47
                  then (zHome ++ s.take i1).length - 1 else (zHome ++ s.take i1).length)
                azIndex (max hw (zHome ++ s.take i1).length) with
            | mk o hw2 =>
              rw [hix] at h
              cases o with
              | none => simp at h
              | some zs =>
                obtain ⟨z, st2⟩ := zs
                simp only [] at h
                obtain ⟨ix, hixm, hze⟩ := indexSearch_spec _ _ _ _ _ _ _ _ hix
                have hread := indexSearch_readable _ _ _ _ _ _ _ _ hix
                by_cases he : rd s i1 = 0
                · rw [if_pos he] at h
                  simp at h
                  have hlen : s.length ≤ i1 := length_le_of_rd_zero s i1 hnz he
                  have htake : s.take i1 = s := List.take_of_length_le hlen
                  rw [htake] at hze
                  have hlast : rd (zHome ++ s) ((zHome ++ s).length - 1) = 47
                      ↔ s.getLast? = some 47 := by
                    obtain ⟨t, x, ht⟩ : ∃ t x, s = t ++ [x] :=
                      ⟨s.dropLast, s.getLast hs, (List.dropLast_append_getLast hs).symm⟩
                    subst ht
                    have e1 : (zHome ++ (t ++ [x])).length - 1 = (zHome ++ t).length + 0 := by
                      simp
                    rw [e1, ← List.append_assoc, rd_append]
                    simp [rd]
                  have hpos : (zHome ++ s).length > 0 := by
                    have := List.length_pos.2 hs
                    simp; omega
                  have hk : (zHome ++ s).take
                      (if (zHome ++ s).length > 0 ∧ rd (zHome ++ s) ((zHome ++ s).length - 1) = 47
                        then (zHome ++ s).length - 1 else (zHome ++ s).length)
                      = zHome ++ (if s.getLast? = some 47 then s.dropLast else s) := by
                    by_cases hl : s.getLast? = some 47
                    · rw [if_pos ⟨hpos, hlast.2 hl⟩, if_pos hl]
                      exact take_pred_append zHome s hs
                    · rw [if_neg (fun hc => hl (hlast.1 hc.2)), if_neg hl]
                      exact List.take_length _
                  rw [hk] at hze
                  have hp : p = (if s.getLast? = some 47 then s.dropLast else s) ++ ix := by
                    rw [← h, hze, List.append_assoc, List.drop_left]
                  refine ⟨ix, hixm, hp, ?_⟩
                  rw [hp, ← List.append_assoc, ← hze]
                  exact hread
                · rw [if_neg he] at h; simp at h
          · rw [if_neg hend] at h
            have hne : rd s i1 ≠ 0 := fun e => hend (Or.inl e)
            refine ih (i1 + 1) _ st1 _ p hs0 hnz ?_ h
            rw [List.append_assoc, ← take_succ_rd s i1 hne]


theorem StartResponse_frame_redirect (c : Ctx) (code : List Nat) :
    (StartResponse c code).zHttp = c.zHttp
    ∧ (StartResponse c code).zServerName = c.zServerName
    ∧ (StartResponse c code).zServerPort = c.zServerPort
    ∧ (StartResponse c code).zQuerySuffix = c.zQuerySuffix := by
  simp only [StartResponse, Ctx.printf]
  split_ifs <;> exact ⟨rfl, rfl, rfl, rfl⟩

/-- The reply written by `Redirect(zPath, 301, 1, lineno)`. -/
theorem Redirect_301 (c : Ctx) (zPath : List Nat) (lineno : Nat) (hs : c.statusSent = false) :
    (Redirect c zPath 301 true lineno).ctx.zReplyStatus = bytes "301"
    ∧ (Redirect c zPath 301 true lineno).ctx.out
      = (StartResponse c (bytes "301 Permanent Redirect")).out
        ++ (bytes "Location: " ++ c.zHttp ++ bytes "://" ++ c.zServerName.getD []
            ++ (if c.zServerPort = none ∨ c.zServerPort = some [] ∨ c.zServerPort = some (bytes "80")
                then [] else [58] ++ c.zServerPort.getD [])
            ++ zPath ++ c.zQuerySuffix ++ [13, 10])
        ++ bytes "Content-length: 0\r\n" ++ [13, 10] := by
  obtain ⟨f1, f2, f3, f4⟩ := StartResponse_frame_redirect c (bytes "301 Permanent Redirect")
  have hst : (StartResponse c (bytes "301 Permanent Redirect")).zReplyStatus = bytes "301" := by
    rw [StartResponse_zReplyStatus c _ hs]; decide
  unfold Redirect
  simp only [if_true, redirectStatus, redirectLocation, f1, f2, f3, f4]
  rw [MakeLogEntry_zReplyStatus, MakeLogEntry_out]
  by_cases hp : c.zServerPort = none ∨ c.zServerPort = some [] ∨ c.zServerPort = some (bytes "80")
  · rw [if_pos hp, if_pos hp]
    simp only [printf_zReplyStatus, printf_out, hst, List.append_nil, true_and]
  · rw [if_neg hp, if_neg hp]
    simp only [printf_zReplyStatus, printf_out, hst, true_and]
    simp only [List.append_assoc]

theorem copyLoop_stop (s : List Nat) (fuel : Nat) : ∀ (i : Nat) (zLine : List Nat),
    s.length < fuel + i →
    ¬ (rd s (copyLoop s fuel i zLine).1 ≠ 0
        ∧ ((copyLoop s fuel i zLine).1 = 0 ∨ rd s (copyLoop s fuel i zLine).1 ≠ 47)) := by
  induction fuel with
  | zero =>
    intro i zLine h
    rw [copyLoop]
    intro hc
    apply hc.1
    unfold rd
    exact List.getD_eq_default _ _ (by omega)
  | succ fuel ih =>
    intro i zLine h
    rw [copyLoop]
    by_cases hc : rd s i ≠ 0 ∧ (i = 0 ∨ rd s i ≠ 47)
    · rw [if_pos hc]; exact ih (i + 1) _ (by omega)
    · rw [if_neg hc]; exact hc

theorem copyLoop_le (s : List Nat) (fuel : Nat) : ∀ (i : Nat) (zLine : List Nat),
    i ≤ s.length → (copyLoop s fuel i zLine).1 ≤ s.length := by
  induction fuel with
  | zero => intro i zLine h; rw [copyLoop]; exact h
  | succ fuel ih =>
    intro i zLine h
    rw [copyLoop]
    by_cases hc : rd s i ≠ 0 ∧ (i = 0 ∨ rd s i ≠ 47)
    · rw [if_pos hc]
      have := rd_ne_zero_lt s i hc.1
      exact ih (i + 1) _ (by omega)
    · rw [if_neg hc]; exact h

theorem rd_ne_zero_of_lt (s : List Nat) (i : Nat) (h0 : 0 ∉ s) (hi : i < s.length) :
    rd s i ≠ 0 := by
  intro e
  have := length_le_of_rd_zero s i h0 e
  omega

theorem azIndex_length : ∀ x ∈ azIndex, x.length ≤ 11 := by decide

/-- The search of lines 2064-2070 stops at the first index name that is a
readable regular file. -/
theorem indexSearch_first (sys : Sys) (zLine : List Nat) (k : Nat) (ix : List Nat)
    (post : List (List Nat)) (B : Nat) (hfound : readableFile sys (zLine.take k ++ ix) = true)
    (hB : ix.length ≤ B) :
    ∀ (pre : List (List Nat)) (hw : Nat),
    (∀ x ∈ pre, readableFile sys (zLine.take k ++ x) = false) → (∀ x ∈ pre, x.length ≤ B) →
    ∃ st2 hw2, indexSearch sys zLine k (pre ++ ix :: post) hw
        = (some (zLine.take k ++ ix, st2), hw2)
      ∧ hw2 ≤ max hw ((zLine.take k).length + B) := by
  intro pre
  induction pre with
  | nil =>
    intro hw _ _
    rw [List.nil_append, indexSearch]
    unfold readableFile at hfound
    cases hst : sys.stat (zLine.take k ++ ix) with
    | none => rw [hst] at hfound; simp at hfound
    | some st =>
      rw [hst] at hfound
      simp only [Bool.and_eq_true] at hfound
      simp only []
      rw [if_pos hfound]
      refine ⟨st, _, rfl, ?_⟩
      simp only [List.length_append]
      omega
  | cons x pre ih =>
    intro hw hpre hlen
    have hx := hpre x (List.mem_cons_self _ _)
    have hxl := hlen x (List.mem_cons_self _ _)
    obtain ⟨st2, hw2, e, hb⟩ := ih (max hw (zLine.take k ++ x).length)
      (fun y hy => hpre y (List.mem_cons_of_mem _ hy))
      (fun y hy => hlen y (List.mem_cons_of_mem _ hy))
    have hb2 : hw2 ≤ max hw ((zLine.take k).length + B) := by
      simp only [List.length_append] at hb
      omega
    rw [List.cons_append, indexSearch]
    unfold readableFile at hx
    cases hst : sys.stat (zLine.take k ++ x) with
    | none =>
      simp only []
      exact ⟨st2, hw2, e, hb2⟩
    | some st =>
      rw [hst] at hx
      simp only []
      rw [if_neg (by
        intro hc
        simp only [hc.1, hc.2, Bool.and_self] at hx
        exact absurd hx (by decide))]
      exact ⟨st2, hw2, e, hb2⟩

theorem rd_last (s : List Nat) (hs : s ≠ []) (h : s.getLast? ≠ some 47) :
    rd s (s.length - 1) ≠ 47 := by
  obtain ⟨t, x, ht⟩ : ∃ t x, s = t ++ [x] :=
    ⟨s.dropLast, s.getLast hs, (List.dropLast_append_getLast hs).symm⟩
  subst ht
  have e1 : (t ++ [x]).length - 1 = t.length + 0 := by simp
  rw [e1, rd_append]
  intro e
  apply h
  simp only [rd, List.getD_cons_zero] at e
  simp [e]

/-- The loop of lines 2030-2087 on a request path all of whose elements
are directories, when the path does not end in a slash and an index file
is found: it ends in the redirect of line 2080 to the path with the name of
the first readable index file, and no string longer than the content root,
the path and eleven bytes is stored in `zLine`. -/
theorem resolveLoop_dirs (sys : Sys) (s zHome : List Nat) (pre post : List (List Nat))
    (ix : List Nat) (hnz : 0 ∉ s) (hslash : s.getLast? ≠ some 47)
    (hdirs : ∀ k, 1 ≤ k → k ≤ s.length → (k = s.length ∨ rd s k = 47) →
      ∃ st, sys.stat (zHome ++ s.take k) = some st ∧ st.isReg = false)
    (hix : azIndex = pre ++ ix :: post)
    (hpre : ∀ x ∈ pre, readableFile sys (zHome ++ s ++ x) = false)
    (hfound : readableFile sys (zHome ++ s ++ ix) = true) (fuel : Nat) :
    ∀ (i : Nat) (statbuf : Stat) (hw : Nat),
    i < s.length → s.length < fuel + i → hw ≤ zHome.length + s.length →
    (resolveLoop sys s zHome.length fuel i (zHome ++ s.take i) statbuf hw).1
        = .redirect (s ++ ix) 301 410
    ∧ (resolveLoop sys s zHome.length fuel i (zHome ++ s.take i) statbuf hw).2
        ≤ zHome.length + s.length + 11 := by
  induction fuel with
  | zero => intro i statbuf hw h1 h2; omega
  | succ fuel ih =>
    intro i statbuf hw hi hfuel hhw
    have hs : s ≠ [] := by
      intro e; subst e; simp at hi
    have h0 : rd s i ≠ 0 := rd_ne_zero_of_lt s i hnz hi
    rw [resolveLoop, if_neg h0]
    obtain ⟨i1, hcp, hle, hfirst⟩ := copyLoop_spec s zHome (s.length + 1) i
    have hstop := copyLoop_stop s (s.length + 1) i (zHome ++ s.take i) (by omega)
    have hile := copyLoop_le s (s.length + 1) i (zHome ++ s.take i) (by omega)
    rw [hcp] at hstop hile
    simp only [] at hstop hile
    have hi1 : 1 ≤ i1 := by
      by_cases hi0 : i = 0
      · subst hi0; exact hfirst (by omega) rfl h0
      · omega
    rw [hcp]
    simp only []
    have hlen1 : (zHome ++ s.take i1).length ≤ zHome.length + s.length := by
      simp only [List.length_append, List.length_take]
      omega
    by_cases hz : rd s i1 = 0
    · have hge : s.length ≤ i1 := length_le_of_rd_zero s i1 hnz hz
      have hi1e : i1 = s.length := by omega
      subst hi1e
      obtain ⟨st, hst, hreg⟩ := hdirs s.length hi1 (le_refl _) (Or.inl rfl)
      rw [List.take_length] at hst hlen1 ⊢
      rw [hst]
      simp only []
      rw [if_neg (by simp [hreg]), if_pos (Or.inl hz)]
      have hpos : (zHome ++ s).length - 1 = zHome.length + (s.length - 1) := by
        have := List.length_pos.2 hs
        simp only [List.length_append]
        omega
      have hk : (if (zHome ++ s).length > 0
            ∧ rd (zHome ++ s) ((zHome ++ s).length - 1) = 47
          then (zHome ++ s).length - 1 else (zHome ++ s).length) = (zHome ++ s).length := by
        rw [if_neg]
        intro hc
        rw [hpos, rd_append] at hc
        exact rd_last s hs hslash hc.2
      rw [hk, hix]
      have htk : (zHome ++ s).take (zHome ++ s).length = zHome ++ s := List.take_length _
      obtain ⟨st2, hw2, e, hb⟩ := indexSearch_first sys (zHome ++ s) (zHome ++ s).length ix post
        11 (by rw [htk]; exact hfound)
        (azIndex_length ix (by rw [hix]; simp)) pre (max hw (zHome ++ s).length)
        (fun x hx => by rw [htk]; exact hpre x hx)
        (fun x hx => azIndex_length x (by rw [hix]; simp [hx]))
      rw [e]
      simp only []
      rw [if_pos hz, htk]
      refine ⟨?_, ?_⟩
      · simp only []
        rw [List.append_assoc, List.drop_left]
      · simp only []
        rw [htk] at hb
        omega
    · have h47 : rd s i1 = 47 := by
        by_contra hne
        exact hstop ⟨hz, Or.inr hne⟩
      have hlt : i1 < s.length := rd_ne_zero_lt s i1 hz
      obtain ⟨st, hst, hreg⟩ := hdirs i1 hi1 (by omega) (Or.inr h47)
      rw [hst]
      simp only []
      have hnext : i1 + 1 < s.length := by
        by_contra hge
        have e : i1 = s.length - 1 := by omega
        rw [e] at h47
        exact rd_last s hs hslash h47
      have hnz1 : rd s (i1 + 1) ≠ 0 := rd_ne_zero_of_lt s (i1 + 1) hnz hnext
      rw [if_neg (by simp [hreg]), if_neg (by
        intro hc
        rcases hc with hc | hc
        · exact hz hc
        · exact hnz1 hc)]
      have et : zHome ++ s.take i1 ++ [rd s i1] = zHome ++ s.take (i1 + 1) := by
        rw [List.append_assoc, ← take_succ_rd s i1 hz]
      rw [et]
      exact ih (i1 + 1) st _ hnext (by omega) (by omega)

/-- C15 (amended): for a request path that begins with a slash, has no NUL
and does not end in a slash, all of whose elements are directories (`stat`
succeeds on the content root followed by the path up to each slash and by
the whole path, and the result is not a regular file), whose name with an
index name appended fits the buffer, and for the first index name `ix` of
`/home`, `/index.html`, `/index.cgi` that is a readable regular file in the
directory: path resolution ends in the redirect of line 2080, and the reply
is a 301 whose `Location` path is the request path followed by `ix` and
then the query suffix. -/
theorem directory_redirect_appends_index (sys : Sys) (c : Ctx) (zHome zScript : List Nat)
    (statbuf : Stat) (pre post : List (List Nat)) (ix : List Nat)
    (hfirst : rd zScript 0 = 47) (hnz : 0 ∉ zScript)
    (hslash : zScript.getLast? ≠ some 47)
    (hlen : zHome.length + zScript.length + 11 < 1000)
    (hdirs : ∀ k, 1 ≤ k → k ≤ zScript.length → (k = zScript.length ∨ rd zScript k = 47) →
      ∃ st, sys.stat (zHome ++ zScript.take k) = some st ∧ st.isReg = false)
    (hix : azIndex = pre ++ ix :: post)
    (hpre : ∀ x ∈ pre, readableFile sys (zHome ++ zScript ++ x) = false)
    (hfound : readableFile sys (zHome ++ zScript ++ ix) = true)
    (hs : c.statusSent = false) :
    resolveFile sys zHome zScript statbuf = .redirect (zScript ++ ix) 301 410
    ∧ (Redirect c (zScript ++ ix) 301 true 410).ctx.zReplyStatus = bytes "301"
    ∧ (Redirect c (zScript ++ ix) 301 true 410).ctx.out
      = (StartResponse c (bytes "301 Permanent Redirect")).out
        ++ (bytes "Location: " ++ c.zHttp ++ bytes "://" ++ c.zServerName.getD []
            ++ (if c.zServerPort = none ∨ c.zServerPort = some []
                  ∨ c.zServerPort = some (bytes "80")
                then [] else [58] ++ c.zServerPort.getD [])
            ++ (zScript ++ ix) ++ c.zQuerySuffix ++ [13, 10])
        ++ bytes "Content-length: 0\r\n" ++ [13, 10] := by
  have hne : zScript ≠ [] := by
    intro e; rw [e] at hfirst; simp [rd] at hfirst
  have hpos := List.length_pos.2 hne
  obtain ⟨h1, h2⟩ := resolveLoop_dirs sys zScript zHome pre post ix hnz hslash hdirs hix hpre
    hfound (zScript.length + 1) 0 statbuf zHome.length hpos (by omega) (by omega)
  rw [List.take_zero, List.append_nil] at h1 h2
  obtain ⟨r1, r2⟩ := Redirect_301 c (zScript ++ ix) 410 hs
  refine ⟨?_, r1, r2⟩
  unfold resolveFile
  simp only []
  rw [if_neg (by omega)]
  exact h1

/-- Witness for the amended C15: the request path `/deep` in a content root
whose directory `deep` holds `index.html` and no file `home`. -/
theorem directory_redirect_appends_index_witness :
    rd (bytes "/deep") 0 = 47 ∧ 0 ∉ bytes "/deep" ∧ (bytes "/deep").getLast? ≠ some 47
    ∧ azIndex = [bytes "/home"] ++ bytes "/index.html" :: [bytes "/index.cgi"]
    ∧ readableFile deepSys (bytes "/www/default.website" ++ bytes "/deep" ++ bytes "/home")
      = false
    ∧ readableFile deepSys
        (bytes "/www/default.website" ++ bytes "/deep" ++ bytes "/index.html") = true
    ∧ deepCtx.statusSent = false
    ∧ resolveFile deepSys (bytes "/www/default.website") (bytes "/deep") exampleDir
      = .redirect (bytes "/deep" ++ bytes "/index.html") 301 410 := by
  set_option maxRecDepth 100000 in
  exact ⟨by decide, by decide, by decide, by decide, by decide, by decide, rfl,
    (directory_redirect_appends_index deepSys deepCtx (bytes "/www/default.website")
      (bytes "/deep") exampleDir [bytes "/home"] [bytes "/index.cgi"] (bytes "/index.html")
      (by decide) (by decide) (by decide) (by decide)
      (fun k h1 h2 h3 => by
        have hk : k = 5 := by
          have h5 : (bytes "/deep").length = 5 := by decide
          rw [h5] at h2 h3
          rcases h3 with h3 | h3
          · exact h3
          · interval_cases k <;> revert h3 <;> decide
        subst hk
        exact ⟨exampleDir, by decide, rfl⟩)
      (by decide) (by decide) (by decide) rfl).1⟩

/-- C15 (counterexample): the request `/deep`, where `deep` is a directory
with the file `index.html`, is answered with a 301 whose `Location` is
`http://example.com/deep/index.html`, not the request path with one slash
appended. -/
theorem directory_redirect_names_index_file :
    resolveFile deepSys (bytes "/www/default.website") (bytes "/deep") exampleDir
      = .redirect (bytes "/deep/index.html") 301 410
    ∧ (Redirect deepCtx (bytes "/deep/index.html") 301 true 410).ctx.out
      = bytes "HTTP/1.1 301 Permanent Redirect\r\nConnection: keep-alive\r\nDate: Thu, 01 Jan 1970 00:00:00 GMT\r\nLocation: http://example.com/deep/index.html\r\nContent-length: 0\r\n\r\n"
    ∧ bytes "/deep/index.html" ≠ bytes "/deep" ++ [47] := by
  set_option maxRecDepth 100000 in
  refine ⟨by decide, by decide, by decide⟩


/-! ## Theorems: `GetMimeType` -/

/-- The bound on the number of passes of the binary search is adequate: one
more unit of fuel does not change its result. -/
theorem mimeSearch_fuel (zSuffix : List Nat) (fuel : Nat) :
    ∀ first last : Int, 0 < fuel → last - first + 1 < fuel →
      mimeSearch zSuffix (fuel + 1) first last = mimeSearch zSuffix fuel first last := by
  induction fuel with
  | zero => intro first last h0; omega
  | succ fuel ih =>
    intro first last _ h
    conv_lhs => rw [mimeSearch]
    conv_rhs => rw [mimeSearch]
    by_cases hle : first ≤ last
    · simp only [if_pos hle]
      cases aMime.get? ((first + last) / 2).toNat with
      | none => rfl
      | some e =>
        simp only []
        rw [ih first ((first + last) / 2 - 1) (by omega) (by push_cast at h ⊢; omega),
          ih ((first + last) / 2 + 1) last (by omega) (by push_cast at h ⊢; omega)]
    · simp only [if_neg hle]

/-- C16: the table lists the suffix `jpeg` with the mime type `image/jpeg`
only, yet `GetMimeType` answers `application/octet-stream` for the name
`photo.jpeg`: the entry `jpeg` stands in front of the entry `jpe`, so the
suffixes are not in the order of `strcmp` that the binary search relies
on.  The listed suffixes that the search does not find are `hh`, `hqx`,
`h`, `jpeg`, `movie`, `mpe`, `mpg`, `sgml` and `tiff`. -/
theorem mime_type_of_jpeg_is_default :
    (bytes "jpeg", 4, bytes "image/jpeg") ∈ aMime
    ∧ (aMime.filter fun e => e.1 == bytes "jpeg").map (fun e => e.2.2) = [bytes "image/jpeg"]
    ∧ GetMimeType (bytes "photo.jpeg") 10 = some (bytes "application/octet-stream")
    ∧ strcmp (bytes "jpeg") (bytes "jpe") = 1
    ∧ aMime.get? 61 = some (bytes "jpeg", 4, bytes "image/jpeg")
    ∧ aMime.get? 62 = some (bytes "jpe", 3, bytes "image/jpeg")
    ∧ ((aMime.filter fun e =>
          GetMimeType (bytes "x." ++ e.1) (e.1.length + 2)
            == some (bytes "application/octet-stream")
          && e.2.2 != bytes "application/octet-stream").map fun e => e.1)
        = [bytes "hh", bytes "hqx", bytes "h", bytes "jpeg", bytes "movie", bytes "mpe",
           bytes "mpg", bytes "sgml", bytes "tiff"]
    ∧ GetMimeType (bytes "photo.JPG") 9 = some (bytes "image/jpeg") := by
  set_option maxRecDepth 1000000 in
  refine ⟨by decide, by decide, by decide, by decide, by decide, by decide, by decide,
    by decide⟩


/-! ## Theorems: the size limit of a POST request -/

theorem bind_exit_any_exited {α β : Type} (r : Res α) (code : Nat) :
    (r.bind fun c _ => (.exit c code : Res β)).exited = true := by
  cases r <;> rfl

theorem bind_exit_any_ctx {α β : Type} (r : Res α) (code : Nat) :
    (r.bind fun c _ => (.exit c code : Res β)).ctx = r.ctx := by
  cases r <;> rfl

theorem requestTooLarge_exited {α : Type} (c : Ctx) :
    (requestTooLarge c : Res α).exited = true :=
  bind_exit_any_exited _ 0

theorem requestTooLarge_zReplyStatus {α : Type} (c : Ctx) (h : c.statusSent = false) :
    (requestTooLarge c : Res α).ctx.zReplyStatus = bytes "500" := by
  unfold requestTooLarge
  simp only []
  rw [bind_exit_any_ctx, MakeLogEntry_zReplyStatus, printf_zReplyStatus,
    StartResponse_zReplyStatus c _ h]
  decide

theorem toSizeT_nonneg (bits : Nat) (n : Int) (h0 : 0 ≤ n) (h1 : n < 2 ^ 31) (hb : 32 ≤ bits) :
    toSizeT bits n = n.toNat := by
  unfold toSizeT
  have hp : (2 : Int) ^ 32 ≤ ((2 ^ bits : Nat) : Int) := by
    have : 2 ^ 32 ≤ 2 ^ bits := Nat.pow_le_pow_right (by decide) hb
    exact_mod_cast this
  rw [Int.emod_eq_of_lt h0 (by omega)]

theorem toSizeT_neg (bits : Nat) (n : Int) (h0 : n < 0) (h1 : -2 ^ 31 ≤ n) (hb : 32 ≤ bits) :
    2 ^ 31 ≤ toSizeT bits n := by
  unfold toSizeT
  have hp : (2 : Int) ^ 32 ≤ ((2 ^ bits : Nat) : Int) := by
    have : 2 ^ 32 ≤ 2 ^ bits := Nat.pow_le_pow_right (by decide) hb
    exact_mod_cast this
  have e : n % ((2 ^ bits : Nat) : Int) = n + ((2 ^ bits : Nat) : Int) := by
    rw [← Int.add_emod_self]
    exact Int.emod_eq_of_lt (by omega) (by omega)
  rw [e]
  omega

/-- C17: for a POST request whose `Content-length:` value parses to the
`int` value `n`, on a machine whose `size_t` has at least 32 bits and where
the temporary file can be created, lines 1896-1937 end the process exactly
when `n > 250000000` or `n < 0`; the reply is then `500 Request too large`,
it is the same whatever the unread input is (no byte of the body is read),
and for `0 ≤ n ≤ 250000000` the function returns with the first `n` bytes
of the input as the body. -/
theorem post_length_cap (bits : Nat) (c : Ctx) (zLen zTmpNam stdin : List Nat) (n : Int)
    (hbits : 32 ≤ bits) (hm : rd c.zMethod 0 = 80) (hn : atoi zLen = n)
    (hr : -2 ^ 31 ≤ n ∧ n < 2 ^ 31) :
    ((readPostData bits c (some zLen) true true zTmpNam stdin).exited = true
        ↔ (n > 250000000 ∨ n < 0))
    ∧ ((n > 250000000 ∨ n < 0) →
        (∀ (mk fo : Bool) (inp : List Nat),
          readPostData bits c (some zLen) mk fo zTmpNam inp = requestTooLarge c)
        ∧ (c.statusSent = false →
            (readPostData bits c (some zLen) true true zTmpNam stdin).ctx.zReplyStatus
              = bytes "500"))
    ∧ (0 ≤ n ∧ n ≤ 250000000 →
        readPostData bits c (some zLen) true true zTmpNam stdin
          = .ret { c with rangeEnd := 0, nIn := c.nIn + (stdin.take n.toNat).length }
              (stdin.take n.toNat, stdin.drop n.toNat)) := by
  have hbig : (n > 250000000 ∨ n < 0) → toSizeT bits n > MAX_CONTENT_LENGTH := by
    intro h
    unfold MAX_CONTENT_LENGTH
    rcases h with h | h
    · rw [toSizeT_nonneg bits n (by omega) hr.2 hbits]; omega
    · have := toSizeT_neg bits n h hr.1 hbits
      omega
  have hsmall : (0 ≤ n ∧ n ≤ 250000000) →
      toSizeT bits n = n.toNat ∧ ¬ toSizeT bits n > MAX_CONTENT_LENGTH := by
    intro h
    have e := toSizeT_nonneg bits n h.1 hr.2 hbits
    refine ⟨e, ?_⟩
    rw [e]; unfold MAX_CONTENT_LENGTH; omega
  have hrej : (n > 250000000 ∨ n < 0) → ∀ (mk fo : Bool) (inp : List Nat),
      readPostData bits c (some zLen) mk fo zTmpNam inp = requestTooLarge c := by
    intro h mk fo inp
    simp only [readPostData, hm, hn, if_true, if_pos (hbig h)]
  have hacc : (0 ≤ n ∧ n ≤ 250000000) →
      readPostData bits c (some zLen) true true zTmpNam stdin
        = .ret { c with rangeEnd := 0, nIn := c.nIn + (stdin.take n.toNat).length }
            (stdin.take n.toNat, stdin.drop n.toNat) := by
    intro h
    obtain ⟨e, hle⟩ := hsmall h
    simp only [readPostData, hm, hn, if_true]
    rw [if_neg hle, e]
    simp
  refine ⟨?_, ?_, hacc⟩
  · constructor
    · intro hex
      by_contra hnot
      have h : 0 ≤ n ∧ n ≤ 250000000 := by omega
      rw [hacc h] at hex
      cases hex
    · intro h
      rw [hrej h true true stdin]
      exact requestTooLarge_exited c
  · intro h
    refine ⟨hrej h, ?_⟩
    intro hs
    rw [hrej h true true stdin]
    exact requestTooLarge_zReplyStatus c hs

/-- Witness for C17: a POST request that announces 250000001 bytes. -/
theorem post_length_cap_witness :
    (32 ≤ 64) ∧ rd ({ exampleCtx with zMethod := bytes "POST" } : Ctx).zMethod 0 = 80
    ∧ atoi (bytes "250000001") = 250000001
    ∧ (readPostData 64 { exampleCtx with zMethod := bytes "POST" } (some (bytes "250000001"))
        true true (bytes "/tmp/x") (bytes "abc")).exited = true :=
  ⟨by decide, by decide, by decide,
    ((post_length_cap 64 { exampleCtx with zMethod := bytes "POST" } (bytes "250000001")
      (bytes "/tmp/x") (bytes "abc") 250000001 (by decide) (by decide) (by decide)
      (by decide)).1).2 (Or.inl (by decide))⟩


/-! ## Theorems: `SetEnv` -/

theorem strncmpEq_prefix (a b : List Nat) :
    strncmpEq a b b.length = true ↔ b <+: a := by
  simp only [strncmpEq, List.take_length, decide_eq_true_eq]
  constructor
  · intro h
    exact ⟨a.drop b.length, by
      have := List.take_append_drop b.length a
      rw [h] at this
      exact this⟩
  · rintro ⟨t, rfl⟩
    simp

/-- C18: the string that `SetEnv` hands to `putenv` is the name, an equals
sign and the value when the value does not begin with the four bytes
`() {`; it is the name and an equals sign alone when the value begins with
them or is NULL; in both cases what follows the equals sign does not
begin with `() {`. -/
theorem SetEnv_value (zVar : List Nat) (zValue : Option (List Nat)) :
    (∀ v, zValue = some v → ¬ bytes "() \x7b" <+: v → SetEnv zVar zValue = zVar ++ [61] ++ v)
    ∧ (∀ v, zValue = some v → bytes "() \x7b" <+: v → SetEnv zVar zValue = zVar ++ [61])
    ∧ (zValue = none → SetEnv zVar zValue = zVar ++ [61])
    ∧ ∃ v, SetEnv zVar zValue = zVar ++ [61] ++ v ∧ ¬ bytes "() \x7b" <+: v := by
  have hp : ∀ v : List Nat, strncmpEq v (bytes "() \x7b") 4 = true ↔ bytes "() \x7b" <+: v :=
    fun v => strncmpEq_prefix v (bytes "() \x7b")
  have hnil : ¬ bytes "() \x7b" <+: ([] : List Nat) := by
    intro h
    have := List.IsPrefix.length_le h
    simp [bytes] at this
  refine ⟨?_, ?_, ?_, ?_⟩
  · rintro v rfl hv
    have : strncmpEq v (bytes "() \x7b") 4 = false := by
      cases hb : strncmpEq v (bytes "() \x7b") 4
      · rfl
      · exact absurd ((hp v).1 hb) hv
    simp [SetEnv, this]
  · rintro v rfl hv
    simp [SetEnv, (hp v).2 hv]
  · rintro rfl
    have : strncmpEq [] (bytes "() \x7b") 4 = false := by decide
    simp [SetEnv, this]
  · cases zValue with
    | none =>
      refine ⟨[], ?_, hnil⟩
      have : strncmpEq [] (bytes "() \x7b") 4 = false := by decide
      simp [SetEnv, this]
    | some v =>
      by_cases hv : bytes "() \x7b" <+: v
      · exact ⟨[], by simp [SetEnv, (hp v).2 hv], hnil⟩
      · refine ⟨v, ?_, hv⟩
        have : strncmpEq v (bytes "() \x7b") 4 = false := by
          cases hb : strncmpEq v (bytes "() \x7b") 4
          · rfl
          · exact absurd ((hp v).1 hb) hv
        simp [SetEnv, this]


/-! ## Theorems: the header block of an SCGI request -/

theorem memcpyAt_end (zHdr src : List Nat) : memcpyAt zHdr zHdr.length src = zHdr ++ src := by
  simp [memcpyAt]

theorem scgiHeaderLoop_spec (l : List (List Nat × Option (List Nat))) :
    ∀ zHdr : List Nat,
    scgiHeaderLoop l zHdr zHdr.length
      = (zHdr ++ netPayload (envPairs l), (zHdr ++ netPayload (envPairs l)).length) := by
  induction l with
  | nil => intro zHdr; simp [scgiHeaderLoop, envPairs, netPayload]
  | cons e rest ih =>
    intro zHdr
    obtain ⟨name, val⟩ := e
    cases val with
    | none =>
      have e0 : envPairs ((name, none) :: rest) = envPairs rest := rfl
      rw [scgiHeaderLoop, ih zHdr, e0]
    | some v =>
      have e0 : netPayload (envPairs ((name, some v) :: rest))
          = name ++ [0] ++ v ++ [0] ++ netPayload (envPairs rest) := rfl
      rw [scgiHeaderLoop]
      have e1 : memcpyAt zHdr zHdr.length name = zHdr ++ name := memcpyAt_end _ _
      have e2 : memcpyAt (zHdr ++ name) (zHdr.length + name.length) [0] = zHdr ++ name ++ [0] := by
        rw [← List.length_append]; exact memcpyAt_end _ _
      have e3 : memcpyAt (zHdr ++ name ++ [0]) (zHdr.length + name.length + 1) v
          = zHdr ++ name ++ [0] ++ v := by
        have hl3 : zHdr.length + name.length + 1 = (zHdr ++ name ++ [0]).length := by
          simp only [List.length_append, List.length_singleton]
        rw [hl3]; exact memcpyAt_end _ _
      have e4 : memcpyAt (zHdr ++ name ++ [0] ++ v) (zHdr.length + name.length + 1 + v.length) [0]
          = zHdr ++ name ++ [0] ++ v ++ [0] := by
        have hl4 : zHdr.length + name.length + 1 + v.length
            = (zHdr ++ name ++ [0] ++ v).length := by
          simp only [List.length_append, List.length_singleton]
        rw [hl4]; exact memcpyAt_end _ _
      rw [e1, e2, e3, e4]
      have e5 : zHdr.length + name.length + 1 + v.length + 1
          = (zHdr ++ name ++ [0] ++ v ++ [0]).length := by
        simp only [List.length_append, List.length_singleton]
      rw [e5, ih, e0]
      simp only [List.append_assoc]

theorem toInt32_small (n : Nat) (h : n < 2147483648) : toInt32 n = (n : Int) := by
  unfold toInt32
  have e : n % 4294967296 = n := Nat.mod_eq_of_lt (by omega)
  rw [e, if_pos h]

/-- C19: the bytes written to the SCGI server in front of the request
content are the decimal length of the payload, a colon, the payload and a
comma, for a payload shorter than 2^31 bytes; the payload is the sequence
of name, NUL, value, NUL over the entries of `cgienv` whose value is not
NULL, in the order of the table; the first pair is `CONTENT_LENGTH` (with
the value `0` when the request has none) and the pair `SCGI`, `1` is among
them. -/
theorem scgi_header_is_netstring (g : CgiEnv) (hlen : (scgiPayload g).length < 2147483648) :
    scgiRequestHeader g
      = fmtNat (scgiPayload g).length ++ [58] ++ scgiPayload g ++ [44]
    ∧ (scgiPairs g).head? = some (bytes "CONTENT_LENGTH", g.zContentLength.getD (bytes "0"))
    ∧ (bytes "SCGI", bytes "1") ∈ scgiPairs g := by
  have hg : (if g.zContentLength = none then { g with zContentLength := some (bytes "0") } else g)
      = { g with zContentLength := some (g.zContentLength.getD (bytes "0")) } := by
    cases h : g.zContentLength with
    | none => rw [if_pos rfl]; rfl
    | some v =>
      rw [if_neg (by simp)]
      cases g
      cases h
      rfl
  refine ⟨?_, rfl, ?_⟩
  · unfold scgiRequestHeader
    simp only []
    rw [hg]
    have hl := scgiHeaderLoop_spec
      (cgienv { g with zContentLength := some (g.zContentLength.getD (bytes "0")),
                       zScgi := some (bytes "1") }) []
    rw [List.length_nil, List.nil_append] at hl
    rw [hl]
    have e : netPayload (envPairs
        (cgienv { g with zContentLength := some (g.zContentLength.getD (bytes "0")),
                         zScgi := some (bytes "1") })) = scgiPayload g := rfl
    simp only []
    rw [e, toInt32_small _ hlen, fmtD_natCast, List.take_length]
  · unfold scgiPairs envPairs
    rw [List.mem_filterMap]
    refine ⟨(bytes "SCGI", some (bytes "1")), ?_, rfl⟩
    have h20 : (cgienv { g with zContentLength := some (g.zContentLength.getD (bytes "0")),
                                zScgi := some (bytes "1") })[20]?
        = some (bytes "SCGI", some (bytes "1")) := rfl
    exact List.getElem?_mem h20

/-- Witness for C19: the header block of a GET request without optional
headers. -/
theorem scgi_header_is_netstring_witness :
    (scgiPayload exampleEnv).length < 2147483648
    ∧ scgiRequestHeader exampleEnv
      = fmtNat (scgiPayload exampleEnv).length ++ [58] ++ scgiPayload exampleEnv ++ [44] :=
  ⟨by set_option maxRecDepth 100000 in decide,
    (scgi_header_is_netstring exampleEnv (by set_option maxRecDepth 100000 in decide)).1⟩


/-! ## Theorems: the lines of an SCGI specification file -/

/-- C20: an SCGI specification file with an empty line between its first
line and a `fallback:` line ends in the malfunction reply 704
(`unrecognized line in SCGI spec`) and `exit`, although the same file
without the empty line is accepted; comment lines and the two directives
are read without a malfunction, and the loop over the lines of the `-auth`
file does skip an empty line. -/
theorem scgi_spec_blank_line_is_fatal :
    (SendScgiRequest blankLineSys fallbackCtx (bytes "/www/default.website/app.scgi")
        (bytes "/www/default.website") []).exited = true
    ∧ (SendScgiRequest blankLineSys fallbackCtx (bytes "/www/default.website/app.scgi")
        (bytes "/www/default.website") []).ctx.out
      = bytes "HTTP/1.1 500 Server Malfunction\r\nConnection: close\r\nDate: Thu, 01 Jan 1970 00:00:00 GMT\r\nContent-type: text/plain; charset=utf-8\r\n\r\nWeb server malfunctioned; error number 704\n\nunrecognized line in SCGI spec: \" \"\n\n"
    ∧ scgiSpecLines 3 fallbackCtx none none (bytes "\nfallback: down.html\n")
      = Malfunction fallbackCtx 704 (some (bytes "unrecognized line in SCGI spec: \" \"\n"))
    ∧ (SendScgiRequest fallbackSys fallbackCtx (bytes "/www/default.website/app.scgi")
        (bytes "/www/default.website") []).ctx.zReplyStatus = bytes "200"
    ∧ scgiSpecLines 5 fallbackCtx none none
        (bytes "# one\n  # two\nrelight: run it\nfallback: down.html\n")
      = .ret fallbackCtx (some (bytes "run it"), some (bytes "down.html"))
    ∧ authLoop 3 exampleCtx (bytes "unknown realm") (bytes "\nanyone\n")
      = .ret exampleCtx true := by
  set_option maxRecDepth 100000 in
  refine ⟨by decide, by decide, by decide, by decide, by decide, by decide⟩


/-! ## Theorems: the line `https-only` of an `-auth` file (C21) -/

theorem fgetsSplit_line (l r : List Nat) : ∀ n : Nat, 10 ∉ l → l.length < n →
    fgetsSplit n (l ++ 10 :: r) = (l ++ [10], r) := by
  induction l with
  | nil =>
    intro n _ hn
    obtain ⟨m, rfl⟩ : ∃ m, n = m + 1 := ⟨n - 1, by simp at hn; omega⟩
    simp [fgetsSplit]
  | cons a l ih =>
    intro n hmem hn
    obtain ⟨m, rfl⟩ : ∃ m, n = m + 1 := ⟨n - 1, by simp at hn; omega⟩
    have ha : a ≠ 10 := fun e => hmem (by simp [e])
    have hl : 10 ∉ l := fun e => hmem (List.mem_cons_of_mem _ e)
    have hlen : l.length < m := by simp at hn; omega
    have e := ih m hl hlen
    rw [List.cons_append, fgetsSplit, if_neg ha, e]
    rfl

theorem fgets_line (l r : List Nat) (h10 : 10 ∉ l) (hlen : l.length < 1999) :
    fgets 2000 (l ++ 10 :: r) = some (l ++ [10], r) := by
  unfold fgets
  rw [if_neg (by simp)]
  rw [fgetsSplit_line l r 1999 h10 hlen]

theorem fileLines_cons (l : List Nat) (lines : List (List Nat)) (r : List Nat) :
    fileLines (l :: lines) ++ r = l ++ 10 :: (fileLines lines ++ r) := by
  simp [fileLines]

theorem fileLines_length (lines : List (List Nat)) : lines.length ≤ (fileLines lines).length := by
  induction lines with
  | nil => simp [fileLines]
  | cons l lines ih =>
    have e : fileLines (l :: lines) = l ++ 10 :: fileLines lines := by simp [fileLines]
    rw [e]
    simp only [List.length_append, List.length_cons]
    omega

/-- The loop over the `-auth` file, on a request that did not arrive over
HTTPS: when the lines in front of a line `https-only` are blank lines,
comments and `realm` lines, the loop ends in `NotFound(160)`. -/
theorem authLoop_https_only (rest : List Nat) (lines : List (List Nat)) :
    ∀ (fuel : Nat) (c : Ctx) (zRealm : List Nat),
    (∀ l ∈ lines, 10 ∉ l ∧ l.length < 1999 ∧ passedOver (l ++ [10]) = true) →
    lines.length < fuel → c.useHttps = false →
    authLoop fuel c zRealm (fileLines lines ++ (bytes "https-only" ++ 10 :: rest))
      = NotFound c 160 := by
  induction lines with
  | nil =>
    intro fuel c zRealm _ hf hhttp
    obtain ⟨m, rfl⟩ : ∃ m, fuel = m + 1 := ⟨fuel - 1, by simp at hf; omega⟩
    have e : fileLines [] ++ (bytes "https-only" ++ 10 :: rest)
        = bytes "https-only" ++ 10 :: rest := by simp [fileLines]
    rw [e, authLoop, fgets_line (bytes "https-only") rest (by decide) (by decide)]
    have htok : GetFirstElement (cstr (bytes "https-only" ++ [10]))
        = (bytes "https-only", []) := by decide
    simp only [htok]
    rw [if_neg (by decide), if_neg (by decide), if_neg (by decide), if_neg (by decide)]
    simp [hhttp]
  | cons l lines ih =>
    intro fuel c zRealm hl hf hhttp
    obtain ⟨m, rfl⟩ : ∃ m, fuel = m + 1 :=
      ⟨fuel - 1, by simp only [List.length_cons] at hf; omega⟩
    obtain ⟨h10, hlen, hp⟩ := hl l (List.mem_cons_self _ _)
    have hrest : ∀ l1 ∈ lines, 10 ∉ l1 ∧ l1.length < 1999 ∧ passedOver (l1 ++ [10]) = true :=
      fun l1 h1 => hl l1 (List.mem_cons_of_mem _ h1)
    have hm : lines.length < m := by simp only [List.length_cons] at hf; omega
    rw [fileLines_cons, authLoop, fgets_line l _ h10 hlen]
    simp only []
    by_cases h1 : (GetFirstElement (cstr (l ++ [10]))).1 = []
    · rw [if_pos h1]; exact ih m c zRealm hrest hm hhttp
    · rw [if_neg h1]
      by_cases h2 : rd (GetFirstElement (cstr (l ++ [10]))).1 0 = 35
      · rw [if_pos h2]; exact ih m c zRealm hrest hm hhttp
      · rw [if_neg h2]
        have h3 : (GetFirstElement (cstr (l ++ [10]))).1 = bytes "realm" := by
          simpa [passedOver, h1, h2] using hp
        rw [if_pos h3]
        exact ih m c _ hrest hm hhttp

theorem NotFound_exited {α : Type} (c : Ctx) (lineno : Nat) :
    (NotFound c lineno : Res α).exited = true := by
  unfold NotFound
  simp only []
  cases MakeLogEntry _ 0 lineno <;> rfl

theorem NotFound_zReplyStatus {α : Type} (c : Ctx) (lineno : Nat) (h : c.statusSent = false) :
    (NotFound c lineno : Res α).ctx.zReplyStatus = bytes "404" := by
  unfold NotFound
  simp only []
  have e := MakeLogEntry_zReplyStatus
    ((StartResponse c (bytes "404 Not Found")).printf
      (bytes "Content-type: text/html; charset=utf-8\r\n\r\n<head><title lineno=\""
        ++ fmtNat lineno
        ++ bytes "\">Not Found</title></head>\n<body><h1>Document Not Found</h1>\nThe document "
        ++ (StartResponse c (bytes "404 Not Found")).zScript
        ++ bytes " is not available on this server\n</body>\n")) 0 lineno
  rw [printf_zReplyStatus, StartResponse_zReplyStatus c _ h] at e
  revert e
  cases MakeLogEntry _ 0 lineno <;> exact fun e => e

/-- C21 (amended): for every `-auth` file in which only blank lines,
comment lines and `realm` lines stand in front of a line `https-only`, and
every request that did not arrive over HTTPS, whatever the lines after the
`https-only` line and whatever credentials the request carries,
`CheckBasicAuthorization` does not return: it ends in `NotFound(160)`, the
reply status is 404 and the process exits. -/
theorem https_only_refuses_http (sys : Sys) (c : Ctx) (zAuthFile : List Nat)
    (lines : List (List Nat)) (rest : List Nat)
    (hopen : sys.fopen zAuthFile
      = some (fileLines lines ++ (bytes "https-only" ++ 10 :: rest)))
    (hlines : ∀ l ∈ lines, 10 ∉ l ∧ l.length < 1999 ∧ passedOver (l ++ [10]) = true)
    (hhttp : c.useHttps = false) (hs : c.statusSent = false) :
    CheckBasicAuthorization sys c zAuthFile
      = NotFound { c with zAuthArg := c.zAuthArg.map fun arg => cstr (Decode64 arg) } 160
    ∧ (CheckBasicAuthorization sys c zAuthFile).exited = true
    ∧ (CheckBasicAuthorization sys c zAuthFile).ctx.zReplyStatus = bytes "404" := by
  have e : CheckBasicAuthorization sys c zAuthFile
      = NotFound { c with zAuthArg := c.zAuthArg.map fun arg => cstr (Decode64 arg) } 160 := by
    unfold CheckBasicAuthorization
    rw [hopen]
    simp only []
    refine authLoop_https_only rest lines _ _ _ hlines ?_ hhttp
    have := fileLines_length lines
    simp only [List.length_append]
    omega
  rw [e]
  exact ⟨rfl, NotFound_exited _ _, NotFound_zReplyStatus _ _ hs⟩

/-- Witness for the amended C21: a file with a comment, a realm, the line
`https-only`, a user and the line `anyone`, on a request over HTTP that
carries the credentials of that user. -/
theorem https_only_refuses_http_witness :
    httpsFirstSys.fopen (bytes "/www/default.website/-auth")
      = some (fileLines [bytes "# members", bytes "realm private"]
          ++ (bytes "https-only" ++ 10 :: bytes "user alice alice:secret\nanyone\n"))
    ∧ (∀ l ∈ [bytes "# members", bytes "realm private"],
        10 ∉ l ∧ l.length < 1999 ∧ passedOver (l ++ [10]) = true)
    ∧ exampleCtx.useHttps = false ∧ exampleCtx.statusSent = false
    ∧ (CheckBasicAuthorization httpsFirstSys
        { exampleCtx with zAuthArg := some (bytes "YWxpY2U6c2VjcmV0") }
        (bytes "/www/default.website/-auth")).exited = true
    ∧ (CheckBasicAuthorization httpsFirstSys
        { exampleCtx with zAuthArg := some (bytes "YWxpY2U6c2VjcmV0") }
        (bytes "/www/default.website/-auth")).ctx.zReplyStatus = bytes "404" := by
  set_option maxRecDepth 100000 in
  exact ⟨by decide, by decide, rfl, rfl,
    (https_only_refuses_http httpsFirstSys
      { exampleCtx with zAuthArg := some (bytes "YWxpY2U6c2VjcmV0") }
      (bytes "/www/default.website/-auth") [bytes "# members", bytes "realm private"]
      (bytes "user alice alice:secret\nanyone\n") (by decide) (by decide) rfl rfl).2⟩

/-- C21 (counterexample): in a file whose line `anyone` stands in front of
the line `https-only`, a request over HTTP is allowed, and in a file whose
line `user` stands in front of it, a request over HTTP that carries the
credentials of that user is allowed: the result is 1 and no reply is
written. -/
theorem lines_before_https_only_allow_http :
    exampleCtx.useHttps = false
    ∧ CheckBasicAuthorization anyoneFirstSys exampleCtx (bytes "/www/default.website/-auth")
      = .ret exampleCtx true
    ∧ CheckBasicAuthorization userFirstSys
        { exampleCtx with zAuthArg := some (bytes "YWxpY2U6c2VjcmV0") }
        (bytes "/www/default.website/-auth")
      = .ret { exampleCtx with zAuthArg := some (bytes "alice:secret"),
                               zRemoteUser := some (bytes "alice") } true := by
  set_option maxRecDepth 100000 in
  exact ⟨rfl, by decide, by decide⟩

/-! ## Theorems: a CGI reply without `Content-length` (C22) -/

/-- The body part of the framer for a reply without a `Content-length`
header and with a status other than 304: the length announced is the number
of bytes read, the bytes written are those in front of the first NUL. -/
theorem cgiBody_unframed (c : Ctx) (v : CgiVars) (n : Int) (rest : List Nat)
    (hres : v.aRes = []) (h304 : v.iStatus ≠ 304) (hlen : v.seenContentLength = false)
    (hne : rest ≠ []) :
    (cgiBody c v n rest).out
      = c.out ++ (bytes "Content-length: " ++ fmtNat rest.length ++ [13, 10, 13, 10] ++ cstr rest) := by
  unfold cgiBody
  simp only [hres, ne_eq, not_true_eq_false, if_false, if_neg h304, hlen, Bool.false_eq_true]
  rw [if_pos hne]
  rfl

/-- C22: a CGI reply without a `Content-length` header whose body of five
bytes holds a NUL byte at offset 2.  The framer announces
`Content-length: 5` and writes the two bytes in front of the NUL, because
the body is printed with the conversion `%s` (line 1459).  A body without
NUL bytes and an empty body are framed with their length. -/
theorem cgi_body_with_nul_is_cut :
    (CgiHandleReply exampleCtx (bytes "Content-type: text/plain\n\n" ++ [97, 98, 0, 99, 100]) []).out
      = bytes "HTTP/1.1 200 OK\r\nConnection: keep-alive\r\nDate: Thu, 01 Jan 1970 00:00:00 GMT\r\nContent-type: text/plain\nContent-length: 5\r\n\r\n"
        ++ [97, 98]
    ∧ (CgiHandleReply exampleCtx (bytes "Content-type: text/plain\n\nabcde") []).out
      = bytes "HTTP/1.1 200 OK\r\nConnection: keep-alive\r\nDate: Thu, 01 Jan 1970 00:00:00 GMT\r\nContent-type: text/plain\nContent-length: 5\r\n\r\nabcde"
    ∧ (CgiHandleReply exampleCtx (bytes "Content-type: text/plain\n\n") []).out
      = bytes "HTTP/1.1 200 OK\r\nConnection: keep-alive\r\nDate: Thu, 01 Jan 1970 00:00:00 GMT\r\nContent-type: text/plain\nContent-length: 0\r\n\r\n" := by
  set_option maxRecDepth 100000 in
  refine ⟨by decide, by decide, by decide⟩

/-! ## Theorems: the bounds of the buffer `zLine` (C23) -/

theorem notFoundSearch_hw (sys : Sys) (j0 i : Nat) (fuel : Nat) :
    ∀ (zLine : List Nat) (j hw : Nat), hw ≤ (notFoundSearch sys j0 i fuel zLine j hw).2 := by
  induction fuel with
  | zero => intro zLine j hw; exact le_refl _
  | succ fuel ih =>
    intro zLine j hw
    rw [notFoundSearch]
    simp only []
    split_ifs
    all_goals first
      | exact le_refl hw
      | exact le_max_left hw _
      | exact le_trans (le_max_left hw _) (ih _ _ _)

theorem indexSearch_hw (sys : Sys) (zLine : List Nat) (k : Nat) (l : List (List Nat)) :
    ∀ hw : Nat, hw ≤ (indexSearch sys zLine k l hw).2 := by
  induction l with
  | nil => intro hw; exact le_refl _
  | cons ix more ih =>
    intro hw
    rw [indexSearch]
    cases sys.stat (zLine.take k ++ ix) with
    | none => exact le_trans (le_max_left hw _) (ih _)
    | some st =>
      simp only []
      split_ifs
      · exact le_max_left hw _
      · exact le_trans (le_max_left hw _) (ih _)

/-- The length of the longest string stored in `zLine` never decreases
through the resolution loop, and after a pass it is at least the length of
the string that the copy loop of that pass left. -/
theorem resolveLoop_hw (sys : Sys) (s : List Nat) (j0 : Nat) (fuel : Nat) :
    ∀ (i : Nat) (zLine : List Nat) (st : Stat) (hw : Nat),
    hw ≤ (resolveLoop sys s j0 fuel i zLine st hw).2
    ∧ (fuel ≠ 0 → rd s i ≠ 0 →
        (copyLoop s (s.length + 1) i zLine).2.length
          ≤ (resolveLoop sys s j0 fuel i zLine st hw).2) := by
  induction fuel with
  | zero => intro i zLine st hw; exact ⟨le_refl _, fun h => absurd rfl h⟩
  | succ fuel ih =>
    intro i zLine st hw
    rw [resolveLoop]
    by_cases h0 : rd s i = 0
    · rw [if_pos h0]
      exact ⟨le_refl _, fun _ h => absurd h0 h⟩
    · rw [if_neg h0]
      simp only []
      have key : max hw (copyLoop s (s.length + 1) i zLine).2.length
          ≤ (match sys.stat (copyLoop s (s.length + 1) i zLine).2 with
            | none =>
              notFoundSearch sys j0 (copyLoop s (s.length + 1) i zLine).1
                ((copyLoop s (s.length + 1) i zLine).2.length + 1)
                (copyLoop s (s.length + 1) i zLine).2
                (copyLoop s (s.length + 1) i zLine).2.length
                (max hw (copyLoop s (s.length + 1) i zLine).2.length)
            | some st =>
              if st.isReg then
                if ¬ sys.accessR (copyLoop s (s.length + 1) i zLine).2 then
                  (.notFound 390, max hw (copyLoop s (s.length + 1) i zLine).2.length)
                else
                  (.file (copyLoop s (s.length + 1) i zLine).2
                    ((copyLoop s (s.length + 1) i zLine).2.drop j0)
                    (copyLoop s (s.length + 1) i zLine).1 st,
                   max hw (copyLoop s (s.length + 1) i zLine).2.length)
              else if rd s (copyLoop s (s.length + 1) i zLine).1 = 0
                  ∨ rd s ((copyLoop s (s.length + 1) i zLine).1 + 1) = 0 then
                match indexSearch sys (copyLoop s (s.length + 1) i zLine).2
                    (if (copyLoop s (s.length + 1) i zLine).2.length > 0
                        ∧ rd (copyLoop s (s.length + 1) i zLine).2
                            ((copyLoop s (s.length + 1) i zLine).2.length - 1) = 47
                      then (copyLoop s (s.length + 1) i zLine).2.length - 1
                      else (copyLoop s (s.length + 1) i zLine).2.length)
                    azIndex (max hw (copyLoop s (s.length + 1) i zLine).2.length) with
                | (none, hw2) => (.notFound 400, hw2)
                | (some (z, st2), hw2) =>
                  if rd s (copyLoop s (s.length + 1) i zLine).1 = 0 then
                    (.redirect (z.drop j0) 301 410, hw2)
                  else (.file z (z.drop j0) (copyLoop s (s.length + 1) i zLine).1 st2, hw2)
              else
                resolveLoop sys s j0 fuel ((copyLoop s (s.length + 1) i zLine).1 + 1)
                  ((copyLoop s (s.length + 1) i zLine).2
                    ++ [rd s (copyLoop s (s.length + 1) i zLine).1]) st
                  (max hw (copyLoop s (s.length + 1) i zLine).2.length)).2 := by
        cases sys.stat (copyLoop s (s.length + 1) i zLine).2 with
        | none => exact notFoundSearch_hw sys j0 _ _ _ _ _
        | some st1 =>
          simp only []
          by_cases hreg : st1.isReg = true
          · rw [if_pos hreg]
            split_ifs <;> exact le_refl _
          · rw [if_neg hreg]
            by_cases hend : rd s (copyLoop s (s.length + 1) i zLine).1 = 0
                ∨ rd s ((copyLoop s (s.length + 1) i zLine).1 + 1) = 0
            · rw [if_pos hend]
              have hix := indexSearch_hw sys (copyLoop s (s.length + 1) i zLine).2
                (if (copyLoop s (s.length + 1) i zLine).2.length > 0
                    ∧ rd (copyLoop s (s.length + 1) i zLine).2
                        ((copyLoop s (s.length + 1) i zLine).2.length - 1) = 47
                  then (copyLoop s (s.length + 1) i zLine).2.length - 1
                  else (copyLoop s (s.length + 1) i zLine).2.length)
                azIndex (max hw (copyLoop s (s.length + 1) i zLine).2.length)
              revert hix
              cases indexSearch sys (copyLoop s (s.length + 1) i zLine).2
                (if (copyLoop s (s.length + 1) i zLine).2.length > 0
                    ∧ rd (copyLoop s (s.length + 1) i zLine).2
                        ((copyLoop s (s.length + 1) i zLine).2.length - 1) = 47
                  then (copyLoop s (s.length + 1) i zLine).2.length - 1
                  else (copyLoop s (s.length + 1) i zLine).2.length)
                azIndex (max hw (copyLoop s (s.length + 1) i zLine).2.length) with
              | mk found hw2 =>
                intro hix
                cases found with
                | none => exact hix
                | some zs =>
                  obtain ⟨z, st2⟩ := zs
                  simp only []
                  split_ifs <;> exact hix
            · rw [if_neg hend]
              exact (ih _ _ _ _).1
      exact ⟨le_trans (le_max_left _ _) key, fun _ _ => le_trans (le_max_right _ _) key⟩

theorem copyLoop_all (s : List Nat) (fuel : Nat) : ∀ (i : Nat) (zLine : List Nat),
    (∀ k, i ≤ k → k < s.length → rd s k ≠ 0 ∧ (k = 0 ∨ rd s k ≠ 47)) →
    s.length ≤ i + fuel → i ≤ s.length →
    (copyLoop s fuel i zLine).2.length = zLine.length + (s.length - i) := by
  induction fuel with
  | zero =>
    intro i zLine _ h1 h2
    rw [copyLoop]
    simp only []
    omega
  | succ fuel ih =>
    intro i zLine hall h1 h2
    rw [copyLoop]
    by_cases hi : i < s.length
    · rw [if_pos (hall i (le_refl _) hi)]
      rw [ih (i + 1) _ (fun k hk hk2 => hall k (by omega) hk2) (by omega) (by omega)]
      simp only [List.length_append, List.length_singleton]
      omega
    · have hr : rd s i = 0 := by
        unfold rd
        exact List.getD_eq_default _ _ (by omega)
      rw [if_neg (fun e => e.1 hr)]
      simp only []
      omega

/-- A request path of one element: when the content root and the path
together have 1000 bytes or more, the copy loop of lines 2031-2034 and the
NUL of line 2035 are written outside the 1000 bytes of `zLine`, whatever
the file system holds. -/
theorem resolveFile_overrun (sys : Sys) (zHome name : List Nat) (statbuf : Stat)
    (hname : ∀ b ∈ name, b ≠ 0 ∧ b ≠ 47) (hlen : 1000 ≤ zHome.length + (name.length + 1)) :
    resolveFile sys zHome (47 :: name) statbuf = .overrun := by
  unfold resolveFile
  simp only []
  have hall : ∀ k, 0 ≤ k → k < (47 :: name).length →
      rd (47 :: name) k ≠ 0 ∧ (k = 0 ∨ rd (47 :: name) k ≠ 47) := by
    intro k _ hk
    cases k with
    | zero => exact ⟨by simp [rd], Or.inl rfl⟩
    | succ k =>
      have hk1 : k < name.length := by simp only [List.length_cons] at hk; omega
      have hr : rd (47 :: name) (k + 1) = name[k] := by
        simp [rd, List.getD_eq_getElem?_getD, List.getElem?_eq_getElem hk1]
      have := hname name[k] (List.getElem_mem _)
      rw [hr]
      exact ⟨this.1, Or.inr this.2⟩
  have hcopy := copyLoop_all (47 :: name) ((47 :: name).length + 1) 0 zHome hall
    (by omega) (by omega)
  have hstep := (resolveLoop_hw sys (47 :: name) zHome.length ((47 :: name).length + 1) 0
    zHome statbuf zHome.length).2 (by omega) (by simp [rd])
  rw [hcopy] at hstep
  simp only [List.length_cons, Nat.sub_zero] at hstep
  rw [if_pos (by simp only [List.length_cons]; omega)]

/-- C23: the root `/www` and the host `example.com` pass the length checks
of lines 1977 and 1982 and the content root is `/www/default.website`, of
20 bytes.  For the request line `GET <path> HTTP/1.1` of 996 bytes whose
path is a slash followed by 980 letters `a`, the copy loop of lines
2031-2034 stores the 981 bytes of the path behind the content root, so the
string has 1001 bytes: the index 1000 and, for the NUL of line 2035, the
index 1001 of `zLine` are written. -/
theorem long_request_path_overruns_zLine :
    (bytes "GET " ++ longPathCtx.zScript ++ bytes " HTTP/1.1\r\n").length = 996
    ∧ (bytes "/www").length + 40 < 1000
    ∧ (bytes "example.com").length + (bytes "/www").length + 10 < 1000
    ∧ longPathCtx.zHttpHost = some (bytes "example.com")
    ∧ contentRoot plainSys longPathCtx (bytes "/www") false
      = .ret longPathCtx (bytes "/www/default.website")
    ∧ (bytes "/www/default.website" ++ longPathCtx.zScript).length = 1001
    ∧ resolveFile plainSys (bytes "/www/default.website") longPathCtx.zScript exampleDir
      = .overrun := by
  set_option maxRecDepth 100000 in
  refine ⟨by decide, by decide, by decide, rfl, by decide, by decide, ?_⟩
  exact resolveFile_overrun plainSys (bytes "/www/default.website") (List.replicate 980 97)
    exampleDir (fun b hb => by rw [List.eq_of_mem_replicate hb]; exact ⟨by decide, by decide⟩)
    (by decide)

/-! ## Theorems: error statuses and the connection (C24) -/

theorem StartResponse_low (c : Ctx) (code : List Nat)
    (h : schar (rd (code.take 3) 0) < 52) :
    (StartResponse c code).closeConnection = c.closeConnection := by
  rw [StartResponse_closeConnection]
  have : decide (schar (rd (code.take 3) 0) ≥ 52) = false := by
    rw [decide_eq_false_iff_not]; omega
  rw [this]
  simp

theorem cgiHeaders_closeConnection (fuel : Nat) : ∀ (c : Ctx) (v : CgiVars) (inp : List Nat),
    (cgiHeaders fuel c v inp).1.closeConnection = c.closeConnection := by
  induction fuel with
  | zero => intro c v inp; rfl
  | succ fuel ih =>
    intro c v inp
    rw [cgiHeaders]
    cases fgets 1000 inp with
    | none => rfl
    | some lr =>
      obtain ⟨line, rest⟩ := lr
      simp only []
      split_ifs
      all_goals first
        | rfl
        | (rw [ih]; exact StartResponse_low c (bytes "302 Redirect") (by decide))
        | (rw [ih]; rfl)
        | rw [ih]

theorem cgiRangeReply_closeConnection (c : Ctx) (v : CgiVars) :
    (cgiRangeReply c v).1.closeConnection = c.closeConnection := by
  unfold cgiRangeReply
  by_cases hr : c.rangeEnd > 0 ∧ v.seenContentLength = true ∧ c.rangeStart < v.contentLength
  · rw [if_pos hr]
    simp only [printf_closeConnection]
    split_ifs
    · exact StartResponse_low c (bytes "206 Partial Content") (by decide)
    · exact StartResponse_low c (bytes "206 Partial Content") (by decide)
  · rw [if_neg hr]
    exact StartResponse_low c (bytes "200 OK") (by decide)

/-- The reply framer of CGI and SCGI leaves `closeConnection` as it finds
it, whatever the reply holds. -/
theorem CgiHandleReply_closeConnection (c : Ctx) (inp zLine0 : List Nat) :
    (CgiHandleReply c inp zLine0).closeConnection = c.closeConnection := by
  unfold CgiHandleReply
  simp only []
  rw [cgiBody_closeConnection, cgiRangeReply_closeConnection, cgiHeaders_closeConnection]

/-- C24 (amended): when `StartResponse` writes the status line of a
response (no status line was sent before) and the status begins with `4` or
`5`, the reply status holds its first three bytes, `closeConnection` is true
and `MakeLogEntry` ends the process; the reply framer of CGI and SCGI never
changes `closeConnection`, so a status taken from a `Status:` header closes
the connection only if it was to be closed already. -/
theorem error_status_closes_connection (c : Ctx) (code inp zLine0 : List Nat)
    (exitCode lineNum : Nat) (hs : c.statusSent = false)
    (h4 : rd code 0 = 52 ∨ rd code 0 = 53) :
    (StartResponse c code).zReplyStatus = code.take 3
    ∧ (StartResponse c code).closeConnection = true
    ∧ (MakeLogEntry (StartResponse c code) exitCode lineNum).exited = true
    ∧ (CgiHandleReply c inp zLine0).closeConnection = c.closeConnection := by
  have hclose : (StartResponse c code).closeConnection = true := by
    rw [StartResponse_closeConnection, hs]
    have e : rd (code.take 3) 0 = rd code 0 := by
      cases code with
      | nil => rfl
      | cons a t => rfl
    have : decide (schar (rd (code.take 3) 0) ≥ 52) = true := by
      rw [decide_eq_true_iff, e]
      rcases h4 with h | h <;> rw [h] <;> decide
    rw [this]
    simp
  refine ⟨StartResponse_zReplyStatus c code hs, hclose, ?_, CgiHandleReply_closeConnection c inp zLine0⟩
  rw [MakeLogEntry_exited]
  exact hclose

/-- Witness for the amended C24: the status `404 Not Found` on a
connection that was to be kept open. -/
theorem error_status_closes_connection_witness :
    exampleCtx.statusSent = false ∧ exampleCtx.closeConnection = false
    ∧ (rd (bytes "404 Not Found") 0 = 52 ∨ rd (bytes "404 Not Found") 0 = 53)
    ∧ (StartResponse exampleCtx (bytes "404 Not Found")).closeConnection = true
    ∧ (MakeLogEntry (StartResponse exampleCtx (bytes "404 Not Found")) 0 380).exited = true :=
  ⟨rfl, rfl, Or.inl (by decide),
    (error_status_closes_connection exampleCtx (bytes "404 Not Found") [] [] 0 380 rfl
      (Or.inl (by decide))).2.1,
    (error_status_closes_connection exampleCtx (bytes "404 Not Found") [] [] 0 380 rfl
      (Or.inl (by decide))).2.2.1⟩

/-- C24 (counterexample): a CGI reply with the header `Status: 404 Not
Found` on a connection that is to be kept open.  The reply status is 404,
`closeConnection` is still false, and `MakeLogEntry(0, 0)` of line 2220
writes the record and returns, so the process goes on to read the next
request. -/
theorem cgi_status_404_keeps_connection_open :
    exampleCtx.closeConnection = false
    ∧ (CgiHandleReply exampleCtx (bytes "Status: 404 Not Found\nContent-length: 0\n\n")
        []).zReplyStatus = bytes "404"
    ∧ (CgiHandleReply exampleCtx (bytes "Status: 404 Not Found\nContent-length: 0\n\n")
        []).out = bytes "HTTP/1.1 404 Not Found\nContent-length: 0\r\n\r\n"
    ∧ (CgiHandleReply exampleCtx (bytes "Status: 404 Not Found\nContent-length: 0\n\n")
        []).closeConnection = false
    ∧ (MakeLogEntry (CgiHandleReply exampleCtx
        (bytes "Status: 404 Not Found\nContent-length: 0\n\n") []) 0 0).exited = false
    ∧ (MakeLogEntry (CgiHandleReply exampleCtx
        (bytes "Status: 404 Not Found\nContent-length: 0\n\n") []) 0 0).ctx.log
      = [⟨0, bytes "404"⟩] := by
  set_option maxRecDepth 100000 in
  refine ⟨rfl, by decide, by decide, by decide, by decide, by decide⟩

/-! ## Theorems: dates of the year 2100 (C25) -/

/-- C25: the first of January 2100, 00:00:00, is 47482 days after the epoch
by the Gregorian count, that is 4102444800 seconds, and `Rfc822Date` writes
that instant as `Fri, 01 Jan 2100 00:00:00 GMT`; `ParseRfc822Date` returns
4102358400 for this text, one day less, because line 655 subtracts
`year/100` for the century year 2100 before that year has passed.  The last
second of 2099 is still parsed to its number of seconds. -/
theorem parse_date_2100_is_one_day_early :
    daysBeforeYear 130 = 47482
    ∧ 47482 * 86400 = 4102444800
    ∧ Rfc822Date 4102444800 = bytes "Fri, 01 Jan 2100 00:00:00 GMT"
    ∧ ParseRfc822Date (bytes "Fri, 01 Jan 2100 00:00:00 GMT") = 4102358400
    ∧ ParseRfc822Date (Rfc822Date 4102444800) = 4102444800 - 86400
    ∧ Rfc822Date 4102444799 = bytes "Thu, 31 Dec 2099 23:59:59 GMT"
    ∧ ParseRfc822Date (bytes "Thu, 31 Dec 2099 23:59:59 GMT") = 4102444799 := by
  set_option maxRecDepth 100000 in
  refine ⟨by decide, by decide, by decide, by decide, by decide, by decide, by decide⟩

/-! ## Theorems: the quoting of log fields (C26) -/

theorem rd_mid (pre : List Nat) (c : Nat) (s : List Nat) : rd (pre ++ c :: s) pre.length = c := by
  have h := rd_append pre (c :: s) 0
  rw [Nat.add_zero] at h
  rw [h]
  rfl

theorem rd_end (pre : List Nat) : rd pre pre.length = 0 := by
  unfold rd
  exact List.getD_eq_default _ _ (le_refl _)

theorem append_cons_assoc (pre : List Nat) (c : Nat) (s : List Nat) :
    pre ++ c :: s = (pre ++ [c]) ++ s := by simp

theorem escapeFirst_spec : ∀ (fuel : Nat) (pre suf : List Nat), suf.length < fuel →
    escapeFirst (pre ++ suf) fuel pre.length
      = pre.length + (suf.takeWhile fun c => c != 0 && c != 34).length := by
  intro fuel
  induction fuel with
  | zero => intro pre suf h; omega
  | succ fuel ih =>
    intro pre suf h
    cases suf with
    | nil => rw [escapeFirst, List.append_nil, rd_end]; simp
    | cons c s =>
      rw [escapeFirst, rd_mid]
      by_cases hc : c ≠ 0 ∧ c ≠ 34
      · rw [if_pos hc]
        have h1 := ih (pre ++ [c]) s (by simp only [List.length_cons] at h; omega)
        rw [List.length_append, List.length_singleton] at h1
        rw [append_cons_assoc, h1]
        have hp : (c != 0 && c != 34) = true := by simp [hc.1, hc.2]
        rw [List.takeWhile_cons, hp]
        simp only [if_true, List.length_cons]
        omega
      · rw [if_neg hc]
        have hp : (c != 0 && c != 34) = false := by
          by_cases h0 : c = 0
          · simp [h0]
          · have : c = 34 := by
              by_contra h34
              exact hc ⟨h0, h34⟩
            simp [this]
        rw [List.takeWhile_cons, hp]
        simp

theorem escapeCount_spec : ∀ (fuel : Nat) (pre suf : List Nat) (n : Nat), suf.length < fuel →
    escapeCount (pre ++ suf) fuel pre.length n
      = (pre.length + (cstr suf).length, n + (cstr suf).count 34) := by
  intro fuel
  induction fuel with
  | zero => intro pre suf n h; omega
  | succ fuel ih =>
    intro pre suf n h
    cases suf with
    | nil => rw [escapeCount, List.append_nil, rd_end]; simp [cstr]
    | cons c s =>
      rw [escapeCount, rd_mid]
      by_cases hc : c ≠ 0
      · rw [if_pos hc]
        have h1 := ih (pre ++ [c]) s (if c = 34 then n + 1 else n)
          (by simp only [List.length_cons] at h; omega)
        rw [List.length_append, List.length_singleton] at h1
        rw [append_cons_assoc, h1, cstr_cons_ne c s hc]
        by_cases hq : c = 34
        · subst hq
          simp only [if_true, List.length_cons, List.count_cons_self, Prod.mk.injEq]
          omega
        · rw [if_neg hq]
          have hcount : List.count 34 (c :: cstr s) = List.count 34 (cstr s) := by
            simp [List.count_cons, hq]
          rw [hcount]
          simp only [List.length_cons, Prod.mk.injEq, and_true]
          omega
      · rw [if_neg hc]
        have h0 : c = 0 := by
          by_contra h1
          exact hc h1
        subst h0
        rw [cstr_cons_zero]
        simp

theorem escapeCopy_spec : ∀ (fuel : Nat) (pre suf out T : List Nat), suf.length < fuel →
    (doubleQuotes (cstr suf)).length ≤ T.length →
    escapeCopy (pre ++ suf) fuel pre.length (out ++ T) out.length
      = (out ++ doubleQuotes (cstr suf) ++ T.drop (doubleQuotes (cstr suf)).length,
         out.length + (doubleQuotes (cstr suf)).length) := by
  intro fuel
  induction fuel with
  | zero => intro pre suf out T h; omega
  | succ fuel ih =>
    intro pre suf out T h hT
    cases suf with
    | nil => rw [escapeCopy, List.append_nil, rd_end]; simp [cstr, doubleQuotes]
    | cons c s =>
      rw [escapeCopy, rd_mid]
      by_cases hc : c ≠ 0
      · rw [if_pos hc]
        rw [cstr_cons_ne c s hc] at hT ⊢
        have hs : s.length < fuel := by simp only [List.length_cons] at h; omega
        by_cases hq : c = 34
        · subst hq
          rw [if_pos rfl]
          have e : doubleQuotes (34 :: cstr s) = 34 :: 34 :: doubleQuotes (cstr s) := by
            simp [doubleQuotes]
          rw [e] at hT ⊢
          simp only [List.length_cons] at hT
          match T, hT with
          | t0 :: t1 :: T1, hT1 =>
            have hw : wr (wr (out ++ t0 :: t1 :: T1) out.length 34) (out.length + 1) 34
                = (out ++ [34, 34]) ++ T1 := by
              have e1 := wr_append out (t0 :: t1 :: T1) 0 34
              rw [Nat.add_zero] at e1
              rw [e1, wr_append out _ 1 34]
              simp [wr]
            have h1 := ih (pre ++ [34]) s (out ++ [34, 34]) T1 hs
              (by simp only [List.length_cons] at hT1; omega)
            rw [List.length_append, List.length_singleton] at h1
            have e2 : (out ++ [34, 34]).length = out.length + 2 := by simp
            rw [e2] at h1
            rw [append_cons_assoc, hw, h1]
            simp only [List.length_cons, List.drop_succ_cons, List.append_assoc,
              List.cons_append, List.nil_append, Prod.mk.injEq, true_and]
            omega
        · rw [if_neg hq]
          have e : doubleQuotes (c :: cstr s) = c :: doubleQuotes (cstr s) := by
            simp [doubleQuotes, hq]
          rw [e] at hT ⊢
          simp only [List.length_cons] at hT
          match T, hT with
          | t0 :: T1, hT1 =>
            have hw : wr (out ++ t0 :: T1) out.length c = (out ++ [c]) ++ T1 := by
              have e1 := wr_append out (t0 :: T1) 0 c
              rw [Nat.add_zero] at e1
              rw [e1]
              simp [wr]
            have h1 := ih (pre ++ [c]) s (out ++ [c]) T1 hs
              (by simp only [List.length_cons] at hT1; omega)
            rw [List.length_append, List.length_singleton] at h1
            have e2 : (out ++ [c]).length = out.length + 1 := by simp
            rw [e2] at h1
            rw [append_cons_assoc, hw, h1]
            simp only [List.length_cons, List.drop_succ_cons, List.append_assoc,
              List.cons_append, List.nil_append, Prod.mk.injEq, true_and]
            omega
      · rw [if_neg hc]
        have h0 : c = 0 := by
          by_contra h1
          exact hc h1
        subst h0
        rw [cstr_cons_zero]
        simp [doubleQuotes]

theorem doubleQuotes_length (s : List Nat) :
    (doubleQuotes s).length = s.length + s.count 34 := by
  induction s with
  | nil => rfl
  | cons c s ih =>
    by_cases hq : c = 34
    · subst hq
      simp only [doubleQuotes, if_true, List.length_cons, List.count_cons_self, ih]
      omega
    · have hcount : List.count 34 (c :: s) = List.count 34 s := by
        simp [List.count_cons, hq]
      simp only [doubleQuotes, if_neg hq, List.length_cons, ih, hcount]
      omega

theorem doubleQuotes_append (a b : List Nat) :
    doubleQuotes (a ++ b) = doubleQuotes a ++ doubleQuotes b := by
  induction a with
  | nil => rfl
  | cons c a ih =>
    by_cases hq : c = 34
    · subst hq; simp [doubleQuotes, ih]
    · simp [doubleQuotes, hq, ih]

theorem doubleQuotes_no_quote (s : List Nat) (h : 34 ∉ s) : doubleQuotes s = s := by
  induction s with
  | nil => rfl
  | cons c s ih =>
    have hq : c ≠ 34 := fun e => h (by simp [e])
    have hs : 34 ∉ s := fun e => h (List.mem_cons_of_mem _ e)
    simp [doubleQuotes, hq, ih hs]

theorem doubleQuotes_no_zero (s : List Nat) (h : 0 ∉ s) : 0 ∉ doubleQuotes s := by
  induction s with
  | nil => simp [doubleQuotes]
  | cons c s ih =>
    have hc : c ≠ 0 := fun e => h (by simp [e])
    have hs : 0 ∉ s := fun e => h (List.mem_cons_of_mem _ e)
    by_cases hq : c = 34
    · subst hq
      simp only [doubleQuotes, if_true, List.mem_cons, not_or]
      exact ⟨by decide, by decide, ih hs⟩
    · simp only [doubleQuotes, if_neg hq, List.mem_cons, not_or]
      exact ⟨fun e => hc e.symm, ih hs⟩

theorem undoubleQuotes_doubleQuotes (s : List Nat) : undoubleQuotes (doubleQuotes s) = s := by
  induction s with
  | nil => rfl
  | cons c s ih =>
    by_cases hq : c = 34
    · subst hq
      simp only [doubleQuotes, if_true]
      rw [undoubleQuotes, if_pos ⟨rfl, rfl⟩, ih]
    · simp only [doubleQuotes, if_neg hq]
      cases hd : doubleQuotes s with
      | nil =>
        rw [hd] at ih
        rw [undoubleQuotes, ← ih]
        rfl
      | cons b r =>
        rw [hd] at ih
        rw [undoubleQuotes, if_neg (fun e => hq e.1), ih]

theorem cstr_of_no_zero (s : List Nat) (h : 0 ∉ s) : cstr s = s := by
  unfold cstr
  rw [List.takeWhile_eq_self_iff]
  intro x hx
  have : x ≠ 0 := fun e => h (e ▸ hx)
  simp [this]

theorem cstr_append_zero (s r : List Nat) (h : 0 ∉ s) : cstr (s ++ 0 :: r) = s := by
  induction s with
  | nil => exact cstr_cons_zero r
  | cons c s ih =>
    have hc : c ≠ 0 := fun e => h (by simp [e])
    have hs : 0 ∉ s := fun e => h (List.mem_cons_of_mem _ e)
    rw [List.cons_append, cstr_cons_ne _ _ hc, ih hs]

theorem cstr_append_of_no_zero (s r : List Nat) (h : 0 ∉ s) : cstr (s ++ r) = s ++ cstr r := by
  induction s with
  | nil => rfl
  | cons c s ih =>
    have hc : c ≠ 0 := fun e => h (by simp [e])
    have hs : 0 ∉ s := fun e => h (List.mem_cons_of_mem _ e)
    rw [List.cons_append, cstr_cons_ne _ _ hc, ih hs, List.cons_append]

/-- The string that `Escape` returns, for every region `z` and every content
of the memory that `malloc` returns: the string of `z` with its
double-quotes doubled. -/
theorem Escape_eq (z : List Nat) (fill : Nat) : Escape z fill = doubleQuotes (cstr z) := by
  have hsplit := List.takeWhile_append_dropWhile (fun c => c != 0 && c != 34) z
  have hA0 : (0 : Nat) ∉ z.takeWhile (fun c => c != 0 && c != 34) := by
    intro h
    have := List.mem_takeWhile_imp h
    simp at this
  have hA34 : (34 : Nat) ∉ z.takeWhile (fun c => c != 0 && c != 34) := by
    intro h
    have := List.mem_takeWhile_imp h
    simp at this
  have hfirst := escapeFirst_spec (z.length + 1) [] z (by omega)
  simp only [List.nil_append, List.length_nil, Nat.zero_add] at hfirst
  unfold Escape
  simp only []
  rw [hfirst]
  cases hB : z.dropWhile (fun c => c != 0 && c != 34) with
  | nil =>
    rw [hB, List.append_nil] at hsplit
    have hz0 : (0 : Nat) ∉ z := by rw [← hsplit]; exact hA0
    have hz34 : (34 : Nat) ∉ z := by rw [← hsplit]; exact hA34
    rw [hsplit, rd_end, if_pos rfl, cstr_of_no_zero z hz0, doubleQuotes_no_quote z hz34]
  | cons c B =>
    rw [hB] at hsplit
    have hrd : rd z (z.takeWhile (fun c => c != 0 && c != 34)).length = c := by
      have h1 := rd_mid (z.takeWhile (fun c => c != 0 && c != 34)) c B
      rw [hsplit] at h1
      exact h1
    rw [hrd]
    by_cases hc : c = 0
    · subst hc
      rw [if_pos rfl]
      have e : cstr z = z.takeWhile (fun c => c != 0 && c != 34) := by
        have h1 := cstr_append_zero _ B hA0
        rw [hsplit] at h1
        exact h1
      rw [e, doubleQuotes_no_quote _ hA34]
    · rw [if_neg hc]
      have hq : c = 34 := by
        have hne : z.dropWhile (fun c => c != 0 && c != 34) ≠ [] := by rw [hB]; simp
        have h1 := List.head_dropWhile_not (fun c => c != 0 && c != 34) z hne
        simp only [hB, List.head_cons] at h1
        by_contra h34
        simp [hc, h34] at h1
      subst hq
      have ez : cstr z = z.takeWhile (fun c => c != 0 && c != 34) ++ 34 :: cstr B := by
        have h1 := cstr_append_of_no_zero _ (34 :: B) hA0
        rw [hsplit, cstr_cons_ne 34 B (by decide)] at h1
        exact h1
      have hlenB : B.length < z.length + 1 := by
        have := congrArg List.length hsplit
        simp only [List.length_append, List.length_cons] at this
        omega
      have hcount := escapeCount_spec (z.length + 1)
        (z.takeWhile (fun c => c != 0 && c != 34) ++ [34]) B 1 hlenB
      rw [← append_cons_assoc, hsplit, List.length_append, List.length_singleton] at hcount
      rw [hcount]
      simp only []
      have hL : (z.takeWhile (fun c => c != 0 && c != 34)).length + 1 + (cstr B).length
          + (1 + (cstr B).count 34) = (doubleQuotes (cstr z)).length := by
        rw [doubleQuotes_length, ez, List.length_append, List.length_cons, List.count_append,
          List.count_cons_self, List.count_eq_zero_of_not_mem hA34]
        omega
      rw [hL]
      have hcopy := escapeCopy_spec (z.length + 1) [] z []
        (List.replicate ((doubleQuotes (cstr z)).length + 1) fill) (by omega)
        (by
          have h1 : (cstr z).length ≤ z.length := (cstr_isPrefix z).length_le
          have h2 : (doubleQuotes (cstr z)).length ≤ (List.replicate ((doubleQuotes (cstr z)).length + 1) fill).length := by
            rw [List.length_replicate]; omega
          exact h2)
      simp only [List.nil_append, List.length_nil, Nat.zero_add] at hcopy
      rw [hcopy]
      simp only []
      have hdrop : (List.replicate ((doubleQuotes (cstr z)).length + 1) fill).drop
          (doubleQuotes (cstr z)).length = [fill] := by
        rw [List.drop_replicate]
        simp
      rw [hdrop]
      have hw := wr_append (doubleQuotes (cstr z)) [fill] 0 0
      rw [Nat.add_zero] at hw
      rw [hw]
      exact cstr_append_zero _ [] (doubleQuotes_no_zero _ (cstr_no_zero z))

/-- C26: for every region `z` that holds a string and every content of the
memory that `malloc` returns, `Escape(z)` is the string of `z` with each
double-quote replaced by two double-quotes and every other byte unchanged;
its length is the length of the string plus the number of its
double-quotes, and replacing each pair of double-quotes by one gives the
string back. -/
theorem Escape_doubles_quotes (z : List Nat) (fill : Nat) :
    Escape z fill = doubleQuotes (cstr z)
    ∧ (Escape z fill).length = (cstr z).length + (cstr z).count 34
    ∧ undoubleQuotes (Escape z fill) = cstr z := by
  rw [Escape_eq]
  exact ⟨rfl, doubleQuotes_length _, undoubleQuotes_doubleQuotes _⟩

/-! ## Theorems: the name of the content directory (C27) -/

theorem isalnum_iff (c : Nat) :
    isalnum c = true ↔ (48 ≤ c ∧ c ≤ 57) ∨ (65 ≤ c ∧ c ≤ 90) ∨ (97 ≤ c ∧ c ≤ 122) := by
  simp [isalnum, isDigit, isAlpha]

theorem isupper_iff (c : Nat) : isupper c = true ↔ 65 ≤ c ∧ c ≤ 90 := by
  simp [isupper]

theorem tolower_eq (c : Nat) : tolower c = if 65 ≤ c ∧ c ≤ 90 then c + 32 else c := rfl

/-- Two bytes with the same lower-case form: both are letters or digits and
give the same byte of the directory name, or they are the same byte. -/
theorem tolower_pair (a b : Nat) (h : tolower a = tolower b) :
    (isalnum a = true ↔ isalnum b = true) ∧ (isalnum a = false → a = b)
    ∧ (a = 0 → b = 0) ∧ (a = 58 → b = 58) := by
  rw [tolower_eq, tolower_eq] at h
  refine ⟨?_, ?_, ?_, ?_⟩
  · rw [isalnum_iff, isalnum_iff]
    split_ifs at h <;> omega
  · intro hn
    have hn1 : ¬ isalnum a = true := by simp [hn]
    rw [isalnum_iff] at hn1
    split_ifs at h <;> omega
  · intro h0
    split_ifs at h <;> omega
  · intro h0
    split_ifs at h <;> omega

theorem getLast?_cons_ne_nil (c x : Nat) (hs : List Nat) :
    (c :: x :: hs).getLast? = (x :: hs).getLast? := by
  simp [List.getLast?_cons_cons]

/-- The loop over the host name: a letter-case variant `h'` of a name `h`
without NUL and colon that does not end in a dot, followed by bytes at
which the loop stops, gives the bytes of `h` in the directory name. -/
theorem hostLoop_spec : ∀ (h h' tail : List Nat),
    h'.map tolower = h.map tolower → (∀ b ∈ h, b ≠ 0 ∧ b ≠ 58) → h.getLast? ≠ some 46 →
    hostLoop tail = [] →
    hostLoop (h' ++ tail) = h.map hostByte := by
  intro h
  induction h with
  | nil =>
    intro h' tail hmap _ _ htail
    have : h' = [] := by simpa using hmap
    subst this
    simpa using htail
  | cons c hs ih =>
    intro h' tail hmap hmem hlast htail
    cases h' with
    | nil => simp at hmap
    | cons c' hs' =>
      simp only [List.map_cons, List.cons.injEq] at hmap
      obtain ⟨hc, hrest⟩ := hmap
      obtain ⟨p1, p2, p3, p4⟩ := tolower_pair c' c hc
      have hc0 : c ≠ 0 ∧ c ≠ 58 := hmem c (List.mem_cons_self _ _)
      have hc' : ¬ (c' = 0 ∨ c' = 58) := by
        intro e
        rcases e with e | e
        · exact hc0.1 (p3 e)
        · exact hc0.2 (p4 e)
      have hmem' : ∀ b ∈ hs, b ≠ 0 ∧ b ≠ 58 := fun b hb => hmem b (List.mem_cons_of_mem _ hb)
      have hlast' : hs.getLast? ≠ some 46 := by
        cases hs with
        | nil => simp
        | cons x t => rw [getLast?_cons_ne_nil] at hlast; exact hlast
      have hih := ih hs' tail hrest hmem' hlast' htail
      rw [List.cons_append, hostLoop, if_neg hc']
      by_cases hal : isalnum c' = true
      · have hal2 : isalnum c = true := p1.1 hal
        rw [if_neg (by simp [hal])]
        have hb : hostByte c = tolower c' := by
          unfold hostByte
          rw [if_pos hal2, hc]
        by_cases hup : isupper c' = true
        · rw [if_pos hup, hih, List.map_cons, hb]
        · rw [if_neg hup, hih, List.map_cons, hb]
          have : tolower c' = c' := by
            rw [isupper_iff] at hup
            rw [tolower_eq, if_neg hup]
          rw [this]
      · have hal1 : isalnum c' = false := by simpa using hal
        have hcc : c' = c := p2 hal1
        subst hcc
        rw [if_pos (by simp [hal1])]
        have hb : hostByte c' = 95 := by
          unfold hostByte
          rw [if_neg hal]
        have hdot : ¬ (c' = 46 ∧ (rd (hs' ++ tail) 0 = 0 ∨ rd (hs' ++ tail) 0 = 58)) := by
          intro e
          obtain ⟨e1, e2⟩ := e
          subst e1
          cases hs with
          | nil => exact hlast rfl
          | cons x t =>
            cases hs' with
            | nil => simp at hrest
            | cons x' t' =>
              simp only [List.map_cons, List.cons.injEq] at hrest
              obtain ⟨q1, q2, q3, q4⟩ := tolower_pair x' x hrest.1
              have hx := hmem' x (List.mem_cons_self _ _)
              have hr : rd (x' :: t' ++ tail) 0 = x' := rfl
              rw [hr] at e2
              rcases e2 with e2 | e2
              · exact hx.1 (q3 e2)
              · exact hx.2 (q4 e2)
        rw [if_neg hdot, hih, List.map_cons, hb]

theorem hostLoop_stop (p : List Nat) (hp : p = [] ∨ ∃ port, p = 58 :: port) :
    hostLoop p = [] ∧ hostLoop (46 :: p) = [] := by
  rcases hp with e | ⟨port, e⟩
  · subst e
    exact ⟨rfl, by decide⟩
  · subst e
    refine ⟨?_, ?_⟩
    · rw [hostLoop, if_pos (Or.inr rfl)]
    · rw [hostLoop, if_neg (by decide), if_pos (by decide), if_pos ⟨rfl, Or.inr rfl⟩]

/-- C27: for every host name `h` without NUL and colon that does not end in
a dot, every letter-case variant `h'` of `h` (`h` itself is one), and every
`p` that is empty or a colon followed by a port: the hosts `h'p` and `h'.p`
both give the name `<root>/<d>.website`, where `d` is `h` with its letters
in lower case and every byte that is not a letter or a digit replaced by
`_`. -/
theorem host_directory_ignores_case_and_dot (zRoot h h' p : List Nat)
    (hmem : ∀ b ∈ h, b ≠ 0 ∧ b ≠ 58) (hlast : h.getLast? ≠ some 46)
    (hcase : h'.map tolower = h.map tolower)
    (hp : p = [] ∨ ∃ port, p = 58 :: port) :
    hostDirectory zRoot (h' ++ p) = zRoot ++ [47] ++ h.map hostByte ++ bytes ".website"
    ∧ hostDirectory zRoot (h' ++ [46] ++ p)
      = zRoot ++ [47] ++ h.map hostByte ++ bytes ".website" := by
  obtain ⟨s1, s2⟩ := hostLoop_stop p hp
  unfold hostDirectory
  rw [hostLoop_spec h h' p hcase hmem hlast s1]
  rw [List.append_assoc h' [46] p, List.singleton_append,
    hostLoop_spec h h' (46 :: p) hcase hmem hlast s2]
  exact ⟨rfl, rfl⟩

/-- Witness for C27: the hosts `EXAMPLE.com:8080` and `EXAMPLE.com.:8080`
give the directory `example_com.website` of the root. -/
theorem host_directory_ignores_case_and_dot_witness :
    (∀ b ∈ bytes "example.com", b ≠ 0 ∧ b ≠ 58)
    ∧ (bytes "example.com").getLast? ≠ some 46
    ∧ (bytes "EXAMPLE.com").map tolower = (bytes "example.com").map tolower
    ∧ hostDirectory (bytes "/www") (bytes "EXAMPLE.com" ++ bytes ":8080")
      = bytes "/www/example_com.website"
    ∧ hostDirectory (bytes "/www") (bytes "EXAMPLE.com" ++ [46] ++ bytes ":8080")
      = bytes "/www/example_com.website" := by
  set_option maxRecDepth 100000 in
  exact ⟨by decide, by decide, by decide,
    (host_directory_ignores_case_and_dot (bytes "/www") (bytes "example.com")
      (bytes "EXAMPLE.com") (bytes ":8080") (by decide) (by decide) (by decide)
      (Or.inr ⟨bytes "8080", rfl⟩)).1,
    (host_directory_ignores_case_and_dot (bytes "/www") (bytes "example.com")
      (bytes "EXAMPLE.com") (bytes ":8080") (by decide) (by decide) (by decide)
      (Or.inr ⟨bytes "8080", rfl⟩)).2⟩

/-! ## Theorems: the values of a byte range in the static responder (C28) -/

theorem scanD_range (s r : List Nat) (v : Int) (h : scanD s = some (v, r)) :
    v ≤ 2147483647 := by
  unfold scanD at h
  split at h
  all_goals
    split_ifs at h
    simp only [Option.some.injEq, Prod.mk.injEq] at h
    rw [← h.1]
    exact (intOfDigits_range _).2

/-- The first number that line 1805 stores is in the range of `int`. -/
theorem scanRange_range (zVal : List Nat) : (scanRange zVal).2.1 ≤ 2147483647 := by
  unfold scanRange
  cases scanLit (bytes "bytes=") zVal with
  | none => simp
  | some s1 =>
    simp only []
    cases h1 : scanD s1 with
    | none => simp
    | some vr =>
      obtain ⟨x1, s2⟩ := vr
      have hx := scanD_range s1 s2 x1 h1
      simp only []
      cases scanLit [45] s2 with
      | none => exact hx
      | some s3 =>
        simp only []
        cases scanD s3 with
        | none => exact hx
        | some vr2 => exact hx

/-- The `Range:` header keeps the relation of `rangeStart` and `rangeEnd`
that the reset of line 1740 sets up: no range is pending, or the start is
not negative and not above the end. -/
theorem headerRange_inv (c : Ctx) (zVal : List Nat)
    (hinv : c.rangeEnd = 0 ∨ (0 ≤ c.rangeStart ∧ c.rangeStart ≤ c.rangeEnd)) :
    (headerRange c zVal).rangeEnd = 0
      ∨ (0 ≤ (headerRange c zVal).rangeStart
          ∧ (headerRange c zVal).rangeStart ≤ (headerRange c zVal).rangeEnd) := by
  unfold headerRange
  split_ifs with h1 h2 h3
  · exact Or.inr ⟨h2.2.1, h2.2.2⟩
  · right
    simp only []
    have := h3.2
    have hint := scanRange_range zVal
    exact ⟨by omega, by omega⟩
  · exact hinv
  · exact hinv

/-- The values of lines 1329-1340 of `SendFile`, for every file size: a
reply 206 has `0 ≤ rangeStart ≤ rangeEnd ≤ size - 1` and the new size
`rangeEnd - rangeStart + 1`, at least 1; a reply 200 has `rangeStart` reset
to 0 and the size unchanged. -/
theorem rangeReply_bounds (c : Ctx) (n : Int) (hs : c.statusSent = false)
    (hinv : c.rangeEnd = 0 ∨ (0 ≤ c.rangeStart ∧ c.rangeStart ≤ c.rangeEnd)) :
    (c.rangeEnd > 0 ∧ c.rangeStart < n →
      (rangeReply c n).1.zReplyStatus = bytes "206"
      ∧ 0 ≤ (rangeReply c n).1.rangeStart
      ∧ (rangeReply c n).1.rangeStart ≤ (rangeReply c n).1.rangeEnd
      ∧ (rangeReply c n).1.rangeEnd ≤ n - 1
      ∧ (rangeReply c n).2 = (rangeReply c n).1.rangeEnd - (rangeReply c n).1.rangeStart + 1
      ∧ 1 ≤ (rangeReply c n).2)
    ∧ (¬ (c.rangeEnd > 0 ∧ c.rangeStart < n) →
      (rangeReply c n).1.zReplyStatus = bytes "200"
      ∧ (rangeReply c n).1.rangeStart = 0
      ∧ (rangeReply c n).2 = n) := by
  obtain ⟨f1, f2, _, _⟩ := StartResponse_frame c (bytes "206 Partial Content")
  refine ⟨fun hcond => ?_, fun hcond => ?_⟩
  · have hst : (StartResponse c (bytes "206 Partial Content")).zReplyStatus = bytes "206" := by
      rw [StartResponse_zReplyStatus c _ hs]; decide
    have hse : 0 ≤ c.rangeStart ∧ c.rangeStart ≤ c.rangeEnd := by
      rcases hinv with h | h
      · omega
      · exact h
    unfold rangeReply
    rw [if_pos hcond]
    simp only []
    by_cases hge : (StartResponse c (bytes "206 Partial Content")).rangeEnd ≥ n
    · rw [if_pos hge]
      simp only [Ctx.printf, f1]
      exact ⟨hst, hse.1, by omega, le_refl _, by omega, by omega⟩
    · rw [if_neg hge]
      simp only [Ctx.printf, f1, f2]
      rw [f2] at hge
      exact ⟨hst, hse.1, hse.2, by omega, by omega, by omega⟩
  · unfold rangeReply
    rw [if_neg hcond]
    simp only []
    exact ⟨by rw [StartResponse_zReplyStatus c _ hs]; decide, trivial, trivial⟩

/-- The lines `Content-Range` and `Content-length` of the static responder
show the size of the file and the size of the body when they are below
2^31. -/
theorem size_text_small (n : Nat) (hn : n < 2147483648) :
    fmtD (castInt (n : Int)) = fmtNat n := by
  rw [castInt_small n hn, fmtD_natCast]

/-- C28: the values `rangeStart`, `rangeEnd` and the new size are ordered
as they should be for every file size (`rangeReply_bounds`), but lines 1335
and 1345 print the size through the conversion `(int)pStat->st_size`.  For a
file of 2^31 bytes requested without a range the reply is 200 with
`Content-length: -2147483648`; for a file of 2^32+5 bytes and the header
`Range: bytes=0-10` the reply is 206 with `Content-Range: bytes 0-10/5`,
so the end 10 is above the size shown minus one. -/
theorem large_file_size_is_truncated :
    (rangeReply exampleCtx 2147483648).1.zReplyStatus = bytes "200"
    ∧ (rangeReply exampleCtx 2147483648).2 = 2147483648
    ∧ (fileHeaders plainSys (rangeReply exampleCtx 2147483648).1 (exampleReg 2147483648)
        ([109] ++ fmtX 0 ++ [115] ++ fmtX 2147483648) (bytes "video/mp4")
        (rangeReply exampleCtx 2147483648).2).out
      = bytes "HTTP/1.1 200 OK\r\nConnection: keep-alive\r\nDate: Thu, 01 Jan 1970 00:00:00 GMT\r\nLast-Modified: Thu, 01 Jan 1970 00:00:00 GMT\r\nCache-Control: max-age=120\r\nETag: \"m0s80000000\"\r\nContent-type: video/mp4; charset=utf-8\r\nContent-length: -2147483648\r\n\r\n"
    ∧ (headerRange exampleCtx (bytes "bytes=0-10")).rangeStart = 0
    ∧ (headerRange exampleCtx (bytes "bytes=0-10")).rangeEnd = 10
    ∧ (rangeReply (headerRange exampleCtx (bytes "bytes=0-10")) 4294967301).1.out
      = bytes "HTTP/1.1 206 Partial Content\r\nConnection: keep-alive\r\nDate: Thu, 01 Jan 1970 00:00:00 GMT\r\nContent-Range: bytes 0-10/5\r\n"
    ∧ (rangeReply (headerRange exampleCtx (bytes "bytes=0-10")) 4294967301).2 = 11 := by
  set_option maxRecDepth 100000 in
  refine ⟨by decide, by decide, by decide, by decide, by decide, by decide, by decide⟩

/-! ## Theorems: the body of a CGI reply that is not a partial reply (C29) -/

/-- C29: a GET request with the header `Range: bytes=5-10` leaves
`rangeStart` at 5.  A CGI reply with `Status: 404`, or with `Location:`, has
the range cancelled and is not converted to 206, and a reply of three bytes
is not converted either; in all three the framer announces the
`Content-length` of the reply and then discards the first five bytes of the
body, because `xferBytes` is called with `rangeStart` (line 1445), which
only the static responder resets (line 1339).  The same happens to a
request without a `Range:` header when `rangeStart` is left at 5 by an
earlier request on the connection. -/
theorem cgi_reply_without_206_skips_range_start :
    (headerRange exampleCtx (bytes "bytes=5-10")).rangeStart = 5
    ∧ (headerRange exampleCtx (bytes "bytes=5-10")).rangeEnd = 10
    ∧ (CgiHandleReply (headerRange exampleCtx (bytes "bytes=5-10"))
        (bytes "Status: 404 Not Found\nContent-length: 9\n\nnot found") []).out
      = bytes "HTTP/1.1 404 Not Found\nContent-length: 9\r\n\r\nound"
    ∧ (CgiHandleReply (headerRange exampleCtx (bytes "bytes=5-10"))
        (bytes "Location: /moved\nContent-length: 9\n\nmoved on.") []).out
      = bytes "HTTP/1.1 302 Redirect\r\nConnection: keep-alive\r\nDate: Thu, 01 Jan 1970 00:00:00 GMT\r\nLocation: /moved\r\nContent-length: 9\r\n\r\n on."
    ∧ (CgiHandleReply (headerRange exampleCtx (bytes "bytes=5-10"))
        (bytes "Content-length: 3\n\nabc") []).out
      = bytes "HTTP/1.1 200 OK\r\nConnection: keep-alive\r\nDate: Thu, 01 Jan 1970 00:00:00 GMT\r\nContent-length: 3\r\n\r\n"
    ∧ (CgiHandleReply { exampleCtx with rangeStart := 5, rangeEnd := 0 }
        (bytes "Content-length: 5\n\nhello") []).out
      = bytes "HTTP/1.1 200 OK\r\nConnection: keep-alive\r\nDate: Thu, 01 Jan 1970 00:00:00 GMT\r\nContent-length: 5\r\n\r\n" := by
  set_option maxRecDepth 100000 in
  refine ⟨by decide, by decide, by decide, by decide, by decide, by decide⟩

/-! ## Theorems: the probes of the binary search of `GetMimeType` (C30) -/

/-- C30: the table has 191 entries and the search starts with `last` equal
to 191 (line 1188).  For the file name `a.zzz`, whose suffix sorts after
`zip`, the indices read are 95, 143, 167, 179, 185, 188, 190 and then 191,
which is outside the table; the loop itself ends, within the bound on the
number of its passes. -/
theorem mime_search_probes_past_the_table :
    aMime.length = 191
    ∧ suffixIndex (bytes "a.zzz") 4 = 1
    ∧ mimeProbes (bytes "zzz") (aMime.length + 2) 0 aMime.length
      = [95, 143, 167, 179, 185, 188, 190, 191]
    ∧ aMime.get? 191 = none
    ∧ mimeSearch (bytes "zzz") (aMime.length + 2) 0 aMime.length = none
    ∧ GetMimeType (bytes "a.zzz") 5 = none := by
  set_option maxRecDepth 100000 in
  refine ⟨by decide, by decide, by decide, by decide, by decide, by decide⟩

/-! ## Theorems: a request path too long for `zLine` (C5) -/

end Althttpd
